import Mathlib

/-!
Shallow embedding of the RE-Chain-Editor physics-preview module
(`re_chain_physics.py` and `re_chain_preview_operators.py`).

The host (Blender) scene is modelled as an explicit state: a list of
objects, each carrying its constraint stack, world matrix, interaction
mode and selection flag; armature objects additionally carry their bone
list and bone-collection list.  Geometry is exact rational arithmetic:
world matrices are affine maps with a rational 3x3 linear part (the
source's matrices are rototranslations, so `to_quaternion() @ v` is
embedded as applying the linear part).  A bone's length is stored as its
square (`lengthSq`): the source's comparison `length < 1e-5` on the
nonnegative Euclidean length is embedded as the equivalent
`lengthSq < 1e-10`, and `length = 0.05` as `lengthSq = 1/400`, keeping
every definition executable over `ℚ`.

Host operations (`bpy.ops.object.mode_set`, `select_set`, assignment of
`view_layer.objects.active`) are embedded as total state updates; they
only fail in exotic host situations that the source wraps in
`try/except: pass`.  The one real exception path of the source —
`armature.data.bones[bone_name]` raising `KeyError` inside
`ensure_physics_bones` — is embedded with `Except`, and the `finally`
blocks of the source are embedded by applying the restore code on both
the ok and the error path.
-/

/-- A 3-vector over ℚ. -/
structure V3 where
  x : ℚ
  y : ℚ
  z : ℚ
deriving DecidableEq

def V3.add (a b : V3) : V3 := ⟨a.x + b.x, a.y + b.y, a.z + b.z⟩

def V3.sub (a b : V3) : V3 := ⟨a.x - b.x, a.y - b.y, a.z - b.z⟩

def V3.smul (q : ℚ) (a : V3) : V3 := ⟨q * a.x, q * a.y, q * a.z⟩

/-- Squared Euclidean norm. -/
def V3.sqNorm (a : V3) : ℚ := a.x * a.x + a.y * a.y + a.z * a.z

/-- A 3x3 matrix over ℚ, row major. -/
structure Mat3 where
  a00 : ℚ
  a01 : ℚ
  a02 : ℚ
  a10 : ℚ
  a11 : ℚ
  a12 : ℚ
  a20 : ℚ
  a21 : ℚ
  a22 : ℚ
deriving DecidableEq

def Mat3.id : Mat3 := ⟨1, 0, 0, 0, 1, 0, 0, 0, 1⟩

def Mat3.mulVec (m : Mat3) (v : V3) : V3 :=
  ⟨m.a00 * v.x + m.a01 * v.y + m.a02 * v.z,
   m.a10 * v.x + m.a11 * v.y + m.a12 * v.z,
   m.a20 * v.x + m.a21 * v.y + m.a22 * v.z⟩

def Mat3.mul (m n : Mat3) : Mat3 :=
  ⟨m.a00 * n.a00 + m.a01 * n.a10 + m.a02 * n.a20,
   m.a00 * n.a01 + m.a01 * n.a11 + m.a02 * n.a21,
   m.a00 * n.a02 + m.a01 * n.a12 + m.a02 * n.a22,
   m.a10 * n.a00 + m.a11 * n.a10 + m.a12 * n.a20,
   m.a10 * n.a01 + m.a11 * n.a11 + m.a12 * n.a21,
   m.a10 * n.a02 + m.a11 * n.a12 + m.a12 * n.a22,
   m.a20 * n.a00 + m.a21 * n.a10 + m.a22 * n.a20,
   m.a20 * n.a01 + m.a21 * n.a11 + m.a22 * n.a21,
   m.a20 * n.a02 + m.a21 * n.a12 + m.a22 * n.a22⟩

def Mat3.det (m : Mat3) : ℚ :=
  m.a00 * (m.a11 * m.a22 - m.a12 * m.a21)
  - m.a01 * (m.a10 * m.a22 - m.a12 * m.a20)
  + m.a02 * (m.a10 * m.a21 - m.a11 * m.a20)

/-- Inverse by adjugate; yields the zero matrix on a singular input
(the source would raise there, outside every claim's scope). -/
def Mat3.inv (m : Mat3) : Mat3 :=
  let d := m.det
  let k := if d = 0 then 0 else 1 / d
  ⟨k * (m.a11 * m.a22 - m.a12 * m.a21),
   k * (m.a02 * m.a21 - m.a01 * m.a22),
   k * (m.a01 * m.a12 - m.a02 * m.a11),
   k * (m.a12 * m.a20 - m.a10 * m.a22),
   k * (m.a00 * m.a22 - m.a02 * m.a20),
   k * (m.a02 * m.a10 - m.a00 * m.a12),
   k * (m.a10 * m.a21 - m.a11 * m.a20),
   k * (m.a01 * m.a20 - m.a00 * m.a21),
   k * (m.a00 * m.a11 - m.a01 * m.a10)⟩

/-- An affine map (world/armature matrix): linear part plus translation. -/
structure Aff where
  lin : Mat3
  tr : V3
deriving DecidableEq

def Aff.id : Aff := ⟨Mat3.id, ⟨0, 0, 0⟩⟩

def Aff.apply (f : Aff) (v : V3) : V3 := (f.lin.mulVec v).add f.tr

/-- Composition `f @ g` (matrix multiplication of 4x4 affine matrices). -/
def Aff.comp (f g : Aff) : Aff := ⟨f.lin.mul g.lin, (f.lin.mulVec g.tr).add f.tr⟩

/-- `matrix_world.inverted()`. -/
def Aff.inverted (f : Aff) : Aff :=
  let li := f.lin.inv
  ⟨li, V3.smul (-1) (li.mulVec f.tr)⟩

/-- Interaction modes relevant to the source. -/
inductive Mode
  | OBJECT
  | EDIT
  | POSE
  | SCULPT
deriving DecidableEq

/-- Constraint types relevant to the source. -/
inductive CType
  | COPY_LOCATION
  | COPY_ROTATION
  | COPY_TRANSFORMS
  | CHILD_OF
deriving DecidableEq

/-- Constraint owner/target spaces. -/
inductive CSpace
  | WORLD
  | LOCAL
  | POSE_SPACE
deriving DecidableEq

/-- A constraint, both on chain-node objects and on pose bones.
`previewMuted` embeds presence of the `RE_CHAIN_PREVIEW_MUTED` custom
property (the source only ever stores `True` in it or deletes it). -/
structure Constraint where
  name : String
  ctype : CType
  target : Option String
  subtarget : String
  ownerSpace : CSpace
  targetSpace : CSpace
  influence : ℚ
  mute : Bool
  previewMuted : Bool
deriving DecidableEq

/-- One armature bone.  `mat` is the armature-space matrix (head =
translation, bone axes = linear part), `lengthSq` the squared length;
the edit-bone fields (`mat`, `lengthSq`, `useConnect`, `parent`,
`layers`, `btColls`) and the bone/pose-bone fields (`physProp` =
`RE_CHAIN_IS_PHYSICS_BONE`, selection flags, constraint stack) are kept
on one record; an edit session operates on a copy that is committed
back when edit mode is left. -/
structure Bone where
  name : String
  mat : Aff
  lengthSq : ℚ
  useConnect : Bool
  physProp : Bool
  parent : Option String
  layers : List Bool
  btColls : List String
  select : Bool
  selectHead : Bool
  selectTail : Bool
  constraints : List Constraint
deriving DecidableEq

/-- Object payload: plain objects and armatures (with their bone list,
bone-collection name list and active bone). -/
inductive ObjData
  | plain
  | armData (bones : List Bone) (bColls : List String) (activeBone : Option String)
deriving DecidableEq

/-- A scene object. `chainType` is the `"TYPE"` custom property, `sel`
the selection flag, `mode` the object's interaction mode. -/
structure Obj where
  name : String
  chainType : Option String
  matWorld : Aff
  parent : Option String
  children : List String
  constraints : List Constraint
  mode : Mode
  sel : Bool
  data : ObjData
deriving DecidableEq

def Obj.isArm (o : Obj) : Bool :=
  match o.data with
  | .armData _ _ _ => true
  | .plain => false

def Obj.bones (o : Obj) : List Bone :=
  match o.data with
  | .armData bs _ _ => bs
  | .plain => []

def Obj.bColls (o : Obj) : List String :=
  match o.data with
  | .armData _ cs _ => cs
  | .plain => []

/-- The `re_chain_toolpanel` properties the source reads/writes. -/
structure Tool where
  chainColl : Option (List String)
  previewEnabled : Bool
deriving DecidableEq

/-- The whole embedded host state.  `ver4` is `bpy.app.version >= (4,0,0)`;
`bakeOk` is the oracle for whether `bpy.ops.nla.bake` finishes. -/
structure St where
  objs : List Obj
  active : Option String
  tool : Tool
  ver4 : Bool
  bakeOk : Bool
deriving DecidableEq

def St.findObj (s : St) (n : String) : Option Obj :=
  s.objs.find? (fun o => o.name == n)

def St.updObj (s : St) (n : String) (f : Obj → Obj) : St :=
  { s with objs := s.objs.map (fun o => if o.name == n then f o else o) }

/-- `bpy.context.selected_objects`, as names in scene order. -/
def St.selNames (s : St) : List String :=
  (s.objs.filter (fun o => o.sel)).map (fun o => o.name)

def St.modeOf (s : St) (n : String) : Mode :=
  match s.findObj n with
  | some o => o.mode
  | none => Mode.OBJECT

/-- `bpy.ops.object.mode_set(mode=m)`: sets the active object's mode. -/
def St.modeSet (s : St) (m : Mode) : St :=
  match s.active with
  | some a => s.updObj a (fun o => { o with mode := m })
  | none => s

/-- Deselect every object. -/
def St.deselAll (s : St) : St :=
  { s with objs := s.objs.map (fun o => { o with sel := false }) }

/-- `obj.select_set(b)`. -/
def St.setSel (s : St) (n : String) (b : Bool) : St :=
  s.updObj n (fun o => { o with sel := b })

def St.setActive (s : St) (a : Option String) : St :=
  { s with active := a }

/-! ### Embedded source functions (`re_chain_physics.py`) -/

/-- Saved UI state of `_enter_edit_mode`. -/
structure SavedUI where
  prevActive : Option String
  prevMode : Mode
  prevSel : List String
deriving DecidableEq

/-- `get_chain_nodes`: the collection's objects whose `"TYPE"` custom
property equals `"RE_CHAIN_NODE"`; `none` falls back to the toolpanel's
collection. -/
def get_chain_nodes (s : St) (coll : Option (List String)) : List Obj :=
  let c := match coll with
    | none => s.tool.chainColl
    | some c0 => some c0
  match c with
  | none => []
  | some mem => (mem.filterMap s.findObj).filter (fun o => o.chainType == some "RE_CHAIN_NODE")

/-- The `nodes if nodes is not None else get_chain_nodes(chain_collection)`
resolution shared by `find_chain_armature`, `ensure_physics_bones` and
`disable_physics_preview`. -/
def resolve_nodes (s : St) (coll : Option (List String)) (nodes0 : Option (List Obj)) :
    List Obj :=
  match nodes0 with
  | some ns => ns
  | none => get_chain_nodes s coll

/-- `constraint.target and constraint.target.type == "ARMATURE"`. -/
def constraint_target_arm (s : St) (c : Constraint) : Option Obj :=
  match c.target with
  | none => none
  | some tn =>
    match s.findObj tn with
    | none => none
    | some t => if t.isArm then some t else none

/-- `find_chain_armature`. -/
def find_chain_armature (s : St) (coll : Option (List String)) (nodes0 : Option (List Obj)) :
    Option Obj :=
  let nodes := resolve_nodes s coll nodes0
  match nodes.findSome? (fun node => node.constraints.findSome? (constraint_target_arm s)) with
  | some a => some a
  | none =>
    let fromActive : Option Obj := match s.active with
      | some an =>
        match s.findObj an with
        | some ao => if ao.isArm then some ao else none
        | none => none
      | none => none
    match fromActive with
    | some a => some a
    | none =>
      s.objs.findSome? (fun o =>
        if o.isArm then
          if nodes.isEmpty then some o
          else if nodes.any (fun n => o.bones.any (fun b => b.name == n.name)) then some o
          else none
        else none)

/-- The `armature if armature is not None else find_chain_armature(...)`
resolution shared by `ensure_physics_bones` and
`disable_physics_preview` (as a name). -/
def resolve_arm_name (s : St) (coll : Option (List String)) (arm0 : Option String)
    (nodes : List Obj) : Option String :=
  match arm0 with
  | some a => some a
  | none => Option.map (fun (o : Obj) => o.name) (find_chain_armature s coll (some nodes))

/-- `_enter_edit_mode`. -/
def enter_edit_mode (s : St) (armName : String) : St × SavedUI :=
  let prevActive := s.active
  let prevMode := match prevActive with
    | some a => s.modeOf a
    | none => Mode.OBJECT
  let prevSel := s.selNames
  let s1 := if prevActive.isSome && !(prevMode == Mode.OBJECT) then s.modeSet Mode.OBJECT else s
  let s2 := s1.deselAll
  let s3 := s2.setSel armName true
  let s4 := s3.setActive (some armName)
  let s5 := s4.modeSet Mode.EDIT
  (s5, ⟨prevActive, prevMode, prevSel⟩)

/-- `_exit_edit_mode`. -/
def exit_edit_mode (s : St) (saved : SavedUI) : St :=
  let s1 := s.modeSet Mode.OBJECT
  let s2 := s1.deselAll
  let s3 := saved.prevSel.foldl (fun t n => t.setSel n true) s2
  let s4 := s3.setActive saved.prevActive
  if saved.prevActive.isSome && !(saved.prevMode == Mode.OBJECT) then s4.modeSet saved.prevMode
  else s4

/-- First child of the node whose `"TYPE"` is `"RE_CHAIN_NODE"`. -/
def first_chain_child (s : St) (node : Obj) : Option Obj :=
  node.children.findSome? (fun cn =>
    match s.findObj cn with
    | some c => if c.chainType == some "RE_CHAIN_NODE" then some c else none
    | none => none)

/-- `_update_edit_bone_from_node`.  `to_quaternion() @ v` is applying the
linear part (the matrices are rototranslations); `length < 1e-5` /
`length = 0.05` are carried on squares: `lengthSq < 1e-10` /
`lengthSq = 1/400`. -/
def update_edit_bone_from_node (s : St) (b : Bone) (node : Obj) (armInv : Aff) : Bone :=
  let nodeLocal := armInv.comp node.matWorld
  let headWorld := node.matWorld.tr
  let tailWorld := match first_chain_child s node with
    | some c => c.matWorld.tr
    | none => headWorld.add (node.matWorld.lin.mulVec ⟨0, 1 / 20, 0⟩)
  let headLocal := armInv.apply headWorld
  let tailLocal := armInv.apply tailWorld
  let lsq := (tailLocal.sub headLocal).sqNorm
  let lsq := if lsq < (1 : ℚ) / 10000000000 then (1 : ℚ) / 400 else lsq
  { b with mat := nodeLocal, lengthSq := lsq, useConnect := false }

/-- A fresh edit bone (`edit_bones.new(name)`), before the managed
update overwrites its geometry. -/
def new_edit_bone (n : String) : Bone :=
  { name := n, mat := Aff.id, lengthSq := 0, useConnect := false, physProp := false,
    parent := none, layers := List.replicate 32 false, btColls := [],
    select := false, selectHead := false, selectTail := false, constraints := [] }

/-- Update the bone of the given name in a bone list. -/
def mod_bone (l : List Bone) (n : String) (f : Bone → Bone) : List Bone :=
  l.map (fun b => if b.name == n then f b else b)

/-- `node.parent if node.parent and node.parent.get("TYPE") == "RE_CHAIN_NODE" else None`. -/
def chain_parent (s : St) (node : Obj) : Option Obj :=
  match node.parent with
  | none => none
  | some pn =>
    match s.findObj pn with
    | none => none
    | some p => if p.chainType == some "RE_CHAIN_NODE" then some p else none

/-- The layer pattern the source writes for managed bones on
`bpy.app.version < (4, 0, 0)`: all 32 layers off except the last. -/
def managed_layers : List Bool := List.replicate 31 false ++ [true]

/-- The managed-geometry phase of a loop iteration:
`edit_bone[PHYSICS_BONE_PROP] = True; _update_edit_bone_from_node(...)`. -/
def ensure_apply_managed (s : St) (armInv : Aff) (ebs : List Bone) (boneName : String)
    (managed : Bool) (node : Obj) : List Bone :=
  if managed then
    mod_bone ebs boneName
      (fun b => { update_edit_bone_from_node s b node armInv with physProp := true })
  else ebs

/-- The parenting phase of a loop iteration. -/
def ensure_apply_parent (s : St) (ebs : List Bone) (boneName : String) (managed : Bool)
    (node : Obj) : List Bone :=
  match chain_parent s node with
  | some p =>
    if ebs.any (fun b => b.name == p.name) then
      mod_bone ebs boneName (fun b => { b with parent := some p.name })
    else if managed then mod_bone ebs boneName (fun b => { b with parent := none })
    else ebs
  | none =>
    if managed then mod_bone ebs boneName (fun b => { b with parent := none }) else ebs

/-- The bone-collection (4.0+) or layer (pre-4.0) phase of a loop
iteration. -/
def ensure_apply_colls (ver4 : Bool) (ebs : List Bone) (colls : List String)
    (boneName : String) (managed : Bool) : List Bone × List String :=
  if ver4 && managed then
    (mod_bone ebs boneName (fun b =>
        if b.btColls.contains "RE Chain Physics" then b
        else { b with btColls := b.btColls ++ ["RE Chain Physics"] }),
     if colls.contains "RE Chain Physics" then colls else colls ++ ["RE Chain Physics"])
  else if !ver4 && managed then
    (mod_bone ebs boneName (fun b =>
        if b.layers.length == 32 then { b with layers := managed_layers } else b),
     colls)
  else (ebs, colls)

/-- Body of one iteration of the `ensure_physics_bones` loop after the
existence check: managed update, parenting, bone collection / layer
assignment. -/
def ensure_apply (s : St) (armInv : Aff) (ver4 : Bool)
    (ebs : List Bone) (colls : List String) (created : Nat)
    (boneName : String) (managed : Bool) (node : Obj) :
    List Bone × List String × Nat :=
  let e1 := ensure_apply_managed s armInv ebs boneName managed node
  let e2 := ensure_apply_parent s e1 boneName managed node
  let ec := ensure_apply_colls ver4 e2 colls boneName managed
  (ec.1, ec.2, created)

/-- One iteration of the `ensure_physics_bones` loop over a node.
`none` embeds the `KeyError` of `armature.data.bones[bone_name]` when a
same-named edit bone exists but no committed (pre-edit) bone does. -/
def ensure_step (s : St) (preBones : List Bone) (armInv : Aff) (ver4 : Bool)
    (acc : List Bone × List String × Nat) (node : Obj) :
    Option (List Bone × List String × Nat) :=
  let (ebs, colls, created) := acc
  let boneName := node.name
  if ebs.any (fun b => b.name == boneName) then
    match preBones.find? (fun b => b.name == boneName) with
    | none => none
    | some db => some (ensure_apply s armInv ver4 ebs colls created boneName db.physProp node)
  else
    some (ensure_apply s armInv ver4 (ebs ++ [new_edit_bone boneName]) colls (created + 1)
      boneName true node)

/-- The `ensure_physics_bones` node loop; the `Bool` is false when the
loop raised, in which case the partial edit state is still returned
(the `finally` commits it). -/
def ensure_loop (s : St) (preBones : List Bone) (armInv : Aff) (ver4 : Bool) :
    List Obj → List Bone × List String × Nat → (List Bone × List String × Nat) × Bool
  | [], acc => (acc, true)
  | node :: rest, acc =>
    match ensure_step s preBones armInv ver4 acc node with
    | some acc2 => ensure_loop s preBones armInv ver4 rest acc2
    | none => (acc, false)

/-- The payload update committing an edit session into one object. -/
def commit_obj_upd (ebs : List Bone) (colls : List String) (o : Obj) : Obj :=
  match o.data with
  | .armData _ _ ab => { o with data := ObjData.armData ebs colls ab }
  | .plain => o

/-- Leaving edit mode commits the edit bones and bone collections back
into the armature's data. -/
def commit_bones (s : St) (armName : String) (ebs : List Bone) (colls : List String) : St :=
  s.updObj armName (commit_obj_upd ebs colls)

/-- `ensure_physics_bones`.  The second component is `none` when the
body raised (`KeyError`), after the `finally` restored the UI state;
otherwise it carries `(armature, nodes, created_count)` with the
armature as a name. -/
def ensure_physics_bones (s : St) (coll : Option (List String)) (arm0 : Option String)
    (nodes0 : Option (List Obj)) :
    St × Option (Option String × List Obj × Nat) :=
  let nodes := resolve_nodes s coll nodes0
  if nodes.isEmpty then (s, some (none, [], 0))
  else
    match resolve_arm_name s coll arm0 nodes with
    | none => (s, some (none, nodes, 0))
    | some armName =>
      match s.findObj armName with
      | none => (s, some (none, nodes, 0))
      | some arm =>
        let armInv := arm.matWorld.inverted
        let (s1, saved) := enter_edit_mode s armName
        let (acc, ok) := ensure_loop s1 arm.bones armInv s.ver4 nodes (arm.bones, arm.bColls, 0)
        let s2 := commit_bones s1 armName acc.1 acc.2.1
        let s3 := exit_edit_mode s2 saved
        if ok then (s3, some (some armName, nodes, acc.2.2)) else (s3, none)

/-! ### Embedded source functions: preview enable/disable -/

/-- `entry.name == PHYSICS_PREVIEW_CONSTRAINT and entry.type == 'COPY_TRANSFORMS'`. -/
def preview_ct (c : Constraint) : Bool :=
  c.name == "RE Chain Preview" && c.ctype == CType.COPY_TRANSFORMS

/-- The field writes of `enable_physics_preview` on the preview constraint. -/
def set_preview_fields (nodeName : String) (c : Constraint) : Constraint :=
  { c with target := some nodeName, subtarget := "", ownerSpace := CSpace.WORLD,
           targetSpace := CSpace.WORLD, mute := false, influence := 1 }

/-- A fresh `COPY_TRANSFORMS` constraint named `"RE Chain Preview"`. -/
def new_copy_transforms : Constraint :=
  { name := "RE Chain Preview", ctype := CType.COPY_TRANSFORMS, target := none, subtarget := "",
    ownerSpace := CSpace.WORLD, targetSpace := CSpace.WORLD, influence := 1, mute := false,
    previewMuted := false }

/-- Apply `f` to the first element satisfying `p`. -/
def map_first (p : α → Bool) (f : α → α) : List α → List α
  | [] => []
  | a :: rest => if p a then f a :: rest else a :: map_first p f rest

/-- Remove the first element satisfying `p`. -/
def remove_first (p : α → Bool) : List α → List α
  | [] => []
  | a :: rest => if p a then rest else a :: remove_first p rest

/-- The per-pose-bone work of `enable_physics_preview`: reuse (or
create) the preview constraint, set its fields, and set the
`RE_CHAIN_IS_PHYSICS_BONE` property. -/
def enable_pose_bone (nodeName : String) (b : Bone) : Bone :=
  let cs := if b.constraints.any preview_ct then
      map_first preview_ct (set_preview_fields nodeName) b.constraints
    else b.constraints ++ [set_preview_fields nodeName new_copy_transforms]
  { b with constraints := cs, physProp := true }

/-- Whether the armature has a (pose) bone of the given name. -/
def arm_has_bone (s : St) (armName nodeName : String) : Bool :=
  match s.findObj armName with
  | some a => a.bones.any (fun b => b.name == nodeName)
  | none => false

/-- Update the armature's bone list. -/
def upd_arm_bones (s : St) (armName : String) (f : List Bone → List Bone) : St :=
  s.updObj armName (fun o =>
    match o.data with
    | .armData bs cs ab => { o with data := ObjData.armData (f bs) cs ab }
    | .plain => o)

/-- The node-constraint muting step of `enable_physics_preview`. -/
def mute_node_constraint (c : Constraint) : Constraint :=
  if (c.ctype == CType.COPY_LOCATION || c.ctype == CType.COPY_ROTATION)
      && (c.name == "BoneName" || c.name == "BoneRotation") then
    if c.previewMuted then c else { c with previewMuted := true, mute := true }
  else c

/-- `enable_physics_preview`.  The second component is `none` when the
nested `ensure_physics_bones` raised; otherwise `(armature, active_bones)`
with pose bones as names. -/
def enable_physics_preview (s : St) (coll : Option (List String)) (arm0 : Option String)
    (nodes0 : Option (List Obj)) :
    St × Option (Option String × List String) :=
  match ensure_physics_bones s coll arm0 nodes0 with
  | (s1, none) => (s1, none)
  | (s1, some (armO, nodes, _)) =>
    match armO with
    | none => (s1, some (none, []))
    | some armName =>
      let step1 := fun (acc : St × List String) (node : Obj) =>
        if arm_has_bone acc.1 armName node.name then
          (upd_arm_bones acc.1 armName (fun bs => mod_bone bs node.name (enable_pose_bone node.name)),
           acc.2 ++ [node.name])
        else acc
      let s2acc := nodes.foldl step1 (s1, [])
      let s3 := nodes.foldl (fun (t : St) (node : Obj) =>
        t.updObj node.name (fun o => { o with constraints := o.constraints.map mute_node_constraint }))
        s2acc.1
      (s3, some (some armName, s2acc.2))

/-- The node-constraint un-muting step of `disable_physics_preview`. -/
def unmute_node_constraint (c : Constraint) : Constraint :=
  if c.previewMuted then { c with mute := false, previewMuted := false } else c

/-- `pose_bone.constraints.get(PHYSICS_PREVIEW_CONSTRAINT)` is not `None`. -/
def has_preview_name (b : Bone) : Bool :=
  b.constraints.any (fun c => c.name == "RE Chain Preview")

/-- The per-pose-bone work of `disable_physics_preview`. -/
def disable_pose_bone (clear : Bool) (b : Bone) : Bone :=
  if has_preview_name b then
    if clear then
      { b with constraints := remove_first (fun c => c.name == "RE Chain Preview") b.constraints }
    else
      let cs := map_first (fun c => c.name == "RE Chain Preview")
        (fun c => { c with mute := true }) b.constraints
      { b with constraints := cs }
  else b

/-- `disable_physics_preview`; returns `(armature, changed)`. -/
def disable_physics_preview (s : St) (coll : Option (List String)) (arm0 : Option String)
    (nodes0 : Option (List Obj)) (clear : Bool) : St × Option String × Bool :=
  let nodes := resolve_nodes s coll nodes0
  if nodes.isEmpty then (s, none, false)
  else
    match resolve_arm_name s coll arm0 nodes with
    | none => (s, none, false)
    | some armName =>
      let liveConstraints := fun (t : St) (n : String) =>
        match t.findObj n with
        | some o => o.constraints
        | none => []
      let changed1 := nodes.any (fun node =>
        (liveConstraints s node.name).any (fun c => c.previewMuted))
      let s1 := nodes.foldl (fun (t : St) (node : Obj) =>
        t.updObj node.name (fun o => { o with constraints := o.constraints.map unmute_node_constraint }))
        s
      let changed2 := match s1.findObj armName with
        | some a => a.bones.any has_preview_name
        | none => false
      let s2 := upd_arm_bones s1 armName (fun bs => bs.map (disable_pose_bone clear))
      (s2, some armName, changed1 || changed2)

/-! ### Embedded source functions (`re_chain_preview_operators.py`) -/

/-- Operator return values. -/
inductive OpRes
  | FINISHED
  | CANCELLED
deriving DecidableEq

/-- `WM_OT_DisablePhysicsPreview.execute`. -/
def disable_preview_execute (s : St) : St × OpRes :=
  match s.tool.chainColl with
  | none => (s, OpRes.CANCELLED)
  | some coll =>
    let nodes := get_chain_nodes s (some coll)
    if nodes.isEmpty then (s, OpRes.CANCELLED)
    else
      match disable_physics_preview s (some coll) none (some nodes) false with
      | (s1, armO, changed) =>
        if armO.isNone || !changed then (s1, OpRes.CANCELLED)
        else ({ s1 with tool := { s1.tool with previewEnabled := false } }, OpRes.FINISHED)

/-- The dialog properties of `WM_OT_BakePhysicsPreview`. -/
structure BakeParams where
  frameStart : Int
  frameEnd : Int
  clear : Bool
deriving DecidableEq

/-- Set `armature.data.bones.active`. -/
def set_active_bone (s : St) (armName : String) (b : Option String) : St :=
  s.updObj armName (fun o =>
    match o.data with
    | .armData bs cs _ => { o with data := ObjData.armData bs cs b }
    | .plain => o)

/-- The `finally` block of `WM_OT_BakePhysicsPreview.execute`: restore
mode, selection, active object and — only when the bake was invoked on
the armature in pose mode — the per-bone selection flags. -/
def bake_restore (s : St) (armName : String) (origActive : Option String)
    (origSel : List String) (origMode : Mode) (origBoneSel : List String) : St :=
  let s1 := s.modeSet Mode.OBJECT
  let s2 := s1.deselAll
  let s3 := origSel.foldl (fun (t : St) n => t.setSel n true) s2
  let s4 := s3.setActive origActive
  let s5 := if origActive == some armName && origMode == Mode.POSE then
      let t1 := s4.modeSet Mode.POSE
      upd_arm_bones t1 armName (fun bs => bs.map (fun b =>
        if origBoneSel.contains b.name then
          { b with select := true, selectHead := true, selectTail := true }
        else
          { b with select := false, selectHead := false, selectTail := false }))
    else s4
  if origActive.isSome && !(origMode == Mode.OBJECT) then s5.modeSet origMode else s5

/-- The bake operator's "turn the preview back off" step:
`disable_physics_preview(...)` followed by `tool.physicsPreviewEnabled = False`. -/
def bake_teardown (s : St) (coll : List String) (armName : String) (nodes : List Obj)
    (clear : Bool) : St :=
  let r := disable_physics_preview s (some coll) (some armName) (some nodes) clear
  { r.1 with tool := { r.1.tool with previewEnabled := false } }

/-- The part of `WM_OT_BakePhysicsPreview.execute` from the mode switch
through bake, handlers, `finally` and the post-`finally` teardown. -/
def bake_try_part (s2 : St) (coll : List String) (armName : String) (nodes2 : List Obj)
    (poseBones : List String) (wasEnabled : Bool) (p : BakeParams) : St × Option OpRes :=
  let origActive := s2.active
  let origSel := s2.selNames
  let origMode := match origActive with
    | some a => s2.modeOf a
    | none => Mode.OBJECT
  let origBoneSel := if origActive == some armName && s2.modeOf armName == Mode.POSE then
      match s2.findObj armName with
      | some a => (a.bones.filter (fun b => b.select)).map (fun b => b.name)
      | none => []
    else []
  let t0 := if (match s2.active with
      | some a => !(s2.modeOf a == Mode.OBJECT)
      | none => false) then s2.modeSet Mode.OBJECT else s2
  let t1 := t0.deselAll
  let t2 := t1.setSel armName true
  let t3 := t2.setActive (some armName)
  let t4 := t3.modeSet Mode.POSE
  let t5 := upd_arm_bones t4 armName (fun bs => bs.map (fun b =>
    if poseBones.contains b.name then
      { b with select := true, selectHead := true, selectTail := true }
    else
      { b with select := false, selectHead := false, selectTail := false }))
  let t6 := set_active_bone t5 armName poseBones.head?
  if s2.bakeOk then
    let t7 := bake_restore t6 armName origActive origSel origMode origBoneSel
    if !wasEnabled || p.clear then
      (bake_teardown t7 coll armName nodes2 p.clear, some OpRes.FINISHED)
    else
      ({ t7 with tool := { t7.tool with previewEnabled := true } }, some OpRes.FINISHED)
  else
    let u0 := if !wasEnabled || p.clear then bake_teardown t6 coll armName nodes2 p.clear
      else { t6 with tool := { t6.tool with previewEnabled := true } }
    (bake_restore u0 armName origActive origSel origMode origBoneSel, some OpRes.CANCELLED)

/-- `WM_OT_BakePhysicsPreview.execute`.  The second component is `none`
when an uncaught exception propagates out of `execute`. -/
def bake_physics_preview_execute (s : St) (p : BakeParams) : St × Option OpRes :=
  match s.tool.chainColl with
  | none => (s, some OpRes.CANCELLED)
  | some coll =>
    let nodes := get_chain_nodes s (some coll)
    if nodes.isEmpty then (s, some OpRes.CANCELLED)
    else
      match find_chain_armature s (some coll) (some nodes) with
      | none => (s, some OpRes.CANCELLED)
      | some armObj =>
        match ensure_physics_bones s (some coll) (some armObj.name) (some nodes) with
        | (s1, none) => (s1, none)
        | (s1, some (armO, nodes2, _)) =>
          match armO with
          | none => (s1, some OpRes.CANCELLED)
          | some armName =>
            if nodes2.isEmpty then (s1, some OpRes.CANCELLED)
            else
              let wasEnabled := s1.tool.previewEnabled
              match (if !wasEnabled then
                  enable_physics_preview s1 (some coll) (some armName) (some nodes2)
                else (s1, some (some armName, []))) with
              | (s2, none) => (s2, none)
              | (s2, some _) =>
                let poseBones := nodes2.filterMap (fun node =>
                  match s2.findObj armName with
                  | some a => Option.map (fun (b : Bone) => b.name)
                      (a.bones.find? (fun b => b.name == node.name))
                  | none => none)
                if poseBones.isEmpty then
                  if !wasEnabled || p.clear then
                    (bake_teardown s2 coll armName nodes2 p.clear, some OpRes.CANCELLED)
                  else (s2, some OpRes.CANCELLED)
                else
                  bake_try_part s2 coll armName nodes2 poseBones wasEnabled p

/-! ### Toolbox lemmas -/

theorem list_map_eq_self {α : Type} {l : List α} {f : α → α} (h : ∀ a ∈ l, f a = a) :
    l.map f = l := by
  induction l with
  | nil => rfl
  | cons a t ih =>
    simp only [List.map_cons, h a (by simp), ih (fun x hx => h x (by simp [hx]))]

theorem findSome?_eq_head?_filterMap {α β : Type} (f : α → Option β) (l : List α) :
    l.findSome? f = (l.filterMap f).head? := by
  induction l with
  | nil => rfl
  | cons a t ih =>
    cases hfa : f a with
    | none => rw [List.findSome?_cons, List.filterMap_cons, hfa, ih]
    | some b => rw [List.findSome?_cons, List.filterMap_cons, hfa, List.head?_cons]

theorem findSome?_append {α β : Type} (f : α → Option β) (l m : List α) :
    (l ++ m).findSome? f = ((l.findSome? f).orElse (fun _ => m.findSome? f)) := by
  induction l with
  | nil => rfl
  | cons a t ih =>
    cases hfa : f a with
    | none =>
      rw [List.cons_append, List.findSome?_cons, List.findSome?_cons, hfa, ih]
    | some b =>
      rw [List.cons_append, List.findSome?_cons, List.findSome?_cons, hfa]
      rfl

theorem findSome?_guard {α : Type} (p : α → Bool) (l : List α) :
    l.findSome? (fun a => if p a then some a else none) = (l.filter p).head? := by
  induction l with
  | nil => rfl
  | cons a t ih =>
    by_cases hpa : p a
    · simp [List.findSome?_cons, List.filter_cons, hpa]
    · simp [List.findSome?_cons, List.filter_cons, hpa, ih]

/-! ### C9: specification-side armature lookup -/

/-- Modelled from the claim's words: the node constraints, in node order. -/
def spec_node_constraints (nodes : List Obj) : List Constraint :=
  (nodes.map (fun n => n.constraints)).flatten

/-- Claim rule 1: the target of the first node constraint whose target
is an armature object. -/
def spec_rule1 (s : St) (nodes : List Obj) : Option Obj :=
  ((spec_node_constraints nodes).filterMap (constraint_target_arm s)).head?

/-- Claim rule 2: the active object, if it is an armature. -/
def spec_rule2 (s : St) : Option Obj :=
  match s.active with
  | some an =>
    match s.findObj an with
    | some ao => if ao.isArm then some ao else none
    | none => none
  | none => none

/-- Claim rule 3: the first armature in the scene containing a bone
named like one of the nodes, or the first armature at all when the node
list is empty. -/
def spec_rule3 (s : St) (nodes : List Obj) : Option Obj :=
  if nodes.isEmpty then (s.objs.filter (fun o => o.isArm)).head?
  else
    (s.objs.filter (fun o =>
      o.isArm && nodes.any (fun n => o.bones.any (fun b => b.name == n.name)))).head?

/-- The armature lookup as the claim words it: rule 1, else rule 2,
else rule 3, else `none`. -/
def find_chain_armature_spec (s : St) (nodes : List Obj) : Option Obj :=
  (spec_rule1 s nodes).orElse (fun _ => (spec_rule2 s).orElse (fun _ => spec_rule3 s nodes))

theorem findSome?_flatten_constraints (s : St) (nodes : List Obj) :
    nodes.findSome? (fun node => node.constraints.findSome? (constraint_target_arm s))
      = (spec_node_constraints nodes).findSome? (constraint_target_arm s) := by
  induction nodes with
  | nil => rfl
  | cons n t ih =>
    rw [List.findSome?_cons]
    unfold spec_node_constraints
    rw [List.map_cons, List.flatten_cons, findSome?_append]
    cases h : n.constraints.findSome? (constraint_target_arm s) with
    | none =>
      rw [ih]
      rfl
    | some a => rfl

theorem find_chain_armature_eq_spec (s : St) (coll : Option (List String)) (ns : List Obj) :
    find_chain_armature s coll (some ns) = find_chain_armature_spec s ns := by
  unfold find_chain_armature find_chain_armature_spec
  simp only [resolve_nodes]
  rw [findSome?_flatten_constraints]
  cases h1 : (spec_node_constraints ns).findSome? (constraint_target_arm s) with
  | some a =>
    unfold spec_rule1
    rw [← findSome?_eq_head?_filterMap, h1]
    rfl
  | none =>
    unfold spec_rule1
    rw [← findSome?_eq_head?_filterMap, h1]
    show _ = (spec_rule2 s).orElse (fun _ => spec_rule3 s ns)
    cases h2 : spec_rule2 s with
    | some a =>
      unfold spec_rule2 at h2
      simp only [h2]
      rfl
    | none =>
      unfold spec_rule2 at h2
      simp only [h2]
      show _ = spec_rule3 s ns
      unfold spec_rule3
      cases he : ns.isEmpty with
      | true =>
        show (s.objs.findSome? fun o => if o.isArm = true then some o else none)
            = (s.objs.filter (fun o => o.isArm)).head?
        exact findSome?_guard _ _
      | false =>
        have hfun : (fun (o : Obj) =>
            if o.isArm then
              if (false : Bool) then some o
              else if ns.any (fun n => o.bones.any (fun b => b.name == n.name)) then some o
              else none
            else none)
            = (fun (o : Obj) =>
              if o.isArm && ns.any (fun n => o.bones.any (fun b => b.name == n.name))
              then some o else none) := by
          funext o
          cases harm : o.isArm <;> simp [harm]
        rw [hfun]
        show _ = (s.objs.filter (fun o =>
          o.isArm && ns.any (fun n => o.bones.any (fun b => b.name == n.name)))).head?
        exact findSome?_guard _ _

/-- C9: `find_chain_armature` returns the target of the first node
constraint whose target is an armature object; failing that, the active
object if it is an armature; failing that, the first armature in the
scene that contains a bone named like one of the nodes (or the first
armature in the scene at all when the node list is empty); and `none`
when no rule matches. -/
theorem claim_C9_find_chain_armature_spec (s : St) (coll : Option (List String))
    (nodes0 : Option (List Obj)) :
    find_chain_armature s coll nodes0
      = find_chain_armature_spec s
          (match nodes0 with | some ns => ns | none => get_chain_nodes s coll) := by
  cases nodes0 with
  | some ns => exact find_chain_armature_eq_spec s coll ns
  | none =>
    show find_chain_armature s coll none = find_chain_armature_spec s (get_chain_nodes s coll)
    have : find_chain_armature s coll none
        = find_chain_armature s coll (some (get_chain_nodes s coll)) := rfl
    rw [this]
    exact find_chain_armature_eq_spec s coll (get_chain_nodes s coll)

/-! ### State toolbox -/

theorem St.updObj_active (s : St) (n : String) (f : Obj → Obj) :
    (s.updObj n f).active = s.active := rfl

theorem St.updObj_tool (s : St) (n : String) (f : Obj → Obj) :
    (s.updObj n f).tool = s.tool := rfl

theorem St.modeSet_active (s : St) (m : Mode) : (s.modeSet m).active = s.active := by
  unfold St.modeSet
  cases h : s.active with
  | none => exact h
  | some a => exact h

theorem St.modeSet_tool (s : St) (m : Mode) : (s.modeSet m).tool = s.tool := by
  unfold St.modeSet
  cases h : s.active with
  | none => rfl
  | some a => rfl

theorem St.deselAll_active (s : St) : s.deselAll.active = s.active := rfl

theorem St.setSel_active (s : St) (n : String) (b : Bool) : (s.setSel n b).active = s.active := rfl

theorem St.setActive_objs (s : St) (a : Option String) : (s.setActive a).objs = s.objs := rfl

theorem St.setActive_active (s : St) (a : Option String) : (s.setActive a).active = a := rfl

theorem St.setActive_tool (s : St) (a : Option String) : (s.setActive a).tool = s.tool := rfl

theorem St.deselAll_tool (s : St) : s.deselAll.tool = s.tool := rfl

theorem St.setSel_tool (s : St) (n : String) (b : Bool) : (s.setSel n b).tool = s.tool := rfl

/-- `find?` through a name-preserving map. -/
theorem find?_name_map (l : List Obj) (f : Obj → Obj) (x : String)
    (hf : ∀ o, (f o).name = o.name) :
    (l.map f).find? (fun o => o.name == x) = (l.find? (fun o => o.name == x)).map f := by
  induction l with
  | nil => rfl
  | cons o t ih =>
    by_cases h : o.name = x
    · simp [List.find?_cons, hf, h]
    · simp [List.find?_cons, hf, h, ih]

/-- The objects of a fold of `setSel _ true` over a name list. -/
theorem foldl_setSel_objs (ns : List String) (s : St) :
    (ns.foldl (fun (t : St) n => t.setSel n true) s).objs
      = s.objs.map (fun o => if ns.contains o.name then { o with sel := true } else o) := by
  induction ns generalizing s with
  | nil =>
    simp only [List.foldl_nil]
    rw [list_map_eq_self]
    intro a _
    simp
  | cons n t ih =>
    rw [List.foldl_cons, ih]
    show (s.setSel n true).objs.map _ = _
    unfold St.setSel St.updObj
    simp only [List.map_map]
    apply List.map_congr_left
    intro o _
    by_cases h1 : o.name = n
    · by_cases h2 : t.contains o.name <;>
        simp [Function.comp, h1, h2, List.contains_cons]
    · by_cases h2 : t.contains o.name <;>
        simp [Function.comp, h1, h2, List.contains_cons]

theorem foldl_setSel_active (ns : List String) (s : St) :
    (ns.foldl (fun (t : St) n => t.setSel n true) s).active = s.active := by
  induction ns generalizing s with
  | nil => rfl
  | cons n t ih => rw [List.foldl_cons, ih]; rfl

theorem foldl_setSel_tool (ns : List String) (s : St) :
    (ns.foldl (fun (t : St) n => t.setSel n true) s).tool = s.tool := by
  induction ns generalizing s with
  | nil => rfl
  | cons n t ih => rw [List.foldl_cons, ih]; rfl

/-- Objects of `modeSet` as a single map. -/
theorem modeSet_objs (s : St) (m : Mode) :
    (s.modeSet m).objs
      = s.objs.map (fun o =>
          if (match s.active with | some a => o.name == a | none => false) then
            { o with mode := m }
          else o) := by
  unfold St.modeSet St.updObj
  cases h : s.active with
  | none =>
    simp only [h]
    rw [list_map_eq_self]
    intro a _
    rfl
  | some a => simp only [h]

/-- Pointwise object effect of `_exit_edit_mode`, given the active
object of the state it runs on. -/
def exit_obj_upd (tActive : Option String) (saved : SavedUI) (o : Obj) : Obj :=
  let m1 := if (match tActive with | some a => o.name == a | none => false) then Mode.OBJECT
    else o.mode
  let m2 := if saved.prevActive.isSome && !(saved.prevMode == Mode.OBJECT)
      && (match saved.prevActive with | some a => o.name == a | none => false) then
      saved.prevMode
    else m1
  { o with mode := m2, sel := saved.prevSel.contains o.name }

theorem exit_edit_mode_objs (t : St) (saved : SavedUI) :
    (exit_edit_mode t saved).objs = t.objs.map (exit_obj_upd t.active saved) := by
  unfold exit_edit_mode
  by_cases hg : saved.prevActive.isSome && !(saved.prevMode == Mode.OBJECT)
  · rw [if_pos hg]
    rw [modeSet_objs]
    rw [St.setActive_objs, foldl_setSel_objs]
    show (((t.modeSet Mode.OBJECT).deselAll.objs.map _).map _) = _
    unfold St.deselAll
    rw [modeSet_objs]
    simp only [St.modeSet_active, St.deselAll_active, foldl_setSel_active, List.map_map]
    apply List.map_congr_left
    intro o _
    unfold exit_obj_upd
    by_cases h1 : (match t.active with | some a => o.name == a | none => false) = true <;>
      by_cases h2 : o.name ∈ saved.prevSel <;>
        by_cases h3 : (match saved.prevActive with | some a => o.name == a | none => false) = true <;>
          simp [Function.comp, St.setActive_active, h1, h2, h3, hg, apply_ite, List.elem_iff]
  · rw [if_neg hg]
    rw [St.setActive_objs, foldl_setSel_objs]
    show ((t.modeSet Mode.OBJECT).deselAll.objs.map _) = _
    unfold St.deselAll
    rw [modeSet_objs]
    simp only [St.modeSet_active, List.map_map]
    apply List.map_congr_left
    intro o _
    unfold exit_obj_upd
    by_cases h1 : (match t.active with | some a => o.name == a | none => false) = true <;>
      by_cases h2 : o.name ∈ saved.prevSel <;>
        simp [Function.comp, St.setActive_active, h1, h2, hg, apply_ite, List.elem_iff]

theorem exit_edit_mode_active (t : St) (saved : SavedUI) :
    (exit_edit_mode t saved).active = saved.prevActive := by
  unfold exit_edit_mode
  by_cases hg : saved.prevActive.isSome && !(saved.prevMode == Mode.OBJECT)
  · rw [if_pos hg, St.modeSet_active]
    rfl
  · rw [if_neg hg]
    rfl

theorem exit_edit_mode_tool (t : St) (saved : SavedUI) :
    (exit_edit_mode t saved).tool = t.tool := by
  unfold exit_edit_mode
  by_cases hg : saved.prevActive.isSome && !(saved.prevMode == Mode.OBJECT)
  · rw [if_pos hg, St.modeSet_tool, St.setActive_tool, foldl_setSel_tool, St.deselAll_tool,
      St.modeSet_tool]
  · rw [if_neg hg, St.setActive_tool, foldl_setSel_tool, St.deselAll_tool, St.modeSet_tool]

theorem St.setSel_objs (s : St) (n : String) (b : Bool) :
    (s.setSel n b).objs = s.objs.map (fun o => if o.name == n then { o with sel := b } else o) :=
  rfl

theorem St.deselAll_objs (s : St) :
    s.deselAll.objs = s.objs.map (fun o => { o with sel := false }) := rfl

/-- Pointwise object effect of `_enter_edit_mode`. -/
def enter_obj_upd (sActive : Option String) (prevMode : Mode) (armName : String) (o : Obj) :
    Obj :=
  let m1 := if sActive.isSome && !(prevMode == Mode.OBJECT)
      && (match sActive with | some a => o.name == a | none => false) then Mode.OBJECT
    else o.mode
  let m2 := if o.name == armName then Mode.EDIT else m1
  { o with mode := m2, sel := o.name == armName }

theorem enter_edit_mode_objs (s : St) (armName : String) :
    (enter_edit_mode s armName).1.objs
      = s.objs.map (enter_obj_upd s.active
          (match s.active with | some a => s.modeOf a | none => Mode.OBJECT) armName) := by
  unfold enter_edit_mode
  simp only
  rw [modeSet_objs, St.setActive_objs, St.setSel_objs]
  by_cases hg : (s.active.isSome
      && !((match s.active with | some a => s.modeOf a | none => Mode.OBJECT) == Mode.OBJECT))
      = true
  · rw [if_pos hg]
    rw [St.deselAll_objs, modeSet_objs]
    simp only [St.setActive_active, St.setSel_active, St.deselAll_active, St.modeSet_active,
      List.map_map]
    apply List.map_congr_left
    intro o _
    unfold enter_obj_upd
    by_cases h1 : (o.name == armName) = true <;>
      by_cases h2 : (match s.active with | some a => o.name == a | none => false) = true <;>
        simp [Function.comp, h1, h2, hg]
  · rw [if_neg hg]
    rw [St.deselAll_objs]
    simp only [St.setActive_active, St.setSel_active, St.deselAll_active, List.map_map]
    apply List.map_congr_left
    intro o _
    unfold enter_obj_upd
    by_cases h1 : (o.name == armName) = true <;>
      by_cases h2 : (match s.active with | some a => o.name == a | none => false) = true <;>
        simp [Function.comp, h1, h2, hg]

theorem enter_edit_mode_active (s : St) (armName : String) :
    (enter_edit_mode s armName).1.active = some armName := by
  unfold enter_edit_mode
  simp only
  rw [St.modeSet_active, St.setActive_active]

theorem enter_edit_mode_saved (s : St) (armName : String) :
    (enter_edit_mode s armName).2
      = ⟨s.active, (match s.active with | some a => s.modeOf a | none => Mode.OBJECT),
          s.selNames⟩ := rfl

theorem enter_edit_mode_tool (s : St) (armName : String) :
    (enter_edit_mode s armName).1.tool = s.tool := by
  unfold enter_edit_mode
  simp only
  rw [St.modeSet_tool, St.setActive_tool]
  by_cases hg : (s.active.isSome
      && !((match s.active with | some a => s.modeOf a | none => Mode.OBJECT) == Mode.OBJECT))
      = true
  · rw [if_pos hg]
    rw [St.setSel_tool, St.deselAll_tool, St.modeSet_tool]
  · rw [if_neg hg]
    rw [St.setSel_tool, St.deselAll_tool]

theorem St.mem_selNames (s : St) (n : String) :
    n ∈ s.selNames ↔ ∃ o, o ∈ s.objs ∧ o.name = n ∧ o.sel = true := by
  unfold St.selNames
  constructor
  · intro h
    rcases List.mem_map.mp h with ⟨o, ho, rfl⟩
    rcases List.mem_filter.mp ho with ⟨h1, h2⟩
    exact ⟨o, h1, rfl, h2⟩
  · rintro ⟨o, h1, rfl, h2⟩
    exact List.mem_map.mpr ⟨o, List.mem_filter.mpr ⟨h1, h2⟩, rfl⟩

theorem St.findObj_name (s : St) (x : String) (o : Obj) (h : s.findObj x = some o) :
    o.name = x := by
  have := List.find?_some h
  simpa using this

theorem exit_obj_upd_name (ta : Option String) (saved : SavedUI) (o : Obj) :
    (exit_obj_upd ta saved o).name = o.name := rfl

theorem exit_obj_upd_sel (ta : Option String) (saved : SavedUI) (o : Obj) :
    (exit_obj_upd ta saved o).sel = saved.prevSel.contains o.name := rfl

theorem exit_obj_upd_mode (ta : Option String) (saved : SavedUI) (o : Obj) :
    (exit_obj_upd ta saved o).mode
      = if saved.prevActive.isSome && !(saved.prevMode == Mode.OBJECT)
            && (match saved.prevActive with | some a => o.name == a | none => false) then
          saved.prevMode
        else if (match ta with | some a => o.name == a | none => false) then Mode.OBJECT
        else o.mode := rfl

theorem enter_obj_upd_name (sa : Option String) (pm : Mode) (armName : String) (o : Obj) :
    (enter_obj_upd sa pm armName o).name = o.name := rfl

theorem enter_obj_upd_mode (sa : Option String) (pm : Mode) (armName : String) (o : Obj) :
    (enter_obj_upd sa pm armName o).mode
      = if o.name == armName then Mode.EDIT
        else if sa.isSome && !(pm == Mode.OBJECT)
            && (match sa with | some a => o.name == a | none => false) then Mode.OBJECT
        else o.mode := rfl

/-- The UI-restoration core of `ensure_physics_bones`: entering edit
mode, doing anything that only rewrites object payloads (preserving
name, mode and selection flag of each object), and leaving edit mode
restores the active object, the selected set and the active object's
mode. -/
theorem restore_ui_facts (s t : St) (armName : String) (dataF : Obj → Obj)
    (hname : ∀ o, (dataF o).name = o.name)
    (hmode : ∀ o, (dataF o).mode = o.mode)
    (ht : t.objs = (enter_edit_mode s armName).1.objs.map dataF)
    (hta : t.active = some armName) :
    ((exit_edit_mode t (enter_edit_mode s armName).2).active = s.active)
    ∧ (∀ n, n ∈ (exit_edit_mode t (enter_edit_mode s armName).2).selNames ↔ n ∈ s.selNames)
    ∧ (∀ a, s.active = some a →
        (exit_edit_mode t (enter_edit_mode s armName).2).modeOf a = s.modeOf a) := by
  have hsaved := enter_edit_mode_saved s armName
  have hobjs : (exit_edit_mode t (enter_edit_mode s armName).2).objs
      = s.objs.map (fun o =>
          exit_obj_upd (some armName) (enter_edit_mode s armName).2
            (dataF (enter_obj_upd s.active
              (match s.active with | some a => s.modeOf a | none => Mode.OBJECT) armName o))) := by
    rw [exit_edit_mode_objs, hta, ht, enter_edit_mode_objs, List.map_map, List.map_map]
    rfl
  set F := fun o =>
      exit_obj_upd (some armName) (enter_edit_mode s armName).2
        (dataF (enter_obj_upd s.active
          (match s.active with | some a => s.modeOf a | none => Mode.OBJECT) armName o))
    with hF
  have hFname : ∀ o, (F o).name = o.name := by
    intro o
    rw [hF]
    rw [exit_obj_upd_name, hname, enter_obj_upd_name]
  have hFsel : ∀ o, (F o).sel = s.selNames.contains o.name := by
    intro o
    rw [hF]
    rw [exit_obj_upd_sel, hname, enter_obj_upd_name, hsaved]
  refine ⟨?_, ?_, ?_⟩
  · rw [exit_edit_mode_active, hsaved]
  · intro n
    rw [St.mem_selNames, hobjs]
    constructor
    · rintro ⟨o', ho', hn, hsel⟩
      rcases List.mem_map.mp ho' with ⟨o, ho, rfl⟩
      rw [hFname o] at hn
      rw [hFsel o] at hsel
      rw [hn] at hsel
      exact List.elem_iff.mp hsel
    · intro hn
      rcases (St.mem_selNames s n).mp hn with ⟨o, ho, rfl, _⟩
      refine ⟨F o, List.mem_map.mpr ⟨o, ho, rfl⟩, hFname o, ?_⟩
      rw [hFsel o]
      exact List.elem_iff.mpr hn
  · intro a ha
    unfold St.modeOf St.findObj
    rw [hobjs, find?_name_map _ _ _ hFname]
    cases hfo : s.objs.find? (fun o => o.name == a) with
    | none => rfl
    | some o =>
      have honame : o.name = a := by
        have := List.find?_some hfo
        simpa using this
      simp only [Option.map_some]
      show (F o).mode = o.mode
      simp only [hF]
      rw [exit_obj_upd_mode, hsaved]
      dsimp only
      rw [ha]
      dsimp only
      have hthis : s.modeOf a = o.mode := by
        unfold St.modeOf St.findObj
        rw [hfo]
      have hbeq : (o.name == a) = true := by
        rw [honame]
        exact beq_self_eq_true a
      have hinner : (dataF (enter_obj_upd (some a) (s.modeOf a) armName o)).name = o.name := by
        rw [hname, enter_obj_upd_name]
      rw [hinner, hmode, enter_obj_upd_mode]
      by_cases hpm : s.modeOf a = Mode.OBJECT
      · by_cases harm : (o.name == armName) = true
        · simp only [hpm, hbeq, harm]
          simp only [← hthis, hpm]
          simp
        · simp only [hpm, hbeq, harm]
          simp
      · have hcond : ((some a : Option String).isSome && !(s.modeOf a == Mode.OBJECT)
            && (o.name == a)) = true := by
          simp [hpm, hbeq]
        rw [if_pos hcond]
        exact hthis

/-- Every run of `ensure_physics_bones` either leaves the state
untouched (the early-return branches) or is an enter/commit/exit
sandwich around the armature. -/
theorem ensure_state_cases (s : St) (coll : Option (List String)) (arm0 : Option String)
    (nodes0 : Option (List Obj)) :
    (ensure_physics_bones s coll arm0 nodes0).1 = s
    ∨ ∃ armName ebs colls,
        (ensure_physics_bones s coll arm0 nodes0).1
          = exit_edit_mode (commit_bones (enter_edit_mode s armName).1 armName ebs colls)
              (enter_edit_mode s armName).2 := by
  unfold ensure_physics_bones
  dsimp only
  split
  · exact Or.inl rfl
  · split
    · exact Or.inl rfl
    · rename_i armName heq1
      split
      · exact Or.inl rfl
      · rename_i arm heq2
        split
        · exact Or.inr ⟨armName, _, _, rfl⟩
        · exact Or.inr ⟨armName, _, _, rfl⟩

/-- C5: every call of `ensure_physics_bones` (in particular every call
that enters armature edit mode) leaves the view layer's active object,
that object's interaction mode, and the set of selected objects equal
to their pre-call values — both when the body succeeds and when it
raises: the `KeyError` path (embedded as the `none` result) also runs
the `finally` restore, and both result branches share the same final
state. -/
theorem claim_C5_ensure_restores_ui (s : St) (coll : Option (List String))
    (arm0 : Option String) (nodes0 : Option (List Obj)) :
    ((ensure_physics_bones s coll arm0 nodes0).1.active = s.active)
    ∧ (∀ n, n ∈ (ensure_physics_bones s coll arm0 nodes0).1.selNames ↔ n ∈ s.selNames)
    ∧ (∀ a, s.active = some a →
        (ensure_physics_bones s coll arm0 nodes0).1.modeOf a = s.modeOf a) := by
  rcases ensure_state_cases s coll arm0 nodes0 with h | ⟨armName, ebs, colls, h⟩
  · rw [h]
    exact ⟨rfl, fun n => Iff.rfl, fun a _ => rfl⟩
  · rw [h]
    refine restore_ui_facts s (commit_bones (enter_edit_mode s armName).1 armName ebs colls)
      armName
      (fun o => if o.name == armName then commit_obj_upd ebs colls o else o)
      ?_ ?_ rfl ?_
    · intro o
      by_cases hc : (o.name == armName) = true
      · simp only [hc, if_true]
        unfold commit_obj_upd
        cases o.data <;> rfl
      · simp only [hc]
        simp
    · intro o
      by_cases hc : (o.name == armName) = true
      · simp only [hc, if_true]
        unfold commit_obj_upd
        cases o.data <;> rfl
      · simp only [hc]
        simp
    · show (commit_bones (enter_edit_mode s armName).1 armName ebs colls).active = some armName
      unfold commit_bones
      rw [St.updObj_active]
      exact enter_edit_mode_active s armName

/-! ### Loop lemmas for `ensure_physics_bones` -/

def namesOf (l : List Bone) : List String := l.map (fun b => b.name)

theorem mod_bone_names (l : List Bone) (n : String) (f : Bone → Bone)
    (hf : ∀ b, (f b).name = b.name) : namesOf (mod_bone l n f) = namesOf l := by
  unfold namesOf mod_bone
  rw [List.map_map]
  apply List.map_congr_left
  intro b _
  by_cases h : (b.name == n) = true <;> simp [Function.comp, h, hf]

theorem any_name_iff (l : List Bone) (x : String) :
    (l.any (fun b => b.name == x)) = true ↔ x ∈ namesOf l := by
  unfold namesOf
  simp [List.any_eq_true]

theorem ensure_apply_managed_names (s : St) (armInv : Aff) (ebs : List Bone) (bn : String)
    (mg : Bool) (node : Obj) :
    namesOf (ensure_apply_managed s armInv ebs bn mg node) = namesOf ebs := by
  unfold ensure_apply_managed
  cases mg with
  | false => rfl
  | true => exact mod_bone_names _ _ _ (fun b => rfl)

theorem ensure_apply_parent_names (s : St) (ebs : List Bone) (bn : String) (mg : Bool)
    (node : Obj) :
    namesOf (ensure_apply_parent s ebs bn mg node) = namesOf ebs := by
  unfold ensure_apply_parent
  cases chain_parent s node with
  | none =>
    dsimp only
    cases mg with
    | false => rfl
    | true => exact mod_bone_names _ _ _ (fun b => rfl)
  | some p =>
    dsimp only
    by_cases h : (ebs.any (fun b => b.name == p.name)) = true
    · rw [if_pos h]
      exact mod_bone_names _ _ _ (fun b => rfl)
    · rw [if_neg h]
      cases mg with
      | false => rfl
      | true => exact mod_bone_names _ _ _ (fun b => rfl)

theorem ensure_apply_colls_names (ver4 : Bool) (ebs : List Bone) (colls : List String)
    (bn : String) (mg : Bool) :
    namesOf (ensure_apply_colls ver4 ebs colls bn mg).1 = namesOf ebs := by
  unfold ensure_apply_colls
  by_cases h1 : (ver4 && mg) = true
  · rw [if_pos h1]
    exact mod_bone_names _ _ _ (fun b => by
      by_cases hb : "RE Chain Physics" ∈ b.btColls <;> simp [hb])
  · rw [if_neg h1]
    by_cases h2 : (!ver4 && mg) = true
    · rw [if_pos h2]
      exact mod_bone_names _ _ _ (fun b => by
        by_cases hb : (b.layers.length == 32) = true <;> simp [hb])
    · rw [if_neg h2]

theorem ensure_apply_names (s : St) (armInv : Aff) (ver4 : Bool) (ebs : List Bone)
    (colls : List String) (c : Nat) (bn : String) (mg : Bool) (node : Obj) :
    namesOf (ensure_apply s armInv ver4 ebs colls c bn mg node).1 = namesOf ebs := by
  unfold ensure_apply
  dsimp only
  rw [ensure_apply_colls_names, ensure_apply_parent_names, ensure_apply_managed_names]

theorem ensure_apply_created (s : St) (armInv : Aff) (ver4 : Bool) (ebs : List Bone)
    (colls : List String) (c : Nat) (bn : String) (mg : Bool) (node : Obj) :
    (ensure_apply s armInv ver4 ebs colls c bn mg node).2.2 = c := rfl

theorem find?_name_of_mem (l : List Bone) (x : String) (h : x ∈ namesOf l) :
    ∃ b, l.find? (fun b => b.name == x) = some b := by
  apply Option.isSome_iff_exists.mp
  apply List.find?_isSome.mpr
  unfold namesOf at h
  rcases List.mem_map.mp h with ⟨b, hb, rfl⟩
  exact ⟨b, hb, by simp⟩

theorem any_name_eq_of_names (l1 l2 : List Bone) (h : namesOf l1 = namesOf l2) (x : String) :
    (l1.any (fun b => b.name == x)) = (l2.any (fun b => b.name == x)) := by
  apply Bool.coe_iff_coe.mp
  rw [any_name_iff, any_name_iff, h]

/-- Totality, created-count and name coverage of the
`ensure_physics_bones` node loop, for node lists with distinct names
whose already-present names all come from the committed bones. -/
theorem ensure_loop_count (sE : St) (preBones : List Bone) (armInv : Aff) (ver4 : Bool) :
    ∀ (nodes : List Obj) (acc : List Bone × List String × Nat),
    (nodes.map (fun n => n.name)).Nodup →
    (∀ n ∈ nodes, n.name ∈ namesOf acc.1 → n.name ∈ namesOf preBones) →
    ((ensure_loop sE preBones armInv ver4 nodes acc).2 = true)
    ∧ ((ensure_loop sE preBones armInv ver4 nodes acc).1.2.2
        = acc.2.2 + (nodes.filter
            (fun n => !(acc.1.any (fun b => b.name == n.name)))).length)
    ∧ (∀ n ∈ nodes,
        n.name ∈ namesOf (ensure_loop sE preBones armInv ver4 nodes acc).1.1)
    ∧ (∀ x ∈ namesOf acc.1,
        x ∈ namesOf (ensure_loop sE preBones armInv ver4 nodes acc).1.1) := by
  intro nodes
  induction nodes with
  | nil =>
    intro acc _ _
    refine ⟨rfl, by simp [ensure_loop], by simp, fun x hx => hx⟩
  | cons n rest ih =>
    rintro ⟨ebs, colls, c⟩ hnd hdisj
    rw [List.map_cons, List.nodup_cons] at hnd
    obtain ⟨hnmem, hndrest⟩ := hnd
    by_cases hin : (ebs.any (fun b => b.name == n.name)) = true
    · have hpre : n.name ∈ namesOf preBones :=
        hdisj n (by simp) ((any_name_iff _ _).mp hin)
      obtain ⟨db, hdb⟩ := find?_name_of_mem preBones n.name hpre
      have hstep : ensure_step sE preBones armInv ver4 (ebs, colls, c) n
          = some (ensure_apply sE armInv ver4 ebs colls c n.name db.physProp n) := by
        unfold ensure_step
        dsimp only
        rw [if_pos hin, hdb]
      rcases hEA : ensure_apply sE armInv ver4 ebs colls c n.name db.physProp n
        with ⟨e2, co2, c2⟩
      rw [hEA] at hstep
      have he2 : namesOf e2 = namesOf ebs := by
        have := ensure_apply_names sE armInv ver4 ebs colls c n.name db.physProp n
        rw [hEA] at this
        exact this
      have hc2 : c2 = c := by
        have := ensure_apply_created sE armInv ver4 ebs colls c n.name db.physProp n
        rw [hEA] at this
        exact this
      simp only [ensure_loop, hstep]
      have ihr := ih (e2, co2, c2) hndrest (by
        intro m hm hmm
        exact hdisj m (by simp [hm]) (by rw [← he2]; exact hmm))
      obtain ⟨ihok, ihcount, ihmem, ihsub⟩ := ihr
      refine ⟨ihok, ?_, ?_, ?_⟩
      · rw [ihcount]
        dsimp only
        rw [hc2]
        have hfil : rest.filter (fun m => !(e2.any (fun b => b.name == m.name)))
            = rest.filter (fun m => !(ebs.any (fun b => b.name == m.name))) := by
          apply List.filter_congr
          intro m _
          rw [any_name_eq_of_names e2 ebs he2]
        rw [hfil, List.filter_cons]
        simp [hin]
      · intro m hm
        rcases List.mem_cons.mp hm with hm1 | hm2
        · subst hm1
          exact ihsub m.name (by rw [he2]; exact (any_name_iff _ _).mp hin)
        · exact ihmem m hm2
      · intro x hx
        exact ihsub x (by rw [he2]; exact hx)
    · have hstep : ensure_step sE preBones armInv ver4 (ebs, colls, c) n
          = some (ensure_apply sE armInv ver4 (ebs ++ [new_edit_bone n.name]) colls (c + 1)
              n.name true n) := by
        unfold ensure_step
        dsimp only
        rw [if_neg hin]
      rcases hEA : ensure_apply sE armInv ver4 (ebs ++ [new_edit_bone n.name]) colls (c + 1)
          n.name true n with ⟨e2, co2, c2⟩
      rw [hEA] at hstep
      have he2 : namesOf e2 = namesOf ebs ++ [n.name] := by
        have := ensure_apply_names sE armInv ver4 (ebs ++ [new_edit_bone n.name]) colls (c + 1)
          n.name true n
        rw [hEA] at this
        rw [this]
        unfold namesOf new_edit_bone
        simp
      have hc2 : c2 = c + 1 := by
        have := ensure_apply_created sE armInv ver4 (ebs ++ [new_edit_bone n.name]) colls (c + 1)
          n.name true n
        rw [hEA] at this
        exact this
      simp only [ensure_loop, hstep]
      have hrestname : ∀ m, m ∈ rest → m.name ≠ n.name := by
        intro m hm heqn
        exact hnmem (heqn ▸ List.mem_map.mpr ⟨m, hm, rfl⟩)
      have ihr := ih (e2, co2, c2) hndrest (by
        intro m hm hmm
        dsimp only at hmm
        rw [he2] at hmm
        rcases List.mem_append.mp hmm with h1 | h2
        · exact hdisj m (by simp [hm]) h1
        · exact absurd (List.mem_singleton.mp h2) (hrestname m hm))
      obtain ⟨ihok, ihcount, ihmem, ihsub⟩ := ihr
      refine ⟨ihok, ?_, ?_, ?_⟩
      · rw [ihcount]
        dsimp only
        rw [hc2]
        have hfil : rest.filter (fun m => !(e2.any (fun b => b.name == m.name)))
            = rest.filter (fun m => !(ebs.any (fun b => b.name == m.name))) := by
          apply List.filter_congr
          intro m hm
          have : (e2.any (fun b => b.name == m.name))
              = (ebs.any (fun b => b.name == m.name)) := by
            apply Bool.coe_iff_coe.mp
            rw [any_name_iff, any_name_iff, he2]
            constructor
            · intro h
              rcases List.mem_append.mp h with h1 | h2
              · exact h1
              · exact absurd (List.mem_singleton.mp h2) (hrestname m hm)
            · intro h
              exact List.mem_append.mpr (Or.inl h)
          rw [this]
        rw [hfil, List.filter_cons]
        simp [hin]
        omega
      · intro m hm
        rcases List.mem_cons.mp hm with hm1 | hm2
        · subst hm1
          exact ihsub m.name (by rw [he2]; simp)
        · exact ihmem m hm2
      · intro x hx
        exact ihsub x (by rw [he2]; simp [hx])

/-- Full result characterization of `ensure_physics_bones` over its
four branches. -/
theorem ensure_result_cases (s : St) (coll : Option (List String)) (arm0 : Option String)
    (nodes0 : Option (List Obj)) :
    ((resolve_nodes s coll nodes0) = []
        ∧ ensure_physics_bones s coll arm0 nodes0 = (s, some (none, [], 0)))
    ∨ (((resolve_nodes s coll nodes0) ≠ [])
        ∧ resolve_arm_name s coll arm0 (resolve_nodes s coll nodes0) = none
        ∧ ensure_physics_bones s coll arm0 nodes0
            = (s, some (none,
                (resolve_nodes s coll nodes0), 0)))
    ∨ (∃ armName,
        (resolve_nodes s coll nodes0) ≠ []
        ∧ resolve_arm_name s coll arm0 (resolve_nodes s coll nodes0) = some armName
        ∧ s.findObj armName = none
        ∧ ensure_physics_bones s coll arm0 nodes0
            = (s, some (none,
                (resolve_nodes s coll nodes0), 0)))
    ∨ (∃ armName arm,
        (resolve_nodes s coll nodes0) ≠ []
        ∧ resolve_arm_name s coll arm0 (resolve_nodes s coll nodes0) = some armName
        ∧ s.findObj armName = some arm
        ∧ ensure_physics_bones s coll arm0 nodes0
            = (exit_edit_mode
                (commit_bones (enter_edit_mode s armName).1 armName
                  (ensure_loop (enter_edit_mode s armName).1 arm.bones arm.matWorld.inverted
                    s.ver4 (resolve_nodes s coll nodes0)
                    (arm.bones, arm.bColls, 0)).1.1
                  (ensure_loop (enter_edit_mode s armName).1 arm.bones arm.matWorld.inverted
                    s.ver4 (resolve_nodes s coll nodes0)
                    (arm.bones, arm.bColls, 0)).1.2.1)
                (enter_edit_mode s armName).2,
               if (ensure_loop (enter_edit_mode s armName).1 arm.bones arm.matWorld.inverted
                    s.ver4 (resolve_nodes s coll nodes0)
                    (arm.bones, arm.bColls, 0)).2 = true
               then some (some armName,
                    (resolve_nodes s coll nodes0),
                    (ensure_loop (enter_edit_mode s armName).1 arm.bones arm.matWorld.inverted
                      s.ver4 (resolve_nodes s coll nodes0)
                      (arm.bones, arm.bColls, 0)).1.2.2)
               else none)) := by
  by_cases hemp : ((resolve_nodes s coll nodes0).isEmpty)
      = true
  · left
    refine ⟨List.isEmpty_iff.mp hemp, ?_⟩
    unfold ensure_physics_bones
    dsimp only
    rw [if_pos hemp]
  · cases harmN : resolve_arm_name s coll arm0 (resolve_nodes s coll nodes0) with
    | none =>
      right
      left
      refine ⟨fun hc => hemp (by simp [hc]), rfl, ?_⟩
      unfold ensure_physics_bones
      dsimp only
      rw [if_neg hemp, harmN]
    | some armName =>
      cases hfo : s.findObj armName with
      | none =>
        right
        right
        left
        refine ⟨armName, fun hc => hemp (by simp [hc]), rfl, hfo, ?_⟩
        unfold ensure_physics_bones
        dsimp only
        rw [if_neg hemp, harmN]
        dsimp only
        rw [hfo]
      | some arm =>
        right
        right
        right
        refine ⟨armName, arm, fun hc => hemp (by simp [hc]), rfl, hfo, ?_⟩
        unfold ensure_physics_bones
        dsimp only
        rw [if_neg hemp, harmN]
        dsimp only
        rw [hfo]
        dsimp only
        by_cases hlp : (ensure_loop (enter_edit_mode s armName).1 arm.bones
            arm.matWorld.inverted s.ver4 (resolve_nodes s coll nodes0)
            (arm.bones, arm.bColls, 0)).2 = true
        · rw [if_pos hlp, if_pos hlp]
        · rw [if_neg hlp, if_neg hlp]

theorem find?_name_of_mem_nodup (l : List Obj) (o : Obj)
    (hnd : (l.map (fun x => x.name)).Nodup) (ho : o ∈ l) :
    l.find? (fun x => x.name == o.name) = some o := by
  induction l with
  | nil => cases ho
  | cons a t ih =>
    rw [List.map_cons, List.nodup_cons] at hnd
    obtain ⟨hna, hnt⟩ := hnd
    rcases List.mem_cons.mp ho with rfl | hot
    · simp [List.find?_cons]
    · have hne : (a.name == o.name) = false := by
        apply beq_eq_false_iff_ne.mpr
        intro hc
        exact hna (hc ▸ List.mem_map.mpr ⟨o, hot, rfl⟩)
      rw [List.find?_cons, hne]
      exact ih hnt hot

theorem head?_mem {α : Type} (l : List α) (a : α) (h : l.head? = some a) : a ∈ l := by
  cases l with
  | nil => cases h
  | cons x t =>
    rw [List.head?_cons] at h
    injection h with h
    rw [← h]
    exact List.mem_cons_self x t

theorem constraint_target_arm_some (s : St) (c : Constraint) (o : Obj)
    (h : constraint_target_arm s c = some o) :
    o.isArm = true ∧ s.findObj o.name = some o := by
  unfold constraint_target_arm at h
  cases hct : c.target with
  | none =>
    rw [hct] at h
    exact Option.noConfusion h
  | some tn =>
    rw [hct] at h
    dsimp only at h
    cases hft : s.findObj tn with
    | none =>
      rw [hft] at h
      exact Option.noConfusion h
    | some t =>
      rw [hft] at h
      dsimp only at h
      by_cases hta : t.isArm = true
      · rw [if_pos hta] at h
        injection h with h
        subst h
        refine ⟨hta, ?_⟩
        rw [St.findObj_name s tn t hft]
        exact hft
      · rw [if_neg hta] at h
        exact Option.noConfusion h

theorem spec_rule1_found (s : St) (nodes : List Obj) (o : Obj)
    (h : spec_rule1 s nodes = some o) :
    o.isArm = true ∧ s.findObj o.name = some o := by
  unfold spec_rule1 at h
  rcases List.mem_filterMap.mp (head?_mem _ _ h) with ⟨c, _, hc⟩
  exact constraint_target_arm_some s c o hc

theorem spec_rule2_found (s : St) (o : Obj) (h : spec_rule2 s = some o) :
    o.isArm = true ∧ s.findObj o.name = some o := by
  unfold spec_rule2 at h
  cases ha : s.active with
  | none =>
    rw [ha] at h
    exact Option.noConfusion h
  | some an =>
    rw [ha] at h
    dsimp only at h
    cases hf : s.findObj an with
    | none =>
      rw [hf] at h
      exact Option.noConfusion h
    | some ao =>
      rw [hf] at h
      dsimp only at h
      by_cases hao : ao.isArm = true
      · rw [if_pos hao] at h
        injection h with h
        subst h
        refine ⟨hao, ?_⟩
        rw [St.findObj_name s an ao hf]
        exact hf
      · rw [if_neg hao] at h
        exact Option.noConfusion h

theorem spec_rule3_found (s : St) (nodes : List Obj) (o : Obj)
    (h : spec_rule3 s nodes = some o) :
    o.isArm = true ∧ o ∈ s.objs := by
  unfold spec_rule3 at h
  by_cases he : nodes.isEmpty = true
  · rw [if_pos he] at h
    have := List.mem_filter.mp (head?_mem _ _ h)
    exact ⟨this.2, this.1⟩
  · rw [if_neg he] at h
    have := List.mem_filter.mp (head?_mem _ _ h)
    exact ⟨(Bool.and_eq_true_iff.mp this.2).1, this.1⟩

/-- A found chain armature is an armature object. -/
theorem find_chain_armature_isArm (s : St) (coll : Option (List String))
    (nodes0 : Option (List Obj)) (o : Obj)
    (h : find_chain_armature s coll nodes0 = some o) : o.isArm = true := by
  rw [show find_chain_armature s coll nodes0
      = find_chain_armature s coll (some (resolve_nodes s coll nodes0)) from by
        cases nodes0 <;> rfl,
    find_chain_armature_eq_spec] at h
  unfold find_chain_armature_spec at h
  cases h1 : spec_rule1 s (resolve_nodes s coll nodes0) with
  | some a =>
    rw [h1] at h
    have : a = o := by simpa [Option.orElse] using h
    subst this
    exact (spec_rule1_found s _ a h1).1
  | none =>
    rw [h1] at h
    simp only [Option.orElse] at h
    cases h2 : spec_rule2 s with
    | some a =>
      rw [h2] at h
      have : a = o := by simpa using h
      subst this
      exact (spec_rule2_found s a h2).1
    | none =>
      rw [h2] at h
      simp only at h
      exact (spec_rule3_found s _ o h).1

/-- With unique object names, the found chain armature is what a
by-name lookup returns. -/
theorem find_chain_armature_findObj (s : St) (coll : Option (List String))
    (nodes0 : Option (List Obj)) (o : Obj)
    (hnd : (s.objs.map (fun x => x.name)).Nodup)
    (h : find_chain_armature s coll nodes0 = some o) : s.findObj o.name = some o := by
  rw [show find_chain_armature s coll nodes0
      = find_chain_armature s coll (some (resolve_nodes s coll nodes0)) from by
        cases nodes0 <;> rfl,
    find_chain_armature_eq_spec] at h
  unfold find_chain_armature_spec at h
  cases h1 : spec_rule1 s (resolve_nodes s coll nodes0) with
  | some a =>
    rw [h1] at h
    have : a = o := by simpa [Option.orElse] using h
    subst this
    exact (spec_rule1_found s _ a h1).2
  | none =>
    rw [h1] at h
    simp only [Option.orElse] at h
    cases h2 : spec_rule2 s with
    | some a =>
      rw [h2] at h
      have : a = o := by simpa using h
      subst this
      exact (spec_rule2_found s a h2).2
    | none =>
      rw [h2] at h
      simp only at h
      exact find?_name_of_mem_nodup s.objs o hnd (spec_rule3_found s _ o h).2

theorem exit_obj_upd_data (ta : Option String) (saved : SavedUI) (o : Obj) :
    (exit_obj_upd ta saved o).data = o.data := rfl

theorem enter_obj_upd_data (sa : Option String) (pm : Mode) (an : String) (o : Obj) :
    (enter_obj_upd sa pm an o).data = o.data := rfl

/-- Looking up the armature after the enter/commit/exit sandwich. -/
theorem findObj_after_main (s : St) (armName : String) (arm : Obj)
    (hfo : s.findObj armName = some arm) (ebs : List Bone) (colls : List String) :
    (exit_edit_mode (commit_bones (enter_edit_mode s armName).1 armName ebs colls)
        (enter_edit_mode s armName).2).findObj armName
      = some (exit_obj_upd (some armName) (enter_edit_mode s armName).2
          (commit_obj_upd ebs colls
            (enter_obj_upd s.active
              (match s.active with | some a => s.modeOf a | none => Mode.OBJECT)
              armName arm))) := by
  have hta : (commit_bones (enter_edit_mode s armName).1 armName ebs colls).active
      = some armName := by
    unfold commit_bones
    rw [St.updObj_active]
    exact enter_edit_mode_active s armName
  have hname : arm.name = armName := St.findObj_name s armName arm hfo
  unfold St.findObj
  rw [exit_edit_mode_objs, hta]
  rw [find?_name_map _ _ _ (fun o => exit_obj_upd_name _ _ o)]
  have hcommit : (commit_bones (enter_edit_mode s armName).1 armName ebs colls).objs
      = (enter_edit_mode s armName).1.objs.map
          (fun o => if o.name == armName then commit_obj_upd ebs colls o else o) := rfl
  rw [hcommit]
  rw [find?_name_map _ _ _ (fun o => by
    by_cases hc : (o.name == armName) = true
    · simp only [hc, if_true]
      unfold commit_obj_upd
      cases o.data <;> rfl
    · simp only [hc]
      simp)]
  rw [enter_edit_mode_objs]
  rw [find?_name_map _ _ _ (fun o => enter_obj_upd_name _ _ _ o)]
  have harmbeq : ((enter_obj_upd s.active
      (match s.active with | some a => s.modeOf a | none => Mode.OBJECT) armName arm).name
        == armName) = true := by
    rw [enter_obj_upd_name, hname]
    exact beq_self_eq_true armName
  show (Option.map _ (Option.map _ (Option.map _ (s.findObj armName)))) = _
  rw [hfo]
  dsimp only [Option.map]
  rw [if_pos harmbeq]

/-- After the sandwich, `pose.bones` of the armature are exactly the
committed edit bones. -/
theorem arm_has_bone_after_main (s : St) (armName : String) (arm : Obj)
    (hfo : s.findObj armName = some arm) (hArm : arm.isArm = true)
    (ebs : List Bone) (colls : List String) (x : String) :
    arm_has_bone (exit_edit_mode (commit_bones (enter_edit_mode s armName).1 armName ebs colls)
        (enter_edit_mode s armName).2) armName x
      = ebs.any (fun b => b.name == x) := by
  unfold arm_has_bone
  rw [findObj_after_main s armName arm hfo ebs colls]
  dsimp only
  cases hd : arm.data with
  | plain => rw [Obj.isArm, hd] at hArm; cases hArm
  | armData bs cs ab =>
    have hdata : (exit_obj_upd (some armName) (enter_edit_mode s armName).2
        (commit_obj_upd ebs colls
          (enter_obj_upd s.active
            (match s.active with | some a => s.modeOf a | none => Mode.OBJECT)
            armName arm))).data = ObjData.armData ebs colls ab := by
      rw [exit_obj_upd_data]
      unfold commit_obj_upd
      rw [enter_obj_upd_data, hd]
    unfold Obj.bones
    rw [hdata]

/-- C2: when `ensure_physics_bones` returns a non-`None` armature,
every chain node of the collection has an armature bone named exactly
like the node, and the returned created count equals the number of
nodes that had no same-named bone before the call; with an empty node
list it returns `(None, [], 0)`, and with nodes but no armature found
it returns `(None, nodes, 0)`.  Object names (and hence node names) are
unique in the host, taken as `Nodup` hypotheses. -/
theorem claim_C2_ensure_physics_bones (s : St) (coll : Option (List String))
    (nodes0 : Option (List Obj))
    (hndobj : (s.objs.map (fun o => o.name)).Nodup)
    (hndnodes : ((resolve_nodes s coll nodes0).map (fun o => o.name)).Nodup) :
    (resolve_nodes s coll nodes0 = [] →
        ensure_physics_bones s coll none nodes0 = (s, some (none, [], 0)))
    ∧ (resolve_nodes s coll nodes0 ≠ [] →
        find_chain_armature s coll (some (resolve_nodes s coll nodes0)) = none →
        ensure_physics_bones s coll none nodes0
          = (s, some (none, resolve_nodes s coll nodes0, 0)))
    ∧ (∀ s' armName ns c,
        ensure_physics_bones s coll none nodes0 = (s', some (some armName, ns, c)) →
        (∀ n ∈ ns, arm_has_bone s' armName n.name = true)
        ∧ c = (ns.filter (fun n => !(arm_has_bone s armName n.name))).length) := by
  rcases ensure_result_cases s coll none nodes0 with
    ⟨he, heq⟩ | ⟨hne, harmN, heq⟩ | ⟨armName0, hne, harmN, hfoN, heq⟩
    | ⟨armName, arm, hne, harmN, hfo, heq⟩
  · refine ⟨fun _ => heq, fun hne' _ => absurd he hne', ?_⟩
    intro s' armName ns c h
    rw [heq] at h
    injection h with h1 h2
    injection h2 with h2
    injection h2 with h2a h2b
    exact Option.noConfusion h2a
  · refine ⟨fun hc => absurd hc hne, fun _ _ => heq, ?_⟩
    intro s' armName ns c h
    rw [heq] at h
    injection h with h1 h2
    injection h2 with h2
    injection h2 with h2a h2b
    exact Option.noConfusion h2a
  · refine ⟨fun hc => absurd hc hne, fun _ _ => heq, ?_⟩
    intro s' armName ns c h
    rw [heq] at h
    injection h with h1 h2
    injection h2 with h2
    injection h2 with h2a h2b
    exact Option.noConfusion h2a
  · -- main branch: armature found
    have harm' := harmN
    unfold resolve_arm_name at harm'
    dsimp only at harm'
    rcases Option.map_eq_some'.mp harm' with ⟨fo, hfind, hfoname⟩
    have hfofo : s.findObj armName = some fo := by
      rw [← hfoname]
      exact find_chain_armature_findObj s coll
        (some (resolve_nodes s coll nodes0)) fo hndobj hfind
    have harmeq : arm = fo := by
      have h2 := hfo.symm.trans hfofo
      injection h2
    have hisarm : arm.isArm = true := by
      rw [harmeq]
      exact find_chain_armature_isArm s coll (some (resolve_nodes s coll nodes0)) fo hfind
    refine ⟨fun hc => absurd hc hne, ?_, ?_⟩
    · intro _ hfind2
      exfalso
      rw [hfind2] at hfind
      exact Option.noConfusion hfind
    · intro s' armName' ns c h
      rw [heq] at h
      by_cases hlp : (ensure_loop (enter_edit_mode s armName).1 arm.bones
          arm.matWorld.inverted s.ver4 (resolve_nodes s coll nodes0)
          (arm.bones, arm.bColls, 0)).2 = true
      · rw [if_pos hlp] at h
        injection h with h1 h2
        injection h2 with h2
        injection h2 with h2a h2b
        injection h2b with h2b h2c
        injection h2a with h2a
        subst h2a
        subst h2b
        subst h2c
        subst h1
        have key := ensure_loop_count (enter_edit_mode s armName).1 arm.bones
          arm.matWorld.inverted s.ver4 (resolve_nodes s coll nodes0)
          (arm.bones, arm.bColls, 0) hndnodes (fun n _ hmem => hmem)
        obtain ⟨kok, kcount, kmem, ksub⟩ := key
        constructor
        · intro n hn
          rw [arm_has_bone_after_main s armName arm hfo hisarm _ _]
          exact (any_name_iff _ _).mpr (kmem n hn)
        · rw [kcount]
          have hb : ∀ x : String,
              arm_has_bone s armName x = arm.bones.any (fun b => b.name == x) := by
            intro x
            unfold arm_has_bone
            rw [hfo]
          have : (resolve_nodes s coll nodes0).filter
              (fun n => !(arm_has_bone s armName n.name))
              = (resolve_nodes s coll nodes0).filter
                (fun n => !(arm.bones.any (fun b => b.name == n.name))) := by
            apply List.filter_congr
            intro n _
            rw [hb]
          rw [this]
          simp
      · rw [if_neg hlp] at h
        injection h with h1 h2
        exact Option.noConfusion h2

/-! ### Concrete fixture scene -/

/-- Translation-only world matrix. -/
def witA (x y z : ℚ) : Aff := ⟨Mat3.id, ⟨x, y, z⟩⟩

/-- A `"BoneName"` copy-location constraint targeting the armature. -/
def wit_cBN : Constraint :=
  { name := "BoneName", ctype := CType.COPY_LOCATION, target := some "Arm", subtarget := "",
    ownerSpace := CSpace.WORLD, targetSpace := CSpace.WORLD, influence := 1, mute := false,
    previewMuted := false }

/-- Chain node at the origin whose first chain child is `N1`. -/
def wit_node0 : Obj :=
  { name := "N0", chainType := some "RE_CHAIN_NODE", matWorld := witA 0 0 0, parent := none,
    children := ["N1"], constraints := [wit_cBN], mode := Mode.OBJECT, sel := false,
    data := ObjData.plain }

/-- Chain node at `(3, 4, 0)`, child of `N0`. -/
def wit_node1 : Obj :=
  { name := "N1", chainType := some "RE_CHAIN_NODE", matWorld := witA 3 4 0,
    parent := some "N0", children := [], constraints := [wit_cBN], mode := Mode.OBJECT,
    sel := false, data := ObjData.plain }

/-- The armature object, initially without bones. -/
def wit_arm : Obj :=
  { name := "Arm", chainType := none, matWorld := Aff.id, parent := none,
    children := [], constraints := [], mode := Mode.OBJECT, sel := false,
    data := ObjData.armData [] [] none }

/-- The fixture scene. -/
def wit_st : St :=
  { objs := [wit_node0, wit_node1, wit_arm], active := none,
    tool := { chainColl := some ["N0", "N1"], previewEnabled := false },
    ver4 := true, bakeOk := true }

/-- Witness for C2 at the fixture scene. -/
theorem claim_C2_ensure_physics_bones_witness :
    ((wit_st.objs.map (fun o => o.name)).Nodup
      ∧ ((resolve_nodes wit_st (some ["N0", "N1"]) none).map (fun o => o.name)).Nodup)
    ∧ (∀ s' armName ns c,
        ensure_physics_bones wit_st (some ["N0", "N1"]) none none
          = (s', some (some armName, ns, c)) →
        (∀ n ∈ ns, arm_has_bone s' armName n.name = true)
        ∧ c = (ns.filter (fun n => !(arm_has_bone wit_st armName n.name))).length) :=
  ⟨⟨by decide, by decide⟩,
   (claim_C2_ensure_physics_bones wit_st (some ["N0", "N1"]) none (by decide) (by decide)).2.2⟩

/-! ### Per-bone description of the `ensure_physics_bones` loop -/

theorem find?_bname_map (l : List Bone) (f : Bone → Bone) (x : String)
    (hf : ∀ b, (f b).name = b.name) :
    (l.map f).find? (fun b => b.name == x) = (l.find? (fun b => b.name == x)).map f := by
  induction l with
  | nil => rfl
  | cons b t ih =>
    by_cases h : b.name = x
    · simp [List.find?_cons, hf, h]
    · simp [List.find?_cons, hf, h, ih]

theorem find?_mod_bone_ne (l : List Bone) (bn : String) (f : Bone → Bone) (x : String)
    (hf : ∀ b, (f b).name = b.name) (hne : x ≠ bn) :
    (mod_bone l bn f).find? (fun b => b.name == x) = l.find? (fun b => b.name == x) := by
  unfold mod_bone
  rw [find?_bname_map _ _ _ (fun b => by
    by_cases hc : (b.name == bn) = true
    · simp only [hc, if_true]
      exact hf b
    · simp only [hc]
      simp)]
  cases hfx : l.find? (fun b => b.name == x) with
  | none => rfl
  | some b =>
    have hbx : b.name = x := by
      have := List.find?_some hfx
      simpa using this
    have : (b.name == bn) = false := by
      apply beq_eq_false_iff_ne.mpr
      rw [hbx]
      exact hne
    dsimp only [Option.map]
    rw [this]
    simp

theorem find?_mod_bone_self (l : List Bone) (bn : String) (f : Bone → Bone)
    (hf : ∀ b, (f b).name = b.name) :
    (mod_bone l bn f).find? (fun b => b.name == bn)
      = (l.find? (fun b => b.name == bn)).map f := by
  unfold mod_bone
  rw [find?_bname_map _ _ _ (fun b => by
    by_cases hc : (b.name == bn) = true
    · simp only [hc, if_true]
      exact hf b
    · simp only [hc]
      simp)]
  cases hfx : l.find? (fun b => b.name == bn) with
  | none => rfl
  | some b =>
    have hbx : b.name = bn := by
      have := List.find?_some hfx
      simpa using this
    have : (b.name == bn) = true := by
      rw [hbx]
      exact beq_self_eq_true bn
    dsimp only [Option.map]
    rw [this]
    simp

theorem bone_find?_append_single (l : List Bone) (nb : Bone) (x : String) :
    ((l ++ [nb]).find? (fun b => b.name == x))
      = match l.find? (fun b => b.name == x) with
        | some b => some b
        | none => if nb.name == x then some nb else none := by
  induction l with
  | nil =>
    cases h : nb.name == x <;> simp [List.find?_cons, h]
  | cons b t ih =>
    rw [List.cons_append]
    cases h : b.name == x with
    | true => simp [List.find?_cons, h]
    | false =>
      simp only [List.find?_cons, h]
      exact ih

theorem any_eq_false_find?_none (l : List Bone) (x : String)
    (h : (l.any (fun b => b.name == x)) = false) :
    l.find? (fun b => b.name == x) = none := by
  apply List.find?_eq_none.mpr
  intro b hb
  intro hc
  rw [List.any_eq_false] at h
  exact absurd hc (by simpa using h b hb)

theorem ensure_apply_managed_find_ne (sE : St) (armInv : Aff) (ebs : List Bone) (bn : String)
    (mg : Bool) (node : Obj) (x : String) (hne : x ≠ bn) :
    (ensure_apply_managed sE armInv ebs bn mg node).find? (fun b => b.name == x)
      = ebs.find? (fun b => b.name == x) := by
  unfold ensure_apply_managed
  cases mg with
  | false => rfl
  | true => exact find?_mod_bone_ne _ _ _ _ (fun b => rfl) hne

theorem ensure_apply_parent_find_ne (sE : St) (ebs : List Bone) (bn : String) (mg : Bool)
    (node : Obj) (x : String) (hne : x ≠ bn) :
    (ensure_apply_parent sE ebs bn mg node).find? (fun b => b.name == x)
      = ebs.find? (fun b => b.name == x) := by
  unfold ensure_apply_parent
  cases chain_parent sE node with
  | none =>
    dsimp only
    cases mg with
    | false => rfl
    | true => exact find?_mod_bone_ne _ _ _ _ (fun b => rfl) hne
  | some p =>
    dsimp only
    by_cases h : (ebs.any (fun b => b.name == p.name)) = true
    · rw [if_pos h]
      exact find?_mod_bone_ne _ _ _ _ (fun b => rfl) hne
    · rw [if_neg h]
      cases mg with
      | false => rfl
      | true => exact find?_mod_bone_ne _ _ _ _ (fun b => rfl) hne

theorem ensure_apply_colls_find_ne (ver4 : Bool) (ebs : List Bone) (colls : List String)
    (bn : String) (mg : Bool) (x : String) (hne : x ≠ bn) :
    (ensure_apply_colls ver4 ebs colls bn mg).1.find? (fun b => b.name == x)
      = ebs.find? (fun b => b.name == x) := by
  unfold ensure_apply_colls
  by_cases h1 : (ver4 && mg) = true
  · rw [if_pos h1]
    exact find?_mod_bone_ne _ _ _ _ (fun b => by
      by_cases hb : "RE Chain Physics" ∈ b.btColls <;> simp [hb]) hne
  · rw [if_neg h1]
    by_cases h2 : (!ver4 && mg) = true
    · rw [if_pos h2]
      exact find?_mod_bone_ne _ _ _ _ (fun b => by
        by_cases hb : (b.layers.length == 32) = true <;> simp [hb]) hne
    · rw [if_neg h2]

theorem ensure_apply_find_ne (sE : St) (armInv : Aff) (ver4 : Bool) (ebs : List Bone)
    (colls : List String) (c : Nat) (bn : String) (mg : Bool) (node : Obj) (x : String)
    (hne : x ≠ bn) :
    (ensure_apply sE armInv ver4 ebs colls c bn mg node).1.find? (fun b => b.name == x)
      = ebs.find? (fun b => b.name == x) := by
  unfold ensure_apply
  dsimp only
  rw [ensure_apply_colls_find_ne _ _ _ _ _ _ hne, ensure_apply_parent_find_ne _ _ _ _ _ _ hne,
    ensure_apply_managed_find_ne _ _ _ _ _ _ _ hne]

theorem ensure_step_find_ne (sE : St) (preB : List Bone) (armInv : Aff) (ver4 : Bool)
    (acc acc2 : List Bone × List String × Nat) (m : Obj) (x : String)
    (h : ensure_step sE preB armInv ver4 acc m = some acc2) (hne : x ≠ m.name) :
    acc2.1.find? (fun b => b.name == x) = acc.1.find? (fun b => b.name == x) := by
  obtain ⟨ebs, colls, c⟩ := acc
  unfold ensure_step at h
  dsimp only at h
  by_cases hin : (ebs.any (fun b => b.name == m.name)) = true
  · rw [if_pos hin] at h
    cases hdb : preB.find? (fun b => b.name == m.name) with
    | none =>
      rw [hdb] at h
      exact Option.noConfusion h
    | some db =>
      rw [hdb] at h
      injection h with h
      rw [← h]
      exact ensure_apply_find_ne _ _ _ _ _ _ _ _ _ _ hne
  · rw [if_neg hin] at h
    injection h with h
    rw [← h]
    rw [ensure_apply_find_ne _ _ _ _ _ _ _ _ _ _ hne]
    rw [bone_find?_append_single]
    cases hfx : ebs.find? (fun b => b.name == x) with
    | some b => rfl
    | none =>
      dsimp only
      rw [if_neg (by
        unfold new_edit_bone
        simp
        exact fun hc => absurd hc.symm hne)]

theorem ensure_loop_find_ne (sE : St) (preB : List Bone) (armInv : Aff) (ver4 : Bool) :
    ∀ (rest : List Obj) (acc : List Bone × List String × Nat) (x : String),
    x ∉ rest.map (fun n => n.name) →
    (ensure_loop sE preB armInv ver4 rest acc).1.1.find? (fun b => b.name == x)
      = acc.1.find? (fun b => b.name == x) := by
  intro rest
  induction rest with
  | nil => intro acc x _; rfl
  | cons m t ih =>
    intro acc x hx
    rw [List.map_cons] at hx
    have hxm : x ≠ m.name := fun hc => hx (by rw [hc]; exact List.mem_cons_self _ _)
    have hxt : x ∉ t.map (fun n => n.name) := fun hc => hx (List.mem_cons_of_mem _ hc)
    cases hstep : ensure_step sE preB armInv ver4 acc m with
    | none =>
      simp only [ensure_loop, hstep]
    | some acc2 =>
      simp only [ensure_loop, hstep]
      rw [ih acc2 x hxt]
      exact ensure_step_find_ne sE preB armInv ver4 acc acc2 m x hstep hxm

/-- The squared length `_update_edit_bone_from_node` assigns: squared
distance (in armature space) from the node head to the first chain
child (or to the 0.05 offset along the node's local Y axis), with
`0.05²` substituted when it is below `(1e-5)²`. -/
def node_length_sq (sE : St) (node : Obj) (armInv : Aff) : ℚ :=
  let headWorld := node.matWorld.tr
  let tailWorld := match first_chain_child sE node with
    | some c => c.matWorld.tr
    | none => headWorld.add (node.matWorld.lin.mulVec ⟨0, 1 / 20, 0⟩)
  let lsq := ((armInv.apply tailWorld).sub (armInv.apply headWorld)).sqNorm
  if lsq < (1 : ℚ) / 10000000000 then (1 : ℚ) / 400 else lsq

theorem update_edit_bone_mat (sE : St) (b : Bone) (node : Obj) (armInv : Aff) :
    (update_edit_bone_from_node sE b node armInv).mat = armInv.comp node.matWorld := rfl

theorem update_edit_bone_lengthSq (sE : St) (b : Bone) (node : Obj) (armInv : Aff) :
    (update_edit_bone_from_node sE b node armInv).lengthSq = node_length_sq sE node armInv := rfl

theorem update_edit_bone_useConnect (sE : St) (b : Bone) (node : Obj) (armInv : Aff) :
    (update_edit_bone_from_node sE b node armInv).useConnect = false := rfl

theorem managed_phase_self_true (sE : St) (armInv : Aff) (ebs : List Bone) (bn : String)
    (node : Obj) (b : Bone) (h : ebs.find? (fun bb => bb.name == bn) = some b) :
    (ensure_apply_managed sE armInv ebs bn true node).find? (fun bb => bb.name == bn)
      = some { update_edit_bone_from_node sE b node armInv with physProp := true } := by
  unfold ensure_apply_managed
  rw [if_pos rfl]
  rw [find?_mod_bone_self ebs bn
    (fun b => { update_edit_bone_from_node sE b node armInv with physProp := true })
    (fun b => rfl), h]
  rfl

theorem managed_phase_self_false (sE : St) (armInv : Aff) (ebs : List Bone) (bn : String)
    (node : Obj) :
    ensure_apply_managed sE armInv ebs bn false node = ebs := rfl

theorem parent_phase_self (sE : St) (ebs : List Bone) (bn : String) (mg : Bool) (node : Obj)
    (b : Bone) (h : ebs.find? (fun bb => bb.name == bn) = some b) :
    ∃ b', (ensure_apply_parent sE ebs bn mg node).find? (fun bb => bb.name == bn) = some b'
      ∧ b'.mat = b.mat ∧ b'.lengthSq = b.lengthSq ∧ b'.useConnect = b.useConnect
      ∧ b'.physProp = b.physProp ∧ b'.layers = b.layers ∧ b'.btColls = b.btColls
      ∧ b'.select = b.select ∧ b'.selectHead = b.selectHead ∧ b'.selectTail = b.selectTail
      ∧ b'.constraints = b.constraints
      ∧ (b'.parent = b.parent ∨ (mg = true ∧ b'.parent = none)
          ∨ ∃ p, chain_parent sE node = some p ∧ b'.parent = some p.name) := by
  unfold ensure_apply_parent
  cases hcp : chain_parent sE node with
  | none =>
    dsimp only
    cases mg with
    | false => exact ⟨b, h, rfl, rfl, rfl, rfl, rfl, rfl, rfl, rfl, rfl, rfl, Or.inl rfl⟩
    | true =>
      rw [if_pos rfl]
      rw [find?_mod_bone_self ebs bn (fun b => { b with parent := none }) (fun b => rfl), h]
      exact ⟨{ b with parent := none }, rfl, rfl, rfl, rfl, rfl, rfl, rfl, rfl, rfl, rfl, rfl,
        Or.inr (Or.inl ⟨rfl, rfl⟩)⟩
  | some p =>
    dsimp only
    by_cases hany : (ebs.any (fun bb => bb.name == p.name)) = true
    · rw [if_pos hany]
      rw [find?_mod_bone_self ebs bn (fun b => { b with parent := some p.name })
        (fun b => rfl), h]
      exact ⟨{ b with parent := some p.name }, rfl, rfl, rfl, rfl, rfl, rfl, rfl, rfl, rfl, rfl,
        rfl, Or.inr (Or.inr ⟨p, rfl, rfl⟩)⟩
    · rw [if_neg hany]
      cases mg with
      | false => exact ⟨b, h, rfl, rfl, rfl, rfl, rfl, rfl, rfl, rfl, rfl, rfl, Or.inl rfl⟩
      | true =>
        rw [if_pos rfl]
        rw [find?_mod_bone_self ebs bn (fun b => { b with parent := none }) (fun b => rfl), h]
        exact ⟨{ b with parent := none }, rfl, rfl, rfl, rfl, rfl, rfl, rfl, rfl, rfl, rfl, rfl,
          Or.inr (Or.inl ⟨rfl, rfl⟩)⟩

theorem colls_phase_self (ver4 : Bool) (ebs : List Bone) (colls : List String) (bn : String)
    (mg : Bool) (b : Bone) (h : ebs.find? (fun bb => bb.name == bn) = some b) :
    ∃ b', (ensure_apply_colls ver4 ebs colls bn mg).1.find? (fun bb => bb.name == bn) = some b'
      ∧ b'.mat = b.mat ∧ b'.lengthSq = b.lengthSq ∧ b'.useConnect = b.useConnect
      ∧ b'.physProp = b.physProp ∧ b'.parent = b.parent
      ∧ b'.select = b.select ∧ b'.selectHead = b.selectHead ∧ b'.selectTail = b.selectTail
      ∧ b'.constraints = b.constraints
      ∧ (mg = false → b'.layers = b.layers ∧ b'.btColls = b.btColls) := by
  unfold ensure_apply_colls
  by_cases h1 : (ver4 && mg) = true
  · rw [if_pos h1]
    dsimp only
    rw [find?_mod_bone_self ebs bn
      (fun bb => if bb.btColls.contains "RE Chain Physics" then bb
        else { bb with btColls := bb.btColls ++ ["RE Chain Physics"] })
      (fun bb => by
        by_cases hb : "RE Chain Physics" ∈ bb.btColls <;> simp [hb]), h]
    by_cases hb : "RE Chain Physics" ∈ b.btColls
    · refine ⟨b, by simp [hb], rfl, rfl, rfl, rfl, rfl, rfl, rfl, rfl, rfl, fun _ => ⟨rfl, rfl⟩⟩
    · refine ⟨{ b with btColls := b.btColls ++ ["RE Chain Physics"] }, by simp [hb],
        rfl, rfl, rfl, rfl, rfl, rfl, rfl, rfl, rfl, ?_⟩
      intro hmg
      rw [hmg] at h1
      simp at h1
  · rw [if_neg h1]
    by_cases h2 : (!ver4 && mg) = true
    · rw [if_pos h2]
      dsimp only
      rw [find?_mod_bone_self ebs bn
        (fun bb => if bb.layers.length == 32 then { bb with layers := managed_layers } else bb)
        (fun bb => by
          by_cases hl : (bb.layers.length == 32) = true <;> simp [hl]), h]
      by_cases hl : (b.layers.length == 32) = true
      · refine ⟨{ b with layers := managed_layers },
          by dsimp only [Option.map]; rw [if_pos hl],
          rfl, rfl, rfl, rfl, rfl, rfl, rfl, rfl, rfl, ?_⟩
        intro hmg
        rw [hmg] at h2
        simp at h2
      · refine ⟨b, by dsimp only [Option.map]; rw [if_neg hl], rfl, rfl, rfl, rfl, rfl, rfl, rfl, rfl, rfl,
          fun _ => ⟨rfl, rfl⟩⟩
    · rw [if_neg h2]
      exact ⟨b, h, rfl, rfl, rfl, rfl, rfl, rfl, rfl, rfl, rfl, fun _ => ⟨rfl, rfl⟩⟩

theorem any_eq_isSome_find? (l : List Bone) (x : String) :
    (l.any (fun b => b.name == x)) = (l.find? (fun b => b.name == x)).isSome := by
  apply Bool.coe_iff_coe.mp
  rw [List.any_eq_true, List.find?_isSome]

theorem ensure_step_succeeds (sE : St) (preB : List Bone) (armInv : Aff) (ver4 : Bool)
    (ebs : List Bone) (colls : List String) (c : Nat) (m : Obj)
    (hd : m.name ∈ namesOf ebs → m.name ∈ namesOf preB) :
    ∃ acc2, ensure_step sE preB armInv ver4 (ebs, colls, c) m = some acc2 := by
  unfold ensure_step
  dsimp only
  by_cases hin : (ebs.any (fun b => b.name == m.name)) = true
  · rw [if_pos hin]
    obtain ⟨db, hdb⟩ := find?_name_of_mem preB m.name (hd ((any_name_iff _ _).mp hin))
    rw [hdb]
    exact ⟨_, rfl⟩
  · rw [if_neg hin]
    exact ⟨_, rfl⟩

theorem ensure_step_names (sE : St) (preB : List Bone) (armInv : Aff) (ver4 : Bool)
    (ebs : List Bone) (colls : List String) (c : Nat) (m : Obj)
    (acc2 : List Bone × List String × Nat)
    (h : ensure_step sE preB armInv ver4 (ebs, colls, c) m = some acc2) :
    namesOf acc2.1 = namesOf ebs ∨ namesOf acc2.1 = namesOf ebs ++ [m.name] := by
  unfold ensure_step at h
  dsimp only at h
  by_cases hin : (ebs.any (fun b => b.name == m.name)) = true
  · rw [if_pos hin] at h
    cases hdb : preB.find? (fun b => b.name == m.name) with
    | none => rw [hdb] at h; exact Option.noConfusion h
    | some db =>
      rw [hdb] at h
      injection h with h
      left
      rw [← h]
      exact ensure_apply_names _ _ _ _ _ _ _ _ _
  · rw [if_neg hin] at h
    injection h with h
    right
    rw [← h]
    rw [ensure_apply_names]
    unfold namesOf new_edit_bone
    simp

/-- What one loop iteration does to the bone of its own node. -/
theorem ensure_step_self_desc (sE : St) (preB : List Bone) (armInv : Aff) (ver4 : Bool)
    (ebs : List Bone) (colls : List String) (c : Nat) (n : Obj)
    (acc2 : List Bone × List String × Nat)
    (h : ensure_step sE preB armInv ver4 (ebs, colls, c) n = some acc2) :
    ∃ b, acc2.1.find? (fun bb => bb.name == n.name) = some b
    ∧ (((ebs.any (fun bb => bb.name == n.name)) = false
          ∨ ∃ db, preB.find? (fun bb => bb.name == n.name) = some db ∧ db.physProp = true) →
        b.mat = armInv.comp n.matWorld ∧ b.lengthSq = node_length_sq sE n armInv
        ∧ b.useConnect = false ∧ b.physProp = true)
    ∧ (∀ eb0 db, ebs.find? (fun bb => bb.name == n.name) = some eb0 →
        preB.find? (fun bb => bb.name == n.name) = some db → db.physProp = false →
        b.mat = eb0.mat ∧ b.lengthSq = eb0.lengthSq ∧ b.useConnect = eb0.useConnect
        ∧ b.physProp = eb0.physProp ∧ b.layers = eb0.layers ∧ b.btColls = eb0.btColls
        ∧ b.select = eb0.select ∧ b.selectHead = eb0.selectHead
        ∧ b.selectTail = eb0.selectTail ∧ b.constraints = eb0.constraints
        ∧ (b.parent = eb0.parent
            ∨ ∃ p, chain_parent sE n = some p ∧ b.parent = some p.name)) := by
  unfold ensure_step at h
  dsimp only at h
  by_cases hin : (ebs.any (fun bb => bb.name == n.name)) = true
  · rw [if_pos hin] at h
    cases hdb : preB.find? (fun b => b.name == n.name) with
    | none => rw [hdb] at h; exact Option.noConfusion h
    | some db =>
      rw [hdb] at h
      injection h with h
      obtain ⟨eb0, hfind0⟩ := Option.isSome_iff_exists.mp
        (by rw [← any_eq_isSome_find?]; exact hin)
      cases hP : db.physProp with
      | true =>
        have h1 := managed_phase_self_true sE armInv ebs n.name n eb0 hfind0
        obtain ⟨b1, hb1, e1⟩ := parent_phase_self sE
          (ensure_apply_managed sE armInv ebs n.name true n) n.name true n
          ({ update_edit_bone_from_node sE eb0 n armInv with physProp := true }) h1
        obtain ⟨b2, hb2, e2⟩ := colls_phase_self ver4
          (ensure_apply_parent sE (ensure_apply_managed sE armInv ebs n.name true n)
            n.name true n) colls n.name true b1 hb1
        refine ⟨b2, ?_, ?_, ?_⟩
        · rw [← h]
          unfold ensure_apply
          dsimp only
          rw [hP]
          exact hb2
        · intro _
          refine ⟨?_, ?_, ?_, ?_⟩
          · rw [e2.1, e1.1, update_edit_bone_mat]
          · rw [e2.2.1, e1.2.1, update_edit_bone_lengthSq]
          · rw [e2.2.2.1, e1.2.2.1, update_edit_bone_useConnect]
          · rw [e2.2.2.2.1, e1.2.2.2.1]
        · intro eb0' db' h1' h2' h3'
          injection h2' with h2'
          rw [← h2', hP] at h3'
          exact Bool.noConfusion h3'
      | false =>
        rw [hP] at h
        have h0 : ensure_apply_managed sE armInv ebs n.name false n = ebs := rfl
        obtain ⟨b1, hb1, e1⟩ := parent_phase_self sE ebs n.name false n eb0 hfind0
        obtain ⟨b2, hb2, e2⟩ := colls_phase_self ver4
          (ensure_apply_parent sE ebs n.name false n) colls n.name false b1 hb1
        refine ⟨b2, ?_, ?_, ?_⟩
        · rw [← h]
          unfold ensure_apply
          dsimp only
          rw [h0]
          exact hb2
        · intro hc
          exfalso
          rcases hc with hc | ⟨db', hdb', hp'⟩
          · rw [hin] at hc
            exact Bool.noConfusion hc
          · injection hdb' with hdb'
            rw [← hdb', hP] at hp'
            exact Bool.noConfusion hp'
        · intro eb0' db' h1' h2' h3'
          rw [hfind0] at h1'
          injection h1' with h1'
          subst h1'
          have hlb := e2.2.2.2.2.2.2.2.2.2 rfl
          refine ⟨by rw [e2.1, e1.1], by rw [e2.2.1, e1.2.1],
            by rw [e2.2.2.1, e1.2.2.1], by rw [e2.2.2.2.1, e1.2.2.2.1],
            by rw [hlb.1, e1.2.2.2.2.1], by rw [hlb.2, e1.2.2.2.2.2.1],
            by rw [e2.2.2.2.2.2.1, e1.2.2.2.2.2.2.1],
            by rw [e2.2.2.2.2.2.2.1, e1.2.2.2.2.2.2.2.1],
            by rw [e2.2.2.2.2.2.2.2.1, e1.2.2.2.2.2.2.2.2.1],
            by rw [e2.2.2.2.2.2.2.2.2.1, e1.2.2.2.2.2.2.2.2.2.1], ?_⟩
          rcases e1.2.2.2.2.2.2.2.2.2.2 with hp | ⟨hmg, _⟩ | ⟨p, hcp, hpp⟩
          · left
            rw [e2.2.2.2.2.1, hp]
          · exact Bool.noConfusion hmg
          · right
            exact ⟨p, hcp, by rw [e2.2.2.2.2.1, hpp]⟩
  · rw [if_neg hin] at h
    injection h with h
    have hnone : ebs.find? (fun bb => bb.name == n.name) = none :=
      any_eq_false_find?_none ebs n.name (by
        cases hx : ebs.any (fun bb => bb.name == n.name)
        · rfl
        · exact absurd hx hin)
    have hbase : (ebs ++ [new_edit_bone n.name]).find? (fun bb => bb.name == n.name)
        = some (new_edit_bone n.name) := by
      rw [bone_find?_append_single, hnone]
      dsimp only
      rw [if_pos (by unfold new_edit_bone; exact beq_self_eq_true n.name)]
    have h1 := managed_phase_self_true sE armInv (ebs ++ [new_edit_bone n.name]) n.name n
      (new_edit_bone n.name) hbase
    obtain ⟨b1, hb1, e1⟩ := parent_phase_self sE
      (ensure_apply_managed sE armInv (ebs ++ [new_edit_bone n.name]) n.name true n)
      n.name true n
      ({ update_edit_bone_from_node sE (new_edit_bone n.name) n armInv with physProp := true })
      h1
    obtain ⟨b2, hb2, e2⟩ := colls_phase_self ver4
      (ensure_apply_parent sE
        (ensure_apply_managed sE armInv (ebs ++ [new_edit_bone n.name]) n.name true n)
        n.name true n) colls n.name true b1 hb1
    refine ⟨b2, ?_, ?_, ?_⟩
    · rw [← h]
      unfold ensure_apply
      dsimp only
      exact hb2
    · intro _
      refine ⟨?_, ?_, ?_, ?_⟩
      · rw [e2.1, e1.1, update_edit_bone_mat]
      · rw [e2.2.1, e1.2.1, update_edit_bone_lengthSq]
      · rw [e2.2.2.1, e1.2.2.1, update_edit_bone_useConnect]
      · rw [e2.2.2.2.1, e1.2.2.2.1]
    · intro eb0' db' h1' _ _
      rw [hnone] at h1'
      exact Option.noConfusion h1'

/-- Per-node description of the bone produced by the whole edit-session loop. -/
theorem ensure_loop_bone_desc (sE : St) (preB : List Bone) (armInv : Aff) (ver4 : Bool) :
    ∀ (nodes : List Obj) (acc : List Bone × List String × Nat),
    (nodes.map (fun n => n.name)).Nodup →
    (∀ m ∈ nodes, m.name ∈ namesOf acc.1 → m.name ∈ namesOf preB) →
    ∀ n ∈ nodes, ∃ b,
      (ensure_loop sE preB armInv ver4 nodes acc).1.1.find? (fun bb => bb.name == n.name)
        = some b
      ∧ (((acc.1.any (fun bb => bb.name == n.name)) = false
            ∨ ∃ db, preB.find? (fun bb => bb.name == n.name) = some db ∧ db.physProp = true) →
          b.mat = armInv.comp n.matWorld ∧ b.lengthSq = node_length_sq sE n armInv
          ∧ b.useConnect = false ∧ b.physProp = true)
      ∧ (∀ eb0 db, acc.1.find? (fun bb => bb.name == n.name) = some eb0 →
          preB.find? (fun bb => bb.name == n.name) = some db → db.physProp = false →
          b.mat = eb0.mat ∧ b.lengthSq = eb0.lengthSq ∧ b.useConnect = eb0.useConnect
          ∧ b.physProp = eb0.physProp ∧ b.layers = eb0.layers ∧ b.btColls = eb0.btColls
          ∧ b.select = eb0.select ∧ b.selectHead = eb0.selectHead
          ∧ b.selectTail = eb0.selectTail ∧ b.constraints = eb0.constraints
          ∧ (b.parent = eb0.parent
              ∨ ∃ p, chain_parent sE n = some p ∧ b.parent = some p.name)) := by
  intro nodes
  induction nodes with
  | nil => intro acc _ _ n hn; exact absurd hn (List.not_mem_nil n)
  | cons m rest ih =>
    intro acc hnd hd n hn
    obtain ⟨ebs, colls, c⟩ := acc
    dsimp only
    rw [List.map_cons] at hnd
    obtain ⟨hm_notin, hnd_rest⟩ := List.nodup_cons.mp hnd
    have hdm : m.name ∈ namesOf ebs → m.name ∈ namesOf preB := hd m (List.mem_cons_self m rest)
    obtain ⟨acc2, hstep⟩ := ensure_step_succeeds sE preB armInv ver4 ebs colls c m hdm
    have hloop : ensure_loop sE preB armInv ver4 (m :: rest) (ebs, colls, c)
        = ensure_loop sE preB armInv ver4 rest acc2 := by
      simp only [ensure_loop, hstep]
    rw [hloop]
    rcases List.mem_cons.mp hn with rfl | hn'
    · obtain ⟨b, hb, hgeo, hunm⟩ :=
        ensure_step_self_desc sE preB armInv ver4 ebs colls c n acc2 hstep
      have hfreeze := ensure_loop_find_ne sE preB armInv ver4 rest acc2 n.name hm_notin
      exact ⟨b, by rw [hfreeze]; exact hb, hgeo, hunm⟩
    · have hne : n.name ≠ m.name := by
        intro he
        exact hm_notin (he ▸ List.mem_map_of_mem (fun x => x.name) hn')
      have hnames := ensure_step_names sE preB armInv ver4 ebs colls c m acc2 hstep
      have hd2 : ∀ m' ∈ rest, m'.name ∈ namesOf acc2.1 → m'.name ∈ namesOf preB := by
        intro m' hm' hmem
        rcases hnames with hN | hN
        · exact hd m' (List.mem_cons_of_mem m hm') (by rw [hN] at hmem; exact hmem)
        · rw [hN] at hmem
          rcases List.mem_append.mp hmem with h1 | h1
          · exact hd m' (List.mem_cons_of_mem m hm') h1
          · exfalso
            apply hm_notin
            have he : m'.name = m.name := List.mem_singleton.mp h1
            rw [← he]
            exact List.mem_map_of_mem (fun x => x.name) hm'
      obtain ⟨b, hb, hgeo, hunm⟩ := ih acc2 hnd_rest hd2 n hn'
      have hfind_eq : acc2.1.find? (fun bb => bb.name == n.name)
          = ebs.find? (fun bb => bb.name == n.name) :=
        ensure_step_find_ne sE preB armInv ver4 (ebs, colls, c) acc2 m n.name hstep hne
      have hany_eq : (acc2.1.any (fun bb => bb.name == n.name))
          = (ebs.any (fun bb => bb.name == n.name)) := by
        rw [any_eq_isSome_find?, any_eq_isSome_find?, hfind_eq]
      refine ⟨b, hb, ?_, ?_⟩
      · intro hc
        apply hgeo
        rcases hc with hc | hc
        · left
          rw [hany_eq]
          exact hc
        · right
          exact hc
      · intro eb0 db h1 h2 h3
        exact hunm eb0 db (by rw [hfind_eq]; exact h1) h2 h3

/-! ### Transfer of node geometry lookups through `enter_edit_mode` -/

theorem enter_obj_upd_chainType (sa : Option String) (pm : Mode) (armName : String) (o : Obj) :
    (enter_obj_upd sa pm armName o).chainType = o.chainType := rfl

theorem enter_obj_upd_matWorld (sa : Option String) (pm : Mode) (armName : String) (o : Obj) :
    (enter_obj_upd sa pm armName o).matWorld = o.matWorld := rfl

theorem findObj_enter (s : St) (armName x : String) :
    (enter_edit_mode s armName).1.findObj x
      = (s.findObj x).map (enter_obj_upd s.active
          (match s.active with | some a => s.modeOf a | none => Mode.OBJECT) armName) := by
  unfold St.findObj
  rw [enter_edit_mode_objs]
  exact find?_name_map _ _ _ (fun o => enter_obj_upd_name _ _ _ o)

theorem findSome?_option_map {α β : Type} (l : List α) (f g : α → Option β) (u : β → β)
    (h : ∀ a, g a = (f a).map u) :
    l.findSome? g = (l.findSome? f).map u := by
  induction l with
  | nil => rfl
  | cons a t ih =>
    rw [List.findSome?_cons, List.findSome?_cons, h a]
    cases f a <;> simp [ih]

theorem first_chain_child_enter (s : St) (armName : String) (node : Obj) :
    first_chain_child (enter_edit_mode s armName).1 node
      = (first_chain_child s node).map (enter_obj_upd s.active
          (match s.active with | some a => s.modeOf a | none => Mode.OBJECT) armName) := by
  unfold first_chain_child
  apply findSome?_option_map
  intro cn
  rw [findObj_enter]
  cases hfo : s.findObj cn with
  | none => rfl
  | some c =>
    dsimp only [Option.map]
    rw [enter_obj_upd_chainType]
    by_cases hct : (c.chainType == some "RE_CHAIN_NODE") = true
    · rw [if_pos hct, if_pos hct]
    · rw [if_neg hct, if_neg hct]

theorem node_length_sq_enter (s : St) (armName : String) (node : Obj) (armInv : Aff) :
    node_length_sq (enter_edit_mode s armName).1 node armInv
      = node_length_sq s node armInv := by
  unfold node_length_sq
  rw [first_chain_child_enter]
  cases hfc : first_chain_child s node with
  | none => rfl
  | some c =>
    dsimp only [Option.map]
    rw [enter_obj_upd_matWorld]

theorem chain_parent_enter (s : St) (armName : String) (node : Obj) :
    chain_parent (enter_edit_mode s armName).1 node
      = (chain_parent s node).map (enter_obj_upd s.active
          (match s.active with | some a => s.modeOf a | none => Mode.OBJECT) armName) := by
  unfold chain_parent
  cases node.parent with
  | none => rfl
  | some pn =>
    dsimp only
    rw [findObj_enter]
    cases hfo : s.findObj pn with
    | none => rfl
    | some p =>
      dsimp only [Option.map]
      rw [enter_obj_upd_chainType]
      by_cases hct : (p.chainType == some "RE_CHAIN_NODE") = true
      · rw [if_pos hct, if_pos hct]
      · rw [if_neg hct, if_neg hct]

theorem chain_parent_enter_name (s : St) (armName : String) (node : Obj) (p1 : Obj)
    (h : chain_parent (enter_edit_mode s armName).1 node = some p1) :
    ∃ p, chain_parent s node = some p ∧ p.name = p1.name := by
  rw [chain_parent_enter] at h
  cases hc : chain_parent s node with
  | none => rw [hc] at h; exact Option.noConfusion h
  | some p =>
    rw [hc] at h
    dsimp only [Option.map] at h
    injection h with h
    exact ⟨p, rfl, by rw [← h]; exact (enter_obj_upd_name _ _ _ p).symm⟩

/-- Lookup of `armature.data.bones[name]` as an observation of the state. -/
def arm_bone_find (s : St) (armName bn : String) : Option Bone :=
  match s.findObj armName with
  | some a => a.bones.find? (fun b => b.name == bn)
  | none => none

theorem arm_bone_find_pre (s : St) (armName : String) (arm : Obj)
    (hfo : s.findObj armName = some arm) (x : String) :
    arm_bone_find s armName x = arm.bones.find? (fun b => b.name == x) := by
  unfold arm_bone_find
  rw [hfo]

theorem arm_bone_find_after_main (s : St) (armName : String) (arm : Obj)
    (hfo : s.findObj armName = some arm) (hArm : arm.isArm = true)
    (ebs : List Bone) (colls : List String) (x : String) :
    arm_bone_find (exit_edit_mode (commit_bones (enter_edit_mode s armName).1 armName ebs colls)
        (enter_edit_mode s armName).2) armName x
      = ebs.find? (fun b => b.name == x) := by
  unfold arm_bone_find
  rw [findObj_after_main s armName arm hfo ebs colls]
  dsimp only
  cases hd : arm.data with
  | plain => rw [Obj.isArm, hd] at hArm; cases hArm
  | armData bs cs ab =>
    have hdata : (exit_obj_upd (some armName) (enter_edit_mode s armName).2
        (commit_obj_upd ebs colls
          (enter_obj_upd s.active
            (match s.active with | some a => s.modeOf a | none => Mode.OBJECT)
            armName arm))).data = ObjData.armData ebs colls ab := by
      rw [exit_obj_upd_data]
      unfold commit_obj_upd
      rw [enter_obj_upd_data, hd]
    unfold Obj.bones
    rw [hdata]

/-- Per-node description of the armature bones after a successful
`ensure_physics_bones` run (armature auto-detected). -/
theorem ensure_final_bone_desc (s : St) (coll : Option (List String))
    (nodes0 : Option (List Obj))
    (hndobj : (s.objs.map (fun o => o.name)).Nodup)
    (hndnodes : ((resolve_nodes s coll nodes0).map (fun o => o.name)).Nodup)
    (s' : St) (armName : String) (ns : List Obj) (cnt : Nat)
    (h : ensure_physics_bones s coll none nodes0 = (s', some (some armName, ns, cnt))) :
    ∃ arm, s.findObj armName = some arm ∧ arm.isArm = true
    ∧ ns = resolve_nodes s coll nodes0
    ∧ ∀ n ∈ ns, ∃ b, arm_bone_find s' armName n.name = some b
      ∧ ((arm_bone_find s armName n.name = none
            ∨ ∃ db, arm_bone_find s armName n.name = some db ∧ db.physProp = true) →
          b.mat = arm.matWorld.inverted.comp n.matWorld
          ∧ b.lengthSq = node_length_sq s n arm.matWorld.inverted
          ∧ b.useConnect = false ∧ b.physProp = true)
      ∧ (∀ eb0, arm_bone_find s armName n.name = some eb0 → eb0.physProp = false →
          b.mat = eb0.mat ∧ b.lengthSq = eb0.lengthSq ∧ b.useConnect = eb0.useConnect
          ∧ b.physProp = eb0.physProp ∧ b.layers = eb0.layers ∧ b.btColls = eb0.btColls
          ∧ b.select = eb0.select ∧ b.selectHead = eb0.selectHead
          ∧ b.selectTail = eb0.selectTail ∧ b.constraints = eb0.constraints
          ∧ (b.parent = eb0.parent
              ∨ ∃ p, chain_parent s n = some p ∧ b.parent = some p.name)) := by
  rcases ensure_result_cases s coll none nodes0 with
    ⟨he, heq⟩ | ⟨hne, harmN, heq⟩ | ⟨armName0, hne, harmN, hfoN, heq⟩
    | ⟨armName1, arm, hne, harmN, hfo, heq⟩
  · rw [heq] at h
    injection h with h1 h2
    injection h2 with h2
    injection h2 with h2a h2b
    exact Option.noConfusion h2a
  · rw [heq] at h
    injection h with h1 h2
    injection h2 with h2
    injection h2 with h2a h2b
    exact Option.noConfusion h2a
  · rw [heq] at h
    injection h with h1 h2
    injection h2 with h2
    injection h2 with h2a h2b
    exact Option.noConfusion h2a
  · rw [heq] at h
    by_cases hlp : (ensure_loop (enter_edit_mode s armName1).1 arm.bones arm.matWorld.inverted
        s.ver4 (resolve_nodes s coll nodes0) (arm.bones, arm.bColls, 0)).2 = true
    · rw [if_pos hlp] at h
      injection h with h1 h2
      injection h2 with h2
      injection h2 with h2a h2b
      injection h2a with h2a
      injection h2b with h2b1 h2b2
      subst h2a
      have harm' := harmN
      unfold resolve_arm_name at harm'
      dsimp only at harm'
      rcases Option.map_eq_some'.mp harm' with ⟨fo, hfind, hfoname⟩
      have hfofo : s.findObj armName1 = some fo := by
        rw [← hfoname]
        exact find_chain_armature_findObj s coll
          (some (resolve_nodes s coll nodes0)) fo hndobj hfind
      have harmeq : arm = fo := by
        have h2 := hfo.symm.trans hfofo
        injection h2
      have hisarm : arm.isArm = true := by
        rw [harmeq]
        exact find_chain_armature_isArm s coll (some (resolve_nodes s coll nodes0)) fo hfind
      refine ⟨arm, hfo, hisarm, h2b1.symm, ?_⟩
      intro n hn
      rw [← h2b1] at hn
      obtain ⟨b, hb, hgeo, hunm⟩ := ensure_loop_bone_desc (enter_edit_mode s armName1).1
        arm.bones arm.matWorld.inverted s.ver4 (resolve_nodes s coll nodes0)
        (arm.bones, arm.bColls, 0) hndnodes (fun m _ hm => hm) n hn
      have hfin := arm_bone_find_after_main s armName1 arm hfo hisarm
        (ensure_loop (enter_edit_mode s armName1).1 arm.bones arm.matWorld.inverted
          s.ver4 (resolve_nodes s coll nodes0) (arm.bones, arm.bColls, 0)).1.1
        (ensure_loop (enter_edit_mode s armName1).1 arm.bones arm.matWorld.inverted
          s.ver4 (resolve_nodes s coll nodes0) (arm.bones, arm.bColls, 0)).1.2.1 n.name
      have hpre := arm_bone_find_pre s armName1 arm hfo n.name
      refine ⟨b, ?_, ?_, ?_⟩
      · rw [← h1, hfin]
        exact hb
      · intro hc
        have hg := hgeo (by
          rcases hc with hc | ⟨db, hdb, hdbp⟩
          · left
            rw [hpre] at hc
            rw [any_eq_isSome_find?, hc]
            rfl
          · right
            exact ⟨db, by rw [← hpre]; exact hdb, hdbp⟩)
        exact ⟨hg.1, by rw [hg.2.1]; exact node_length_sq_enter s armName1 n _,
          hg.2.2.1, hg.2.2.2⟩
      · intro eb0 heb0 hphys
        rw [hpre] at heb0
        have hu := hunm eb0 eb0 heb0 heb0 hphys
        refine ⟨hu.1, hu.2.1, hu.2.2.1, hu.2.2.2.1, hu.2.2.2.2.1, hu.2.2.2.2.2.1,
          hu.2.2.2.2.2.2.1, hu.2.2.2.2.2.2.2.1, hu.2.2.2.2.2.2.2.2.1,
          hu.2.2.2.2.2.2.2.2.2.1, ?_⟩
        rcases hu.2.2.2.2.2.2.2.2.2.2 with hp | ⟨p1, hcp1, hbp⟩
        · exact Or.inl hp
        · obtain ⟨p, hcp, hpname⟩ := chain_parent_enter_name s armName1 n p1 hcp1
          refine Or.inr ⟨p, hcp, ?_⟩
          rw [hbp, hpname]
    · rw [if_neg hlp] at h
      injection h with h1 h2
      exact Option.noConfusion h2

/-! ### C3 / C4: fixtures and claims about per-bone effects -/

/-- The tail of an edit bone: setting `bone.length` in the source places the
tail `l` units along the Y axis of the bone's matrix. -/
def bone_tail (b : Bone) (l : ℚ) : V3 := b.mat.apply ⟨0, l, 0⟩

/-- The bone `ensure_physics_bones` creates for node `N0` of the fixture. -/
def wit_b0 : Bone :=
  { name := "N0", mat := Aff.id, lengthSq := 25, useConnect := false, physProp := true,
    parent := none, layers := List.replicate 32 false, btColls := ["RE Chain Physics"],
    select := false, selectHead := false, selectTail := false, constraints := [] }

/-- A pre-existing unmanaged bone (no physics-bone property). -/
def cex_bone (n : String) (par : Option String) : Bone :=
  { name := n, mat := Aff.id, lengthSq := 1, useConnect := false, physProp := false,
    parent := par, layers := List.replicate 32 false, btColls := [],
    select := false, selectHead := false, selectTail := false, constraints := [] }

/-- Chain node `N0` whose chain parent is node `N1`. -/
def cex_node0 : Obj :=
  { name := "N0", chainType := some "RE_CHAIN_NODE", matWorld := witA 0 0 0,
    parent := some "N1", children := [], constraints := [wit_cBN], mode := Mode.OBJECT,
    sel := false, data := ObjData.plain }

/-- Chain node `N1`, parent node of `N0`. -/
def cex_node1 : Obj :=
  { name := "N1", chainType := some "RE_CHAIN_NODE", matWorld := witA 3 4 0,
    parent := none, children := ["N0"], constraints := [wit_cBN], mode := Mode.OBJECT,
    sel := false, data := ObjData.plain }

/-- Armature already holding unmanaged bones named like both nodes. -/
def cex_arm : Obj :=
  { name := "Arm", chainType := none, matWorld := Aff.id, parent := none,
    children := [], constraints := [], mode := Mode.OBJECT, sel := false,
    data := ObjData.armData [cex_bone "N0" none, cex_bone "N1" none] [] none }

/-- Scene with pre-existing unmanaged bones shadowing the chain nodes. -/
def cex_st : St :=
  { objs := [cex_node0, cex_node1, cex_arm], active := none,
    tool := { chainColl := some ["N0", "N1"], previewEnabled := false },
    ver4 := true, bakeOk := true }

/-- C4: for every managed physics bone (newly created for its node, or
pre-existing with the physics-bone property), `ensure_physics_bones` sets the
edit bone's matrix to the armature's inverted world matrix composed with the
node's world matrix, sets its squared length to the squared head-to-tail
distance in armature space — the tail position taken from the node's first
chain child's world position, or 0.05 units along the node's local Y axis —
with 0.05 substituted whenever that distance is below 1e-5, and sets
`use_connect` to `False`.  Amended: only the bone's *length* is computed from
the child's position; the bone's tail is not placed at the child (it lies
along the bone matrix's own Y axis, see the counterexample). -/
theorem claim_C4_managed_bone_geometry (s : St) (coll : Option (List String))
    (nodes0 : Option (List Obj))
    (hndobj : (s.objs.map (fun o => o.name)).Nodup)
    (hndnodes : ((resolve_nodes s coll nodes0).map (fun o => o.name)).Nodup)
    (s' : St) (armName : String) (ns : List Obj) (cnt : Nat)
    (h : ensure_physics_bones s coll none nodes0 = (s', some (some armName, ns, cnt))) :
    ∃ arm, s.findObj armName = some arm
    ∧ ∀ n ∈ ns,
      (arm_bone_find s armName n.name = none
        ∨ ∃ db, arm_bone_find s armName n.name = some db ∧ db.physProp = true) →
      ∃ b, arm_bone_find s' armName n.name = some b
        ∧ b.mat = arm.matWorld.inverted.comp n.matWorld
        ∧ b.lengthSq = node_length_sq s n arm.matWorld.inverted
        ∧ b.useConnect = false := by
  obtain ⟨arm, hfo, hisarm, hns, hdesc⟩ :=
    ensure_final_bone_desc s coll nodes0 hndobj hndnodes s' armName ns cnt h
  refine ⟨arm, hfo, ?_⟩
  intro n hn hc
  obtain ⟨b, hb, hgeo, _⟩ := hdesc n hn
  exact ⟨b, hb, (hgeo hc).1, (hgeo hc).2.1, (hgeo hc).2.2.1⟩

/-- C4 witness: the fixture run creates both bones; their geometry follows
the amended description. -/
theorem claim_C4_managed_bone_geometry_witness :
    ((wit_st.objs.map (fun o => o.name)).Nodup
      ∧ ((resolve_nodes wit_st (some ["N0", "N1"]) none).map (fun o => o.name)).Nodup
      ∧ ensure_physics_bones wit_st (some ["N0", "N1"]) none none
          = ((ensure_physics_bones wit_st (some ["N0", "N1"]) none none).1,
             some (some "Arm", resolve_nodes wit_st (some ["N0", "N1"]) none, 2)))
    ∧ ∃ arm, wit_st.findObj "Arm" = some arm
      ∧ ∀ n ∈ resolve_nodes wit_st (some ["N0", "N1"]) none,
        (arm_bone_find wit_st "Arm" n.name = none
          ∨ ∃ db, arm_bone_find wit_st "Arm" n.name = some db ∧ db.physProp = true) →
        ∃ b, arm_bone_find (ensure_physics_bones wit_st (some ["N0", "N1"]) none none).1
            "Arm" n.name = some b
          ∧ b.mat = arm.matWorld.inverted.comp n.matWorld
          ∧ b.lengthSq = node_length_sq wit_st n arm.matWorld.inverted
          ∧ b.useConnect = false :=
  ⟨⟨by decide, by decide, by with_unfolding_all decide⟩,
   claim_C4_managed_bone_geometry wit_st (some ["N0", "N1"]) none (by decide) (by decide)
     _ "Arm" _ 2 (by with_unfolding_all decide)⟩

/-- C4 counterexample: at the fixture scene the managed bone created for node
`N0` — whose first chain child `N1` sits at world position `(3, 4, 0)`, with
the armature at the identity — ends with the identity matrix and squared
length `25`.  The unique nonnegative length with that square is `5`, and the
bone's tail then lies at `(0, 5, 0)`, not at the child's position: the tail is
not "pointed at the world position of the node's first child". -/
theorem claim_C4_managed_bone_geometry_counterexample :
    arm_bone_find (ensure_physics_bones wit_st (some ["N0", "N1"]) none none).1 "Arm" "N0"
      = some wit_b0
    ∧ first_chain_child wit_st wit_node0 = some wit_node1
    ∧ wit_node1.matWorld.tr = ⟨3, 4, 0⟩
    ∧ (5 : ℚ) * 5 = wit_b0.lengthSq ∧ (0 : ℚ) ≤ 5
    ∧ bone_tail wit_b0 5 ≠ ⟨3, 4, 0⟩ := by
  with_unfolding_all decide

/-- C3: a pre-existing armature bone named like a chain node that does not
carry the physics-bone property keeps its matrix (head and roll), squared
length, connect flag, layers, bone collections, physics flag, selection flags
and constraints across `ensure_physics_bones`.  Amended: its *parent* is not
part of that frame — it is either kept or reassigned to the node's chain
parent's bone (the source runs the re-parenting step for unmanaged bones
too, see the counterexample). -/
theorem claim_C3_unmanaged_bone_frame (s : St) (coll : Option (List String))
    (nodes0 : Option (List Obj))
    (hndobj : (s.objs.map (fun o => o.name)).Nodup)
    (hndnodes : ((resolve_nodes s coll nodes0).map (fun o => o.name)).Nodup)
    (s' : St) (armName : String) (ns : List Obj) (cnt : Nat)
    (h : ensure_physics_bones s coll none nodes0 = (s', some (some armName, ns, cnt))) :
    ∃ arm, s.findObj armName = some arm
    ∧ ∀ n ∈ ns, ∀ eb0, arm_bone_find s armName n.name = some eb0 → eb0.physProp = false →
      ∃ b, arm_bone_find s' armName n.name = some b
        ∧ b.mat = eb0.mat ∧ b.lengthSq = eb0.lengthSq ∧ b.useConnect = eb0.useConnect
        ∧ b.physProp = eb0.physProp ∧ b.layers = eb0.layers ∧ b.btColls = eb0.btColls
        ∧ b.select = eb0.select ∧ b.selectHead = eb0.selectHead
        ∧ b.selectTail = eb0.selectTail ∧ b.constraints = eb0.constraints
        ∧ (b.parent = eb0.parent
            ∨ ∃ p, chain_parent s n = some p ∧ b.parent = some p.name) := by
  obtain ⟨arm, hfo, hisarm, hns, hdesc⟩ :=
    ensure_final_bone_desc s coll nodes0 hndobj hndnodes s' armName ns cnt h
  refine ⟨arm, hfo, ?_⟩
  intro n hn eb0 heb0 hphys
  obtain ⟨b, hb, _, hunm⟩ := hdesc n hn
  exact ⟨b, hb, hunm eb0 heb0 hphys⟩

/-- C3 witness: on the scene with two pre-existing unmanaged bones the run
creates nothing and the frame description holds for both bones. -/
theorem claim_C3_unmanaged_bone_frame_witness :
    ((cex_st.objs.map (fun o => o.name)).Nodup
      ∧ ((resolve_nodes cex_st (some ["N0", "N1"]) none).map (fun o => o.name)).Nodup
      ∧ ensure_physics_bones cex_st (some ["N0", "N1"]) none none
          = ((ensure_physics_bones cex_st (some ["N0", "N1"]) none none).1,
             some (some "Arm", resolve_nodes cex_st (some ["N0", "N1"]) none, 0)))
    ∧ ∃ arm, cex_st.findObj "Arm" = some arm
      ∧ ∀ n ∈ resolve_nodes cex_st (some ["N0", "N1"]) none, ∀ eb0,
        arm_bone_find cex_st "Arm" n.name = some eb0 → eb0.physProp = false →
        ∃ b, arm_bone_find (ensure_physics_bones cex_st (some ["N0", "N1"]) none none).1
            "Arm" n.name = some b
          ∧ b.mat = eb0.mat ∧ b.lengthSq = eb0.lengthSq ∧ b.useConnect = eb0.useConnect
          ∧ b.physProp = eb0.physProp ∧ b.layers = eb0.layers ∧ b.btColls = eb0.btColls
          ∧ b.select = eb0.select ∧ b.selectHead = eb0.selectHead
          ∧ b.selectTail = eb0.selectTail ∧ b.constraints = eb0.constraints
          ∧ (b.parent = eb0.parent
              ∨ ∃ p, chain_parent cex_st n = some p ∧ b.parent = some p.name) :=
  ⟨⟨by decide, by decide, by with_unfolding_all decide⟩,
   claim_C3_unmanaged_bone_frame cex_st (some ["N0", "N1"]) none (by decide) (by decide)
     _ "Arm" _ 0 (by with_unfolding_all decide)⟩

/-- C3 counterexample: bone `N0` pre-exists without the physics-bone property
and its node's chain parent `N1` also has a bone; `ensure_physics_bones`
reassigns the unmanaged bone's parent from `none` to `"N1"` — the bone is not
left unchanged. -/
theorem claim_C3_unmanaged_bone_frame_counterexample :
    arm_bone_find cex_st "Arm" "N0" = some (cex_bone "N0" none)
    ∧ (cex_bone "N0" none).physProp = false
    ∧ arm_bone_find (ensure_physics_bones cex_st (some ["N0", "N1"]) none none).1 "Arm" "N0"
        = some { cex_bone "N0" none with parent := some "N1" }
    ∧ (cex_bone "N0" none).parent = none
    ∧ ({ cex_bone "N0" none with parent := some "N1" } : Bone).parent ≠ none := by
  with_unfolding_all decide

/-! ### C1: the node-constraint mute round trip -/

/-- The constraint stack of the object of the given name. -/
def obj_constraints (s : St) (n : String) : List Constraint :=
  match s.findObj n with
  | some o => o.constraints
  | none => []

theorem obj_constraints_of_map (s t : St) (f : Obj → Obj) (hobjs : t.objs = s.objs.map f)
    (hname : ∀ o, (f o).name = o.name) (hcs : ∀ o, (f o).constraints = o.constraints)
    (x : String) : obj_constraints t x = obj_constraints s x := by
  unfold obj_constraints St.findObj
  rw [hobjs, find?_name_map _ _ _ hname]
  cases s.objs.find? (fun o => o.name == x) with
  | none => rfl
  | some o =>
    dsimp only [Option.map]
    exact hcs o

theorem exit_obj_upd_constraints (ta : Option String) (saved : SavedUI) (o : Obj) :
    (exit_obj_upd ta saved o).constraints = o.constraints := rfl

theorem enter_obj_upd_constraints (sa : Option String) (pm : Mode) (armName : String)
    (o : Obj) : (enter_obj_upd sa pm armName o).constraints = o.constraints := rfl

theorem commit_obj_upd_name (ebs : List Bone) (colls : List String) (o : Obj) :
    (commit_obj_upd ebs colls o).name = o.name := by
  unfold commit_obj_upd
  cases o.data <;> rfl

theorem commit_obj_upd_constraints (ebs : List Bone) (colls : List String) (o : Obj) :
    (commit_obj_upd ebs colls o).constraints = o.constraints := by
  unfold commit_obj_upd
  cases o.data <;> rfl

/-- `ensure_physics_bones` never touches an object's constraint stack. -/
theorem ensure_obj_constraints (s : St) (coll : Option (List String))
    (arm0 : Option String) (nodes0 : Option (List Obj)) (x : String) :
    obj_constraints (ensure_physics_bones s coll arm0 nodes0).1 x
      = obj_constraints s x := by
  rcases ensure_state_cases s coll arm0 nodes0 with heq | ⟨armName, ebs, colls, heq⟩
  · rw [heq]
  · rw [heq]
    have h3 : obj_constraints (exit_edit_mode
        (commit_bones (enter_edit_mode s armName).1 armName ebs colls)
        (enter_edit_mode s armName).2) x
        = obj_constraints (commit_bones (enter_edit_mode s armName).1 armName ebs colls) x :=
      obj_constraints_of_map _ _ _ (exit_edit_mode_objs _ _)
        (fun o => exit_obj_upd_name _ _ o) (fun o => exit_obj_upd_constraints _ _ o) x
    have h2 : obj_constraints (commit_bones (enter_edit_mode s armName).1 armName ebs colls) x
        = obj_constraints (enter_edit_mode s armName).1 x :=
      obj_constraints_of_map _ _ _ rfl
        (fun o => by
          by_cases hc : (o.name == armName) = true
          · simp only [hc, if_true]
            exact commit_obj_upd_name ebs colls o
          · rw [if_neg hc])
        (fun o => by
          by_cases hc : (o.name == armName) = true
          · simp only [hc, if_true]
            exact commit_obj_upd_constraints ebs colls o
          · rw [if_neg hc])
        x
    have h1 : obj_constraints (enter_edit_mode s armName).1 x = obj_constraints s x :=
      obj_constraints_of_map _ _ _ (enter_edit_mode_objs _ _)
        (fun o => enter_obj_upd_name _ _ _ o) (fun o => enter_obj_upd_constraints _ _ _ o) x
    rw [h3, h2, h1]

/-- `upd_arm_bones` never touches an object's constraint stack. -/
theorem upd_arm_bones_obj_constraints (s : St) (armName : String) (f : List Bone → List Bone)
    (x : String) : obj_constraints (upd_arm_bones s armName f) x = obj_constraints s x := by
  apply obj_constraints_of_map s _ _ rfl
  · intro o
    by_cases hc : (o.name == armName) = true
    · simp only [hc, if_true]
      cases o.data <;> rfl
    · rw [if_neg hc]
  · intro o
    by_cases hc : (o.name == armName) = true
    · simp only [hc, if_true]
      cases o.data <;> rfl
    · rw [if_neg hc]

theorem updObj_map_constraints (t : St) (nm : String) (g : Constraint → Constraint)
    (x : String) :
    obj_constraints (t.updObj nm
        (fun o => { o with constraints := o.constraints.map g })) x
      = if x == nm then (obj_constraints t x).map g else obj_constraints t x := by
  unfold obj_constraints St.updObj St.findObj
  dsimp only
  rw [find?_name_map _ _ _ (fun o => by
    by_cases hc : (o.name == nm) = true
    · rw [if_pos hc]
    · rw [if_neg hc])]
  cases hf : t.objs.find? (fun o => o.name == x) with
  | none =>
    dsimp only [Option.map]
    split <;> rfl
  | some o =>
    dsimp only [Option.map]
    have ho : o.name = x := by
      have := List.find?_some hf
      exact eq_of_beq this
    by_cases hc : (x == nm) = true
    · rw [if_pos hc]
      have : (o.name == nm) = true := by rw [ho]; exact hc
      rw [if_pos this]
    · rw [if_neg hc]
      have : ¬ (o.name == nm) = true := by rw [ho]; exact hc
      rw [if_neg this]

/-- The node-constraint fold of the preview toggles, described pointwise. -/
theorem foldl_map_constraints (g : Constraint → Constraint) :
    ∀ (nodes : List Obj) (t0 : St) (x : String),
    (nodes.map (fun n => n.name)).Nodup →
    obj_constraints (nodes.foldl (fun (t : St) (node : Obj) =>
        t.updObj node.name (fun o => { o with constraints := o.constraints.map g })) t0) x
      = if (nodes.map (fun n => n.name)).contains x then (obj_constraints t0 x).map g
        else obj_constraints t0 x := by
  intro nodes
  induction nodes with
  | nil =>
    intro t0 x _
    rw [List.foldl_nil]
    rfl
  | cons m rest ih =>
    intro t0 x hnd
    rw [List.map_cons] at hnd
    obtain ⟨hm_notin, hnd_rest⟩ := List.nodup_cons.mp hnd
    rw [List.foldl_cons]
    rw [ih _ x hnd_rest]
    rw [updObj_map_constraints]
    by_cases hx : (x == m.name) = true
    · have hxm : x = m.name := eq_of_beq hx
      have hcontains : ((m :: rest).map (fun n => n.name)).contains x = true := by
        rw [List.map_cons]
        simp [hxm]
      rw [if_pos hcontains, if_pos hx]
      have hrest : (rest.map (fun n => n.name)).contains x = false := by
        rw [hxm]
        cases hcr : (rest.map (fun n => n.name)).contains m.name with
        | false => rfl
        | true => exact absurd (List.elem_iff.mp hcr) hm_notin
      rw [hrest]
      rw [if_neg Bool.false_ne_true]
    · have hxf : (x == m.name) = false := by
        cases hb : (x == m.name)
        · rfl
        · exact absurd hb hx
      rw [if_neg hx]
      have hcontains : ((m :: rest).map (fun n => n.name)).contains x
          = ((rest.map (fun n => n.name)).contains x) := by
        rw [List.map_cons, List.contains_cons, hxf, Bool.false_or]
      rw [hcontains]

/-- The pose-bone phase of `enable_physics_preview` never touches an
object's constraint stack. -/
theorem foldl_pose_obj_constraints (armName : String) :
    ∀ (nodes : List Obj) (acc : St × List String) (x : String),
    obj_constraints (nodes.foldl (fun (acc : St × List String) (node : Obj) =>
        if arm_has_bone acc.1 armName node.name then
          (upd_arm_bones acc.1 armName
            (fun bs => mod_bone bs node.name (enable_pose_bone node.name)),
           acc.2 ++ [node.name])
        else acc) acc).1 x
      = obj_constraints acc.1 x := by
  intro nodes
  induction nodes with
  | nil =>
    intro acc x
    rw [List.foldl_nil]
  | cons m rest ih =>
    intro acc x
    rw [List.foldl_cons]
    by_cases hb : arm_has_bone acc.1 armName m.name = true
    · rw [if_pos hb, ih]
      exact upd_arm_bones_obj_constraints _ _ _ x
    · rw [if_neg hb, ih]

/-- One matching node constraint through the mute / unmute round trip:
it ends unmuted and unflagged. -/
theorem mute_unmute_matching (c : Constraint)
    (h : ((c.ctype == CType.COPY_LOCATION || c.ctype == CType.COPY_ROTATION)
        && (c.name == "BoneName" || c.name == "BoneRotation")) = true) :
    (unmute_node_constraint (mute_node_constraint c)).previewMuted = false
    ∧ (unmute_node_constraint (mute_node_constraint c)).mute = false := by
  unfold mute_node_constraint
  rw [if_pos h]
  cases hp : c.previewMuted with
  | true =>
    rw [if_pos rfl]
    unfold unmute_node_constraint
    rw [if_pos hp]
    exact ⟨rfl, rfl⟩
  | false =>
    rw [if_neg Bool.false_ne_true]
    unfold unmute_node_constraint
    rw [if_pos rfl]
    exact ⟨rfl, rfl⟩

/-- `any(constraint.get(FLAG) ...)` over the armature's preview constraints. -/
def arm_any_preview (s : St) (armName : String) : Bool :=
  match s.findObj armName with
  | some a => a.bones.any has_preview_name
  | none => false

/-- The paths through `disable_physics_preview`. -/
theorem disable_result_cases (s : St) (coll : Option (List String)) (arm0 : Option String)
    (nodes0 : Option (List Obj)) (clear : Bool) :
    (resolve_nodes s coll nodes0 = []
      ∧ disable_physics_preview s coll arm0 nodes0 clear = (s, none, false))
    ∨ (resolve_nodes s coll nodes0 ≠ []
      ∧ resolve_arm_name s coll arm0 (resolve_nodes s coll nodes0) = none
      ∧ disable_physics_preview s coll arm0 nodes0 clear = (s, none, false))
    ∨ (∃ armName, resolve_nodes s coll nodes0 ≠ []
      ∧ resolve_arm_name s coll arm0 (resolve_nodes s coll nodes0) = some armName
      ∧ disable_physics_preview s coll arm0 nodes0 clear
        = (upd_arm_bones ((resolve_nodes s coll nodes0).foldl (fun (t : St) (node : Obj) =>
              t.updObj node.name (fun o =>
                { o with constraints := o.constraints.map unmute_node_constraint })) s)
            armName (fun bs => bs.map (disable_pose_bone clear)),
           some armName,
           ((resolve_nodes s coll nodes0).any (fun node =>
              (obj_constraints s node.name).any (fun c => c.previewMuted))
            || arm_any_preview ((resolve_nodes s coll nodes0).foldl
                (fun (t : St) (node : Obj) =>
                  t.updObj node.name (fun o =>
                    { o with constraints := o.constraints.map unmute_node_constraint })) s)
                armName))) := by
  by_cases hemp : ((resolve_nodes s coll nodes0).isEmpty) = true
  · left
    refine ⟨List.isEmpty_iff.mp hemp, ?_⟩
    unfold disable_physics_preview
    dsimp only
    rw [if_pos hemp]
  · cases harm : resolve_arm_name s coll arm0 (resolve_nodes s coll nodes0) with
    | none =>
      right
      left
      refine ⟨fun hc => hemp (by simp [hc]), rfl, ?_⟩
      unfold disable_physics_preview
      dsimp only
      rw [if_neg hemp, harm]
    | some armName =>
      right
      right
      refine ⟨armName, fun hc => hemp (by simp [hc]), rfl, ?_⟩
      unfold disable_physics_preview
      dsimp only
      rw [if_neg hemp, harm]
      rfl

/-- The paths through `enable_physics_preview`. -/
theorem enable_result_cases (s : St) (coll : Option (List String)) (arm0 : Option String)
    (nodes0 : Option (List Obj)) :
    (∃ s1, ensure_physics_bones s coll arm0 nodes0 = (s1, none)
      ∧ enable_physics_preview s coll arm0 nodes0 = (s1, none))
    ∨ (∃ s1 nodes cnt, ensure_physics_bones s coll arm0 nodes0 = (s1, some (none, nodes, cnt))
      ∧ enable_physics_preview s coll arm0 nodes0 = (s1, some (none, [])))
    ∨ (∃ s1 armName nodes cnt,
        ensure_physics_bones s coll arm0 nodes0 = (s1, some (some armName, nodes, cnt))
        ∧ enable_physics_preview s coll arm0 nodes0
          = ((nodes.foldl (fun (t : St) (node : Obj) =>
                t.updObj node.name (fun o =>
                  { o with constraints := o.constraints.map mute_node_constraint }))
              (nodes.foldl (fun (acc : St × List String) (node : Obj) =>
                  if arm_has_bone acc.1 armName node.name then
                    (upd_arm_bones acc.1 armName
                      (fun bs => mod_bone bs node.name (enable_pose_bone node.name)),
                     acc.2 ++ [node.name])
                  else acc) (s1, [])).1),
             some (some armName,
               (nodes.foldl (fun (acc : St × List String) (node : Obj) =>
                  if arm_has_bone acc.1 armName node.name then
                    (upd_arm_bones acc.1 armName
                      (fun bs => mod_bone bs node.name (enable_pose_bone node.name)),
                     acc.2 ++ [node.name])
                  else acc) (s1, [])).2))) := by
  rcases hE : ensure_physics_bones s coll arm0 nodes0 with ⟨s1, res⟩
  cases res with
  | none =>
    left
    refine ⟨s1, rfl, ?_⟩
    unfold enable_physics_preview
    rw [hE]
  | some r =>
    rcases r with ⟨armO, nodes, cnt⟩
    cases armO with
    | none =>
      right
      left
      refine ⟨s1, nodes, cnt, rfl, ?_⟩
      unfold enable_physics_preview
      rw [hE]
    | some armName =>
      right
      right
      refine ⟨s1, armName, nodes, cnt, rfl, ?_⟩
      unfold enable_physics_preview
      rw [hE]

/-- C1: for every chain node constraint of type `COPY_LOCATION` or
`COPY_ROTATION` named `"BoneName"` or `"BoneRotation"`, an
`enable_physics_preview` / `disable_physics_preview` round trip over the same
nodes (both calls reaching their armature) leaves no preview-muted flag on the
constraint and leaves it un-muted.  Amended: the mute flag is *not* restored
to its pre-call value in general — it is forced to `False`; it equals the
original value exactly when the constraint was un-muted before the round trip
(the enable step flags even constraints that were already muted, and the
disable step un-mutes every flagged constraint). -/
theorem claim_C1_preview_mute_roundtrip (s : St) (coll : Option (List String))
    (nodes : List Obj)
    (hnd : (nodes.map (fun n => n.name)).Nodup)
    (s1 : St) (armName : String) (ab : List String)
    (h1 : enable_physics_preview s coll none (some nodes) = (s1, some (some armName, ab)))
    (s2 : St) (armName2 : String) (ch : Bool)
    (h2 : disable_physics_preview s1 coll none (some nodes) false = (s2, some armName2, ch)) :
    ∀ n ∈ nodes,
      obj_constraints s2 n.name
        = (obj_constraints s n.name).map
            (fun c => unmute_node_constraint (mute_node_constraint c))
      ∧ ∀ c ∈ obj_constraints s n.name,
          ((c.ctype == CType.COPY_LOCATION || c.ctype == CType.COPY_ROTATION)
            && (c.name == "BoneName" || c.name == "BoneRotation")) = true →
          (unmute_node_constraint (mute_node_constraint c)).previewMuted = false
          ∧ (unmute_node_constraint (mute_node_constraint c)).mute = false := by
  have hres : resolve_nodes s coll (some nodes) = nodes := rfl
  rcases enable_result_cases s coll none (some nodes) with
    ⟨sE, hE, hEn⟩ | ⟨sE, nodes', cnt, hE, hEn⟩ | ⟨sE, armName1, nodes', cnt, hE, hEn⟩
  · rw [hEn] at h1
    injection h1 with h1a h1b
    exact Option.noConfusion h1b
  · rw [hEn] at h1
    injection h1 with h1a h1b
    injection h1b with h1b
    injection h1b with h1c h1d
    exact Option.noConfusion h1c
  · -- the enable call reached its armature
    have hnodes' : nodes' = nodes := by
      rcases ensure_result_cases s coll none (some nodes) with
        ⟨he, heq⟩ | ⟨hne, harmN, heq⟩ | ⟨armName0, hne, harmN, hfoN, heq⟩
        | ⟨armName0, arm, hne, harmN, hfo, heq⟩
      · rw [hE] at heq
        injection heq with ha hb
        injection hb with hb
        injection hb with hb1 hb2
        exact Option.noConfusion hb1
      · rw [hE] at heq
        injection heq with ha hb
        injection hb with hb
        injection hb with hb1 hb2
        exact Option.noConfusion hb1
      · rw [hE] at heq
        injection heq with ha hb
        injection hb with hb
        injection hb with hb1 hb2
        exact Option.noConfusion hb1
      · rw [hE] at heq
        by_cases hlp : (ensure_loop (enter_edit_mode s armName0).1 arm.bones
            arm.matWorld.inverted s.ver4 (resolve_nodes s coll (some nodes))
            (arm.bones, arm.bColls, 0)).2 = true
        · rw [if_pos hlp] at heq
          injection heq with ha hb
          injection hb with hb
          injection hb with hb1 hb2
          injection hb2 with hb2a hb2b
        · rw [if_neg hlp] at heq
          injection heq with ha hb
          exact Option.noConfusion hb
    rw [hnodes'] at hE hEn
    rw [hEn] at h1
    injection h1 with h1a h1b
    injection h1b with h1b
    injection h1b with h1c h1d
    injection h1c with h1c
    subst h1c
    -- describe the constraints in s1
    have hs1 : ∀ x, obj_constraints s1 x
        = if (nodes.map (fun n => n.name)).contains x
          then (obj_constraints s x).map mute_node_constraint
          else obj_constraints s x := by
      intro x
      rw [← h1a]
      rw [foldl_map_constraints mute_node_constraint nodes _ x hnd]
      rw [foldl_pose_obj_constraints armName1 nodes (sE, []) x]
      have hEc : obj_constraints sE x = obj_constraints s x := by
        have := ensure_obj_constraints s coll none (some nodes) x
        rw [hE] at this
        exact this
      rw [hEc]
    -- unpack the disable call
    rcases disable_result_cases s1 coll none (some nodes) false with
      ⟨he, heq⟩ | ⟨hne, harmN, heq⟩ | ⟨armNameD, hne, harmN, heq⟩
    · rw [heq] at h2
      injection h2 with h2a h2b
      injection h2b with h2b
      exact Option.noConfusion h2b
    · rw [heq] at h2
      injection h2 with h2a h2b
      injection h2b with h2b
      exact Option.noConfusion h2b
    · rw [heq] at h2
      injection h2 with h2a h2b
      injection h2b with h2b h2c
      have hres1 : resolve_nodes s1 coll (some nodes) = nodes := rfl
      rw [hres1] at h2a
      intro n hn
      have hcont : ((nodes.map (fun n => n.name)).contains n.name) = true :=
        List.elem_iff.mpr (List.mem_map_of_mem (fun o => o.name) hn)
      constructor
      · rw [← h2a]
        rw [upd_arm_bones_obj_constraints]
        rw [foldl_map_constraints unmute_node_constraint nodes s1 n.name hnd]
        rw [hcont]
        rw [if_pos rfl]
        rw [hs1 n.name, hcont, if_pos rfl]
        rw [List.map_map]
        rfl
      · intro c _ hmatch
        exact mute_unmute_matching c hmatch

/-- A pre-muted `"BoneName"` copy-location constraint. -/
def c1_cBN : Constraint := { wit_cBN with mute := true }

/-- Node `N0` with the pre-muted constraint. -/
def c1_node0 : Obj := { wit_node0 with constraints := [c1_cBN] }

/-- The fixture scene with a pre-muted node constraint. -/
def c1_st : St := { wit_st with objs := [c1_node0, wit_node1, wit_arm] }

/-- C1 witness: the round trip at the fixture scene, with the round-trip
effect evaluated on both nodes. -/
theorem claim_C1_preview_mute_roundtrip_witness :
    (((([c1_node0, wit_node1] : List Obj).map (fun n => n.name)).Nodup)
      ∧ enable_physics_preview c1_st (some ["N0", "N1"]) none (some [c1_node0, wit_node1])
          = ((enable_physics_preview c1_st (some ["N0", "N1"]) none
                (some [c1_node0, wit_node1])).1,
             some (some "Arm", ["N0", "N1"]))
      ∧ disable_physics_preview
            (enable_physics_preview c1_st (some ["N0", "N1"]) none
              (some [c1_node0, wit_node1])).1
            (some ["N0", "N1"]) none (some [c1_node0, wit_node1]) false
          = ((disable_physics_preview
                (enable_physics_preview c1_st (some ["N0", "N1"]) none
                  (some [c1_node0, wit_node1])).1
                (some ["N0", "N1"]) none (some [c1_node0, wit_node1]) false).1,
             some "Arm", true))
    ∧ ∀ n ∈ ([c1_node0, wit_node1] : List Obj),
      obj_constraints (disable_physics_preview
          (enable_physics_preview c1_st (some ["N0", "N1"]) none
            (some [c1_node0, wit_node1])).1
          (some ["N0", "N1"]) none (some [c1_node0, wit_node1]) false).1 n.name
        = (obj_constraints c1_st n.name).map
            (fun c => unmute_node_constraint (mute_node_constraint c))
      ∧ ∀ c ∈ obj_constraints c1_st n.name,
          ((c.ctype == CType.COPY_LOCATION || c.ctype == CType.COPY_ROTATION)
            && (c.name == "BoneName" || c.name == "BoneRotation")) = true →
          (unmute_node_constraint (mute_node_constraint c)).previewMuted = false
          ∧ (unmute_node_constraint (mute_node_constraint c)).mute = false :=
  ⟨⟨by decide, by with_unfolding_all decide, by with_unfolding_all decide⟩,
   claim_C1_preview_mute_roundtrip c1_st (some ["N0", "N1"]) [c1_node0, wit_node1]
     (by decide)
     (enable_physics_preview c1_st (some ["N0", "N1"]) none (some [c1_node0, wit_node1])).1
     "Arm" ["N0", "N1"] (by with_unfolding_all decide)
     (disable_physics_preview
       (enable_physics_preview c1_st (some ["N0", "N1"]) none
         (some [c1_node0, wit_node1])).1
       (some ["N0", "N1"]) none (some [c1_node0, wit_node1]) false).1
     "Arm" true (by with_unfolding_all decide)⟩

/-- C1 counterexample: node `N0`'s `"BoneName"` copy-location constraint is
muted before the round trip; afterwards it is un-muted — the mute flag is not
restored to its pre-call value. -/
theorem claim_C1_preview_mute_roundtrip_counterexample :
    obj_constraints c1_st "N0" = [c1_cBN]
    ∧ c1_cBN.ctype = CType.COPY_LOCATION ∧ c1_cBN.name = "BoneName"
    ∧ c1_cBN.mute = true ∧ c1_cBN.previewMuted = false
    ∧ obj_constraints (disable_physics_preview
          (enable_physics_preview c1_st (some ["N0", "N1"]) none
            (some [c1_node0, wit_node1])).1
          (some ["N0", "N1"]) none (some [c1_node0, wit_node1]) false).1 "N0"
        = [{ c1_cBN with mute := false }]
    ∧ ({ c1_cBN with mute := false } : Constraint).mute ≠ c1_cBN.mute := by
  with_unfolding_all decide

/-! ### C8: the disable operator's cancelled paths -/

theorem St.updObj_id (s : St) (n : String) (f : Obj → Obj)
    (h : ∀ o ∈ s.objs, (o.name == n) = true → f o = o) : s.updObj n f = s := by
  unfold St.updObj
  have hmap : s.objs.map (fun o => if o.name == n then f o else o) = s.objs := by
    have h1 : s.objs.map (fun o => if o.name == n then f o else o) = s.objs.map id :=
      List.map_congr_left (fun o ho => by
        by_cases hc : (o.name == n) = true
        · rw [if_pos hc]
          exact h o ho hc
        · rw [if_neg hc]
          rfl)
    rw [h1, List.map_id]
  rw [hmap]

theorem unmute_id (c : Constraint) (h : c.previewMuted = false) :
    unmute_node_constraint c = c := by
  unfold unmute_node_constraint
  rw [h, if_neg Bool.false_ne_true]

theorem obj_constraints_of_mem_nodup (s : St) (o : Obj)
    (hnd : (s.objs.map (fun x => x.name)).Nodup) (ho : o ∈ s.objs) :
    obj_constraints s o.name = o.constraints := by
  unfold obj_constraints St.findObj
  rw [find?_name_of_mem_nodup s.objs o hnd ho]

/-- When no node constraint carries the preview-muted flag, the un-mute
fold of `disable_physics_preview` changes nothing. -/
theorem foldl_unmute_id (s : St) (hnd : (s.objs.map (fun x => x.name)).Nodup) :
    ∀ (nodes : List Obj),
    (nodes.any (fun node =>
        (obj_constraints s node.name).any (fun c => c.previewMuted))) = false →
    nodes.foldl (fun (t : St) (node : Obj) =>
        t.updObj node.name (fun o =>
          { o with constraints := o.constraints.map unmute_node_constraint })) s = s := by
  intro nodes
  induction nodes with
  | nil =>
    intro _
    rw [List.foldl_nil]
  | cons m rest ih =>
    intro h
    rw [List.any_cons] at h
    obtain ⟨hm, hrest⟩ := Bool.or_eq_false_iff.mp h
    rw [List.foldl_cons]
    have hstep : s.updObj m.name (fun o =>
        { o with constraints := o.constraints.map unmute_node_constraint }) = s := by
      apply St.updObj_id
      intro o ho hname
      have hco : obj_constraints s m.name = o.constraints := by
        have := obj_constraints_of_mem_nodup s o hnd ho
        rw [← (eq_of_beq hname : o.name = m.name)]
        exact this
      have hflags : ∀ c ∈ o.constraints, c.previewMuted = false := by
        rw [hco] at hm
        intro c hc
        cases hb : c.previewMuted
        · rfl
        · exact absurd (List.any_eq_true.mpr ⟨c, hc, hb⟩)
            (by rw [hm]; exact Bool.false_ne_true)
      have hcs : o.constraints.map unmute_node_constraint = o.constraints := by
        have h1 : o.constraints.map unmute_node_constraint = o.constraints.map id :=
          List.map_congr_left (fun c hc => unmute_id c (hflags c hc))
        rw [h1, List.map_id]
      rw [hcs]
    rw [hstep]
    exact ih hrest

theorem disable_pose_bone_id (clear : Bool) (b : Bone) (h : has_preview_name b = false) :
    disable_pose_bone clear b = b := by
  unfold disable_pose_bone
  rw [h, if_neg Bool.false_ne_true]

/-- When no pose bone holds a preview constraint, the pose-bone phase of
`disable_physics_preview` changes nothing. -/
theorem upd_arm_bones_dpb_id (s : St) (hnd : (s.objs.map (fun x => x.name)).Nodup)
    (armName : String) (clear : Bool) (h : arm_any_preview s armName = false) :
    upd_arm_bones s armName (fun bs => bs.map (disable_pose_bone clear)) = s := by
  unfold upd_arm_bones
  apply St.updObj_id
  intro o ho hname
  cases hd : o.data with
  | plain => rfl
  | armData bs cs ab =>
    unfold arm_any_preview at h
    have hfo : s.findObj armName = some o := by
      rw [← (eq_of_beq hname : o.name = armName)]
      exact (by unfold St.findObj; exact find?_name_of_mem_nodup s.objs o hnd ho)
    rw [hfo] at h
    dsimp only at h
    have hbs : o.bones = bs := by
      unfold Obj.bones
      rw [hd]
    rw [hbs] at h
    have hmap : bs.map (disable_pose_bone clear) = bs := by
      have h1 : bs.map (disable_pose_bone clear) = bs.map id :=
        List.map_congr_left (fun b hb => disable_pose_bone_id clear b (by
          cases hx : has_preview_name b
          · rfl
          · exact absurd (List.any_eq_true.mpr ⟨b, hb, hx⟩)
              (by rw [h]; exact Bool.false_ne_true)))
      rw [h1, List.map_id]
    dsimp only
    rw [hmap, ← hd]

/-- C8: `WM_OT_DisablePhysicsPreview.execute` returns CANCELLED exactly when
the active chain collection is unset, the collection holds no chain node, the
disable call finds no armature, or it changes nothing; and every cancelled
run leaves the scene state — tool properties, node constraints and pose-bone
constraints included — fully unchanged. -/
theorem claim_C8_disable_execute (s : St)
    (hndobj : (s.objs.map (fun o => o.name)).Nodup) :
    ((disable_preview_execute s).2 = OpRes.CANCELLED
      ↔ (s.tool.chainColl = none
         ∨ (∃ coll, s.tool.chainColl = some coll ∧ get_chain_nodes s (some coll) = [])
         ∨ (∃ coll, s.tool.chainColl = some coll
             ∧ (disable_physics_preview s (some coll) none
                 (some (get_chain_nodes s (some coll))) false).2.1 = none)
         ∨ (∃ coll, s.tool.chainColl = some coll
             ∧ (disable_physics_preview s (some coll) none
                 (some (get_chain_nodes s (some coll))) false).2.2 = false)))
    ∧ ((disable_preview_execute s).2 = OpRes.CANCELLED →
        (disable_preview_execute s).1 = s) := by
  cases hcoll : s.tool.chainColl with
  | none =>
    have hex : disable_preview_execute s = (s, OpRes.CANCELLED) := by
      unfold disable_preview_execute
      rw [hcoll]
    rw [hex]
    exact ⟨⟨fun _ => Or.inl rfl, fun _ => rfl⟩, fun _ => rfl⟩
  | some coll =>
    by_cases hemp : ((get_chain_nodes s (some coll)).isEmpty) = true
    · have hex : disable_preview_execute s = (s, OpRes.CANCELLED) := by
        unfold disable_preview_execute
        rw [hcoll]
        dsimp only
        rw [if_pos hemp]
      rw [hex]
      exact ⟨⟨fun _ => Or.inr (Or.inl ⟨coll, rfl, List.isEmpty_iff.mp hemp⟩),
        fun _ => rfl⟩, fun _ => rfl⟩
    · have hres : resolve_nodes s (some coll) (some (get_chain_nodes s (some coll)))
          = get_chain_nodes s (some coll) := rfl
      rcases disable_result_cases s (some coll) none
          (some (get_chain_nodes s (some coll))) false with
        ⟨he, heq⟩ | ⟨hne, harmN, heq⟩ | ⟨armName, hne, harmN, heq⟩
      · rw [hres] at he
        exact absurd (by rw [he]; rfl : ((get_chain_nodes s (some coll)).isEmpty) = true) hemp
      · have hex : disable_preview_execute s = (s, OpRes.CANCELLED) := by
          unfold disable_preview_execute
          rw [hcoll]
          dsimp only
          rw [if_neg hemp, heq]
          dsimp only
          rw [if_pos (by rfl)]
        rw [hex]
        exact ⟨⟨fun _ => Or.inr (Or.inr (Or.inl ⟨coll, rfl, by rw [heq]⟩)),
          fun _ => rfl⟩, fun _ => rfl⟩
      · rw [hres] at heq
        rcases hD : disable_physics_preview s (some coll) none
            (some (get_chain_nodes s (some coll))) false with ⟨s1, armO, ch⟩
        rw [hD] at heq
        injection heq with heq1 heq2
        injection heq2 with heq2 heq3
        subst heq2
        cases hchv : ch with
        | false =>
          have hC := heq3.symm
          rw [hchv] at hC
          obtain ⟨hch1, hch2⟩ := Bool.or_eq_false_iff.mp hC
          have hfold := foldl_unmute_id s hndobj (get_chain_nodes s (some coll)) hch1
          rw [hfold] at hch2
          have hupd := upd_arm_bones_dpb_id s hndobj armName false hch2
          rw [hfold, hupd] at heq1
          rw [hchv] at hD
          have hex : disable_preview_execute s = (s1, OpRes.CANCELLED) := by
            unfold disable_preview_execute
            rw [hcoll]
            dsimp only
            rw [if_neg hemp, hD]
            dsimp only
            rw [if_pos (by rfl)]
          rw [hex]
          exact ⟨⟨fun _ => Or.inr (Or.inr (Or.inr ⟨coll, rfl, by rw [hD]⟩)),
            fun _ => rfl⟩, fun _ => heq1⟩
        | true =>
          rw [hchv] at hD
          have hex : disable_preview_execute s
              = ({ s1 with tool := { s1.tool with previewEnabled := false } },
                 OpRes.FINISHED) := by
            unfold disable_preview_execute
            rw [hcoll]
            dsimp only
            rw [if_neg hemp, hD]
            dsimp only
            rw [if_neg (by exact fun hcc => Bool.noConfusion hcc)]
          rw [hex]
          refine ⟨⟨?_, ?_⟩, ?_⟩
          · intro hcF
            exact OpRes.noConfusion hcF
          · intro hrhs
            exfalso
            rcases hrhs with h0 | ⟨coll1, hc1, hn1⟩ | ⟨coll1, hc1, ha1⟩ | ⟨coll1, hc1, hchf⟩
            · exact Option.noConfusion h0
            · injection hc1 with hc1
              rw [← hc1] at hn1
              exact hemp (by rw [hn1]; rfl)
            · injection hc1 with hc1
              rw [← hc1] at ha1
              rw [hD] at ha1
              exact Option.noConfusion ha1
            · injection hc1 with hc1
              rw [← hc1] at hchf
              rw [hD] at hchf
              exact Bool.noConfusion hchf
          · intro hcF
            exact OpRes.noConfusion hcF

/-- C8 witness: the cancelled-path characterization at the fixture scene. -/
theorem claim_C8_disable_execute_witness :
    ((wit_st.objs.map (fun o => o.name)).Nodup)
    ∧ (((disable_preview_execute wit_st).2 = OpRes.CANCELLED
      ↔ (wit_st.tool.chainColl = none
         ∨ (∃ coll, wit_st.tool.chainColl = some coll
             ∧ get_chain_nodes wit_st (some coll) = [])
         ∨ (∃ coll, wit_st.tool.chainColl = some coll
             ∧ (disable_physics_preview wit_st (some coll) none
                 (some (get_chain_nodes wit_st (some coll))) false).2.1 = none)
         ∨ (∃ coll, wit_st.tool.chainColl = some coll
             ∧ (disable_physics_preview wit_st (some coll) none
                 (some (get_chain_nodes wit_st (some coll))) false).2.2 = false)))
    ∧ ((disable_preview_execute wit_st).2 = OpRes.CANCELLED →
        (disable_preview_execute wit_st).1 = wit_st)) :=
  ⟨by decide, claim_C8_disable_execute wit_st (by decide)⟩

/-! ### C7: teardown effects of the bake operator -/

theorem obj_constraints_modeSet (s : St) (m : Mode) (x : String) :
    obj_constraints (s.modeSet m) x = obj_constraints s x :=
  obj_constraints_of_map s _ _ (modeSet_objs s m)
    (fun o => by split <;> rfl) (fun o => by split <;> rfl) x

theorem obj_constraints_deselAll (s : St) (x : String) :
    obj_constraints s.deselAll x = obj_constraints s x :=
  obj_constraints_of_map s _ _ (St.deselAll_objs s) (fun o => rfl) (fun o => rfl) x

theorem obj_constraints_setSel (s : St) (n : String) (b : Bool) (x : String) :
    obj_constraints (s.setSel n b) x = obj_constraints s x :=
  obj_constraints_of_map s _ _ (St.setSel_objs s n b)
    (fun o => by split <;> rfl) (fun o => by split <;> rfl) x

theorem obj_constraints_setActive (s : St) (a : Option String) (x : String) :
    obj_constraints (s.setActive a) x = obj_constraints s x := by
  unfold obj_constraints St.findObj
  rw [St.setActive_objs]

theorem obj_constraints_foldl_setSel (ns : List String) (s : St) (x : String) :
    obj_constraints (ns.foldl (fun (t : St) n => t.setSel n true) s) x
      = obj_constraints s x :=
  obj_constraints_of_map s _ _ (foldl_setSel_objs ns s)
    (fun o => by split <;> rfl) (fun o => by split <;> rfl) x

theorem obj_constraints_set_active_bone (s : St) (armName : String) (b : Option String)
    (x : String) : obj_constraints (set_active_bone s armName b) x = obj_constraints s x := by
  apply obj_constraints_of_map s _ _ rfl
  · intro o
    by_cases hc : (o.name == armName) = true
    · simp only [hc, if_true]
      cases o.data <;> rfl
    · rw [if_neg hc]
  · intro o
    by_cases hc : (o.name == armName) = true
    · simp only [hc, if_true]
      cases o.data <;> rfl
    · rw [if_neg hc]

theorem bake_restore_obj_constraints (s : St) (armName : String) (origActive : Option String)
    (origSel : List String) (origMode : Mode) (origBoneSel : List String) (x : String) :
    obj_constraints (bake_restore s armName origActive origSel origMode origBoneSel) x
      = obj_constraints s x := by
  unfold bake_restore
  dsimp only
  by_cases h5 : (origActive == some armName && origMode == Mode.POSE) = true
  · rw [if_pos h5]
    by_cases hg : (origActive.isSome && !(origMode == Mode.OBJECT)) = true
    · rw [if_pos hg]
      rw [obj_constraints_modeSet, upd_arm_bones_obj_constraints, obj_constraints_modeSet,
        obj_constraints_setActive, obj_constraints_foldl_setSel, obj_constraints_deselAll,
        obj_constraints_modeSet]
    · rw [if_neg hg]
      rw [upd_arm_bones_obj_constraints, obj_constraints_modeSet,
        obj_constraints_setActive, obj_constraints_foldl_setSel, obj_constraints_deselAll,
        obj_constraints_modeSet]
  · rw [if_neg h5]
    by_cases hg : (origActive.isSome && !(origMode == Mode.OBJECT)) = true
    · rw [if_pos hg]
      rw [obj_constraints_modeSet, obj_constraints_setActive, obj_constraints_foldl_setSel,
        obj_constraints_deselAll, obj_constraints_modeSet]
    · rw [if_neg hg]
      rw [obj_constraints_setActive, obj_constraints_foldl_setSel,
        obj_constraints_deselAll, obj_constraints_modeSet]

theorem obj_constraints_congr_objs (s t : St) (h : s.objs = t.objs) (x : String) :
    obj_constraints s x = obj_constraints t x := by
  unfold obj_constraints St.findObj
  rw [h]

theorem upd_arm_bones_tool (s : St) (n : String) (f : List Bone → List Bone) :
    (upd_arm_bones s n f).tool = s.tool := rfl

theorem set_active_bone_tool (s : St) (n : String) (b : Option String) :
    (set_active_bone s n b).tool = s.tool := rfl

theorem ensure_tool (s : St) (coll : Option (List String)) (arm0 : Option String)
    (nodes0 : Option (List Obj)) :
    (ensure_physics_bones s coll arm0 nodes0).1.tool = s.tool := by
  rcases ensure_state_cases s coll arm0 nodes0 with heq | ⟨armName, ebs, colls, heq⟩
  · rw [heq]
  · rw [heq]
    rw [exit_edit_mode_tool]
    unfold commit_bones
    rw [St.updObj_tool, enter_edit_mode_tool]

theorem foldl_pose_tool (armName : String) :
    ∀ (nodes : List Obj) (acc : St × List String),
    (nodes.foldl (fun (acc : St × List String) (node : Obj) =>
        if arm_has_bone acc.1 armName node.name then
          (upd_arm_bones acc.1 armName
            (fun bs => mod_bone bs node.name (enable_pose_bone node.name)),
           acc.2 ++ [node.name])
        else acc) acc).1.tool = acc.1.tool := by
  intro nodes
  induction nodes with
  | nil => intro acc; rw [List.foldl_nil]
  | cons m rest ih =>
    intro acc
    rw [List.foldl_cons]
    by_cases hb : arm_has_bone acc.1 armName m.name = true
    · rw [if_pos hb, ih]
      exact upd_arm_bones_tool acc.1 armName _
    · rw [if_neg hb, ih]

theorem foldl_map_constraints_tool (g : Constraint → Constraint) :
    ∀ (nodes : List Obj) (t0 : St),
    (nodes.foldl (fun (t : St) (node : Obj) =>
        t.updObj node.name (fun o =>
          { o with constraints := o.constraints.map g })) t0).tool = t0.tool := by
  intro nodes
  induction nodes with
  | nil => intro t0; rw [List.foldl_nil]
  | cons m rest ih =>
    intro t0
    rw [List.foldl_cons, ih, St.updObj_tool]

theorem enable_tool (s : St) (coll : Option (List String)) (arm0 : Option String)
    (nodes0 : Option (List Obj)) :
    (enable_physics_preview s coll arm0 nodes0).1.tool = s.tool := by
  rcases enable_result_cases s coll arm0 nodes0 with
    ⟨s1, hE, hEn⟩ | ⟨s1, nodes, cnt, hE, hEn⟩ | ⟨s1, armName, nodes, cnt, hE, hEn⟩
  · rw [hEn]
    have := ensure_tool s coll arm0 nodes0
    rw [hE] at this
    exact this
  · rw [hEn]
    have := ensure_tool s coll arm0 nodes0
    rw [hE] at this
    exact this
  · rw [hEn]
    dsimp only
    rw [foldl_map_constraints_tool, foldl_pose_tool]
    have := ensure_tool s coll arm0 nodes0
    rw [hE] at this
    exact this

theorem bake_restore_tool (s : St) (armName : String) (origActive : Option String)
    (origSel : List String) (origMode : Mode) (origBoneSel : List String) :
    (bake_restore s armName origActive origSel origMode origBoneSel).tool = s.tool := by
  unfold bake_restore
  dsimp only
  by_cases h5 : (origActive == some armName && origMode == Mode.POSE) = true
  · rw [if_pos h5]
    by_cases hg : (origActive.isSome && !(origMode == Mode.OBJECT)) = true
    · rw [if_pos hg]
      rw [St.modeSet_tool, upd_arm_bones_tool, St.modeSet_tool, St.setActive_tool,
        foldl_setSel_tool, St.deselAll_tool, St.modeSet_tool]
    · rw [if_neg hg]
      rw [upd_arm_bones_tool, St.modeSet_tool, St.setActive_tool,
        foldl_setSel_tool, St.deselAll_tool, St.modeSet_tool]
  · rw [if_neg h5]
    by_cases hg : (origActive.isSome && !(origMode == Mode.OBJECT)) = true
    · rw [if_pos hg]
      rw [St.modeSet_tool, St.setActive_tool, foldl_setSel_tool, St.deselAll_tool,
        St.modeSet_tool]
    · rw [if_neg hg]
      rw [St.setActive_tool, foldl_setSel_tool, St.deselAll_tool, St.modeSet_tool]

theorem unmute_flag_false (c : Constraint) :
    (unmute_node_constraint c).previewMuted = false := by
  unfold unmute_node_constraint
  cases hp : c.previewMuted with
  | true => rw [if_pos rfl]
  | false => rw [if_neg Bool.false_ne_true]; exact hp

theorem bake_teardown_enabled (s : St) (coll : List String) (armName : String)
    (nodes : List Obj) (clear : Bool) :
    (bake_teardown s coll armName nodes clear).tool.previewEnabled = false := rfl

/-- The node constraints after `bake_teardown`: the un-mute map over each
baked node's stack. -/
theorem bake_teardown_obj_constraints (s : St) (coll : List String) (armName : String)
    (nodes : List Obj) (clear : Bool) (hnd : (nodes.map (fun n => n.name)).Nodup)
    (hne : nodes ≠ []) (n : Obj) (hn : n ∈ nodes) :
    obj_constraints (bake_teardown s coll armName nodes clear) n.name
      = (obj_constraints s n.name).map unmute_node_constraint := by
  unfold bake_teardown
  dsimp only
  have hres : resolve_nodes s (some coll) (some nodes) = nodes := rfl
  rcases disable_result_cases s (some coll) (some armName) (some nodes) clear with
    ⟨he, heq⟩ | ⟨hne2, harmN, heq⟩ | ⟨armNameD, hne2, harmN, heq⟩
  · rw [hres] at he
    exact absurd he hne
  · rw [hres] at harmN
    exact absurd harmN (by unfold resolve_arm_name; exact fun hc => Option.noConfusion hc)
  · have hc1 : obj_constraints { (disable_physics_preview s (some coll) (some armName)
        (some nodes) clear).1 with tool := { (disable_physics_preview s (some coll)
          (some armName) (some nodes) clear).1.tool with previewEnabled := false } } n.name
        = obj_constraints (disable_physics_preview s (some coll) (some armName)
            (some nodes) clear).1 n.name :=
      obj_constraints_congr_objs _ _ rfl n.name
    rw [hc1, heq]
    dsimp only
    rw [hres]
    rw [upd_arm_bones_obj_constraints]
    rw [foldl_map_constraints unmute_node_constraint nodes s n.name hnd]
    have hcont : ((nodes.map (fun o => o.name)).contains n.name) = true :=
      List.elem_iff.mpr (List.mem_map_of_mem (fun o => o.name) hn)
    rw [hcont, if_pos rfl]

theorem obj_constraints_ite_modeSet (c : Prop) [Decidable c] (s : St) (m : Mode)
    (x : String) :
    obj_constraints (if c then s.modeSet m else s) x = obj_constraints s x := by
  split
  · exact obj_constraints_modeSet s m x
  · rfl

theorem tool_ite_modeSet (c : Prop) [Decidable c] (s : St) (m : Mode) :
    (if c then s.modeSet m else s).tool = s.tool := by
  split
  · exact St.modeSet_tool s m
  · rfl

theorem bool_and_not_eq_false (a b : Bool) (h : (!a || b) = true) : (a && !b) = false := by
  revert h
  cases a <;> cases b <;> decide

theorem bool_guard_false (a b : Bool) (h : ¬((!a || b) = true)) : a = true ∧ b = false := by
  revert h
  cases a <;> cases b <;> decide

/-- A successful `ensure_physics_bones` leaves an object of the returned
armature name in the scene. -/
theorem ensure_main_findObj_isSome (s : St) (coll : Option (List String))
    (arm0 : Option String) (nodes0 : Option (List Obj)) (s1 : St) (armName : String)
    (ns : List Obj) (cnt : Nat)
    (h : ensure_physics_bones s coll arm0 nodes0 = (s1, some (some armName, ns, cnt))) :
    (s1.findObj armName).isSome = true := by
  rcases ensure_result_cases s coll arm0 nodes0 with
    ⟨he, heq⟩ | ⟨hne, harmN, heq⟩ | ⟨armName0, hne, harmN, hfoN, heq⟩
    | ⟨armName0, arm, hne, harmN, hfo4, heq⟩
  · rw [heq] at h
    injection h with h1 h2
    injection h2 with h2
    injection h2 with h2a h2b
    exact Option.noConfusion h2a
  · rw [heq] at h
    injection h with h1 h2
    injection h2 with h2
    injection h2 with h2a h2b
    exact Option.noConfusion h2a
  · rw [heq] at h
    injection h with h1 h2
    injection h2 with h2
    injection h2 with h2a h2b
    exact Option.noConfusion h2a
  · rw [heq] at h
    by_cases hlp : (ensure_loop (enter_edit_mode s armName0).1 arm.bones
        arm.matWorld.inverted s.ver4 (resolve_nodes s coll nodes0)
        (arm.bones, arm.bColls, 0)).2 = true
    · rw [if_pos hlp] at h
      injection h with h1 h2
      injection h2 with h2
      injection h2 with h2a h2b
      injection h2a with h2a
      subst h2a
      rw [← h1]
      rw [findObj_after_main s armName0 arm hfo4 _ _]
      rfl
    · rw [if_neg hlp] at h
      injection h with h1 h2
      exact Option.noConfusion h2

/-- `ensure_physics_bones` with an explicit armature either raises or
returns that armature with the given nodes. -/
theorem ensure_some_arm_cases (s : St) (coll : Option (List String)) (armName : String)
    (nodes2 : List Obj) (hne : nodes2 ≠ []) (hfo : (s.findObj armName).isSome = true)
    (sE : St) (res : Option (Option String × List Obj × Nat))
    (h : ensure_physics_bones s coll (some armName) (some nodes2) = (sE, res)) :
    res = none ∨ ∃ cnt2, res = some (some armName, nodes2, cnt2) := by
  rcases ensure_result_cases s coll (some armName) (some nodes2) with
    ⟨he, heq⟩ | ⟨hne2, harmN, heq⟩ | ⟨armName0, hne2, harmN, hfoN, heq⟩
    | ⟨armName0, arm, hne2, harmN, hfo4, heq⟩
  · exact absurd he hne
  · exact absurd harmN (fun hc => Option.noConfusion hc)
  · injection harmN with h0
    rw [h0] at hfo
    rw [hfoN] at hfo
    exact Bool.noConfusion hfo
  · injection harmN with h0
    rw [heq] at h
    injection h with h1 h2
    by_cases hlp : (ensure_loop (enter_edit_mode s armName0).1 arm.bones
        arm.matWorld.inverted s.ver4 (resolve_nodes s coll (some nodes2))
        (arm.bones, arm.bColls, 0)).2 = true
    · rw [if_pos hlp] at h2
      right
      have hres : resolve_nodes s coll (some nodes2) = nodes2 := rfl
      exact ⟨_, by rw [← h2, h0, hres]⟩
    · rw [if_neg hlp] at h2
      left
      exact h2.symm

/-- C7: once `WM_OT_BakePhysicsPreview.execute` reaches the preview-enabling
stage, then — bake succeeding or failing — on every non-raising return
`tool.physicsPreviewEnabled` equals (the preview was enabled before) AND
(`clear_preview_constraints` is `False`); and whenever the preview was not
enabled before the call, `disable_physics_preview` has run afterwards: each
baked node's constraint stack is the un-mute image of its pre-bake stack and
no constraint is left carrying the preview-muted flag. -/

theorem bool_or_nottrue (b : Bool) (h : (!true || b) = true) : b = true := by
  revert h
  cases b <;> decide

theorem claim_C7_bake_preview_teardown
    (s : St) (p : BakeParams) (coll : List String)
    (hcoll : s.tool.chainColl = some coll)
    (hnodes : get_chain_nodes s (some coll) ≠ [])
    (armObj : Obj)
    (hfa : find_chain_armature s (some coll) (some (get_chain_nodes s (some coll)))
        = some armObj)
    (s1 : St) (armName : String) (nodes2 : List Obj) (cnt : Nat)
    (hens : ensure_physics_bones s (some coll) (some armObj.name)
        (some (get_chain_nodes s (some coll))) = (s1, some (some armName, nodes2, cnt)))
    (hnodes2 : nodes2 ≠ [])
    (hnd2 : (nodes2.map (fun n => n.name)).Nodup)
    (s' : St) (r : OpRes)
    (hrun : bake_physics_preview_execute s p = (s', some r)) :
    s'.tool.previewEnabled = (s1.tool.previewEnabled && !p.clear)
    ∧ (s1.tool.previewEnabled = false →
        ∀ n ∈ nodes2,
          obj_constraints s' n.name
            = (obj_constraints s1 n.name).map
                (fun c => unmute_node_constraint (mute_node_constraint c))
          ∧ ∀ c ∈ obj_constraints s' n.name, c.previewMuted = false) := by
  have hempb : ¬(((get_chain_nodes s (some coll)).isEmpty) = true) :=
    fun hc => hnodes (List.isEmpty_iff.mp hc)
  have hempb2 : ¬((nodes2.isEmpty) = true) := fun hc => hnodes2 (List.isEmpty_iff.mp hc)
  unfold bake_physics_preview_execute at hrun
  rw [hcoll] at hrun
  dsimp only at hrun
  rw [if_neg hempb, hfa] at hrun
  dsimp only at hrun
  rw [hens] at hrun
  dsimp only at hrun
  rw [if_neg hempb2] at hrun
  cases hW : s1.tool.previewEnabled with
  | true =>
    rw [hW] at hrun
    rw [if_neg (fun hc => Bool.noConfusion hc)] at hrun
    dsimp only at hrun
    split at hrun
    · -- no pose bones
      split at hrun
      · rename_i hg
        have hclear : p.clear = true := bool_or_nottrue p.clear hg
        injection hrun with hr1 hr2
        refine ⟨?_, fun hfalse => absurd hfalse (fun hc => Bool.noConfusion hc)⟩
        rw [← hr1, bake_teardown_enabled, hclear]
        rfl
      · rename_i hclearN
        obtain ⟨_, hpc⟩ := bool_guard_false true p.clear hclearN
        injection hrun with hr1 hr2
        refine ⟨?_, fun hfalse => absurd hfalse (fun hc => Bool.noConfusion hc)⟩
        rw [← hr1, hpc, hW]
        rfl
    · -- try part
      unfold bake_try_part at hrun
      dsimp only at hrun
      split at hrun
      · -- bake succeeded
        split at hrun
        · rename_i hg
          have hclear : p.clear = true := bool_or_nottrue p.clear hg
          injection hrun with hr1 hr2
          refine ⟨?_, fun hfalse => absurd hfalse (fun hc => Bool.noConfusion hc)⟩
          rw [← hr1, bake_teardown_enabled, hclear]
          rfl
        · rename_i hclearN
          obtain ⟨_, hpc⟩ := bool_guard_false true p.clear hclearN
          injection hrun with hr1 hr2
          refine ⟨?_, fun hfalse => absurd hfalse (fun hc => Bool.noConfusion hc)⟩
          rw [← hr1, hpc]
          rfl
      · -- bake failed
        split at hrun
        · rename_i hg
          have hclear : p.clear = true := bool_or_nottrue p.clear hg
          injection hrun with hr1 hr2
          refine ⟨?_, fun hfalse => absurd hfalse (fun hc => Bool.noConfusion hc)⟩
          rw [← hr1, bake_restore_tool, bake_teardown_enabled, hclear]
          rfl
        · rename_i hclearN
          obtain ⟨_, hpc⟩ := bool_guard_false true p.clear hclearN
          injection hrun with hr1 hr2
          refine ⟨?_, fun hfalse => absurd hfalse (fun hc => Bool.noConfusion hc)⟩
          rw [← hr1, bake_restore_tool, hpc]
          rfl
  | false =>
    rw [hW] at hrun
    rw [if_pos (show ((!false) = true) from rfl)] at hrun
    have hfo1 := ensure_main_findObj_isSome s (some coll) (some armObj.name)
      (some (get_chain_nodes s (some coll))) s1 armName nodes2 cnt hens
    rcases hENv : enable_physics_preview s1 (some coll) (some armName) (some nodes2)
      with ⟨s2, r2⟩
    rw [hENv] at hrun
    rcases enable_result_cases s1 (some coll) (some armName) (some nodes2) with
      ⟨sE, hE, hEn⟩ | ⟨sE, nodesx, cntx, hE, hEn⟩ | ⟨sE, armNamex, nodesx, cntx, hE, hEn⟩
    · rw [hENv] at hEn
      injection hEn with hEn1 hEn2
      rw [hEn2] at hrun
      dsimp only at hrun
      injection hrun with hr1 hr2
      exact Option.noConfusion hr2
    · rcases ensure_some_arm_cases s1 (some coll) armName nodes2 hnodes2 hfo1 sE _ hE
        with hres | ⟨cnt2, hres⟩
      · exact Option.noConfusion hres
      · injection hres with hres
        injection hres with hres1 hres2
        exact Option.noConfusion hres1
    · rcases ensure_some_arm_cases s1 (some coll) armName nodes2 hnodes2 hfo1 sE _ hE
        with hres | ⟨cnt2, hres⟩
      · exact Option.noConfusion hres
      · injection hres with hres
        injection hres with hres1 hres2
        injection hres1 with hres1
        injection hres2 with hres2a hres2b
        rw [hENv] at hEn
        injection hEn with hEn1 hEn2
        rw [hres1, hres2a] at hEn1
        rw [hEn2] at hrun
        dsimp only at hrun
        have hs2c : ∀ n ∈ nodes2, obj_constraints s2 n.name
            = (obj_constraints s1 n.name).map mute_node_constraint := by
          intro n hn
          rw [hEn1]
          rw [foldl_map_constraints mute_node_constraint nodes2 _ n.name hnd2]
          have hcont : ((nodes2.map (fun o => o.name)).contains n.name) = true :=
            List.elem_iff.mpr (List.mem_map_of_mem (fun o => o.name) hn)
          rw [hcont, if_pos rfl]
          rw [foldl_pose_obj_constraints armName nodes2 (sE, []) n.name]
          have hEc := ensure_obj_constraints s1 (some coll) (some armName)
            (some nodes2) n.name
          rw [hE] at hEc
          rw [hEc]
        split at hrun
        · -- no pose bones: teardown runs
          split at hrun
          · injection hrun with hr1 hr2
            refine ⟨?_, ?_⟩
            · rw [← hr1, bake_teardown_enabled, Bool.false_and]
            · intro _ n hn
              have hfin : obj_constraints s' n.name
                  = (obj_constraints s1 n.name).map
                      (fun c => unmute_node_constraint (mute_node_constraint c)) := by
                rw [← hr1]
                rw [bake_teardown_obj_constraints s2 coll armName nodes2 p.clear
                  hnd2 hnodes2 n hn]
                rw [hs2c n hn, List.map_map]
                rfl
              refine ⟨hfin, ?_⟩
              rw [hfin]
              intro c hc
              obtain ⟨c0, _, rfl⟩ := List.mem_map.mp hc
              exact unmute_flag_false (mute_node_constraint c0)
          · rename_i hgN
            exact absurd rfl hgN
        · -- try part
          unfold bake_try_part at hrun
          dsimp only at hrun
          split at hrun
          · split at hrun
            · injection hrun with hr1 hr2
              refine ⟨?_, ?_⟩
              · rw [← hr1, bake_teardown_enabled, Bool.false_and]
              · intro _ n hn
                have hfin : obj_constraints s' n.name
                    = (obj_constraints s1 n.name).map
                        (fun c => unmute_node_constraint (mute_node_constraint c)) := by
                  rw [← hr1]
                  rw [bake_teardown_obj_constraints _ coll armName nodes2 p.clear
                    hnd2 hnodes2 n hn]
                  rw [bake_restore_obj_constraints, obj_constraints_set_active_bone,
                    upd_arm_bones_obj_constraints, obj_constraints_modeSet,
                    obj_constraints_setActive, obj_constraints_setSel,
                    obj_constraints_deselAll, obj_constraints_ite_modeSet]
                  rw [hs2c n hn, List.map_map]
                  rfl
                refine ⟨hfin, ?_⟩
                rw [hfin]
                intro c hc
                obtain ⟨c0, _, rfl⟩ := List.mem_map.mp hc
                exact unmute_flag_false (mute_node_constraint c0)
            · rename_i hgN
              exact absurd rfl hgN
          · split at hrun
            · injection hrun with hr1 hr2
              refine ⟨?_, ?_⟩
              · rw [← hr1, bake_restore_tool, bake_teardown_enabled, Bool.false_and]
              · intro _ n hn
                have hfin : obj_constraints s' n.name
                    = (obj_constraints s1 n.name).map
                        (fun c => unmute_node_constraint (mute_node_constraint c)) := by
                  rw [← hr1]
                  rw [bake_restore_obj_constraints]
                  rw [bake_teardown_obj_constraints _ coll armName nodes2 p.clear
                    hnd2 hnodes2 n hn]
                  rw [obj_constraints_set_active_bone,
                    upd_arm_bones_obj_constraints, obj_constraints_modeSet,
                    obj_constraints_setActive, obj_constraints_setSel,
                    obj_constraints_deselAll, obj_constraints_ite_modeSet]
                  rw [hs2c n hn, List.map_map]
                  rfl
                refine ⟨hfin, ?_⟩
                rw [hfin]
                intro c hc
                obtain ⟨c0, _, rfl⟩ := List.mem_map.mp hc
                exact unmute_flag_false (mute_node_constraint c0)
            · rename_i hgN
              exact absurd rfl hgN

/-- Dialog parameters for the bake fixture run. -/
def c7_p : BakeParams := { frameStart := 0, frameEnd := 10, clear := false }

/-- C7 witness: the fixture bake run (preview initially off, `clear` off). -/
theorem claim_C7_bake_preview_teardown_witness :
    (wit_st.tool.chainColl = some ["N0", "N1"]
      ∧ get_chain_nodes wit_st (some ["N0", "N1"]) ≠ []
      ∧ find_chain_armature wit_st (some ["N0", "N1"])
          (some (get_chain_nodes wit_st (some ["N0", "N1"]))) = some wit_arm
      ∧ ensure_physics_bones wit_st (some ["N0", "N1"]) (some wit_arm.name)
          (some (get_chain_nodes wit_st (some ["N0", "N1"])))
        = ((ensure_physics_bones wit_st (some ["N0", "N1"]) (some wit_arm.name)
            (some (get_chain_nodes wit_st (some ["N0", "N1"])))).1,
           some (some "Arm", get_chain_nodes wit_st (some ["N0", "N1"]), 2))
      ∧ ((get_chain_nodes wit_st (some ["N0", "N1"])).map (fun n => n.name)).Nodup
      ∧ bake_physics_preview_execute wit_st c7_p
        = ((bake_physics_preview_execute wit_st c7_p).1, some OpRes.FINISHED))
    ∧ ((bake_physics_preview_execute wit_st c7_p).1.tool.previewEnabled
        = ((ensure_physics_bones wit_st (some ["N0", "N1"]) (some wit_arm.name)
            (some (get_chain_nodes wit_st (some ["N0", "N1"])))).1.tool.previewEnabled
           && !c7_p.clear)
      ∧ ((ensure_physics_bones wit_st (some ["N0", "N1"]) (some wit_arm.name)
            (some (get_chain_nodes wit_st (some ["N0", "N1"])))).1.tool.previewEnabled
            = false →
        ∀ n ∈ get_chain_nodes wit_st (some ["N0", "N1"]),
          obj_constraints (bake_physics_preview_execute wit_st c7_p).1 n.name
            = (obj_constraints (ensure_physics_bones wit_st (some ["N0", "N1"])
                (some wit_arm.name)
                (some (get_chain_nodes wit_st (some ["N0", "N1"])))).1 n.name).map
                (fun c => unmute_node_constraint (mute_node_constraint c))
          ∧ ∀ c ∈ obj_constraints (bake_physics_preview_execute wit_st c7_p).1 n.name,
              c.previewMuted = false)) :=
  ⟨⟨by decide, by with_unfolding_all decide, by with_unfolding_all decide,
    by with_unfolding_all decide, by with_unfolding_all decide,
    by with_unfolding_all decide⟩,
   claim_C7_bake_preview_teardown wit_st c7_p ["N0", "N1"] (by decide)
     (by with_unfolding_all decide) wit_arm (by with_unfolding_all decide)
     (ensure_physics_bones wit_st (some ["N0", "N1"]) (some wit_arm.name)
       (some (get_chain_nodes wit_st (some ["N0", "N1"])))).1
     "Arm" (get_chain_nodes wit_st (some ["N0", "N1"])) 2
     (by with_unfolding_all decide) (by with_unfolding_all decide)
     (by with_unfolding_all decide)
     (bake_physics_preview_execute wit_st c7_p).1 OpRes.FINISHED
     (by with_unfolding_all decide)⟩

/-! ### C6: UI restoration of the bake operator -/

theorem selNames_of_map (s t : St) (f : Obj → Obj) (hobjs : t.objs = s.objs.map f)
    (hname : ∀ o, (f o).name = o.name) (hsel : ∀ o, (f o).sel = o.sel) :
    t.selNames = s.selNames := by
  unfold St.selNames
  rw [hobjs, List.filter_map, List.map_map]
  have h1 : s.objs.filter (fun o => (f o).sel) = s.objs.filter (fun o => o.sel) :=
    List.filter_congr (fun o _ => by rw [hsel])
  have h2 : ∀ l : List Obj, l.map ((fun (o : Obj) => o.name) ∘ f)
      = l.map (fun o => o.name) :=
    fun l => List.map_congr_left (fun o _ => by
      show (f o).name = o.name
      exact hname o)
  calc ((s.objs.filter (fun o => (f o).sel)).map ((fun (o : Obj) => o.name) ∘ f))
      = ((s.objs.filter (fun o => o.sel)).map ((fun (o : Obj) => o.name) ∘ f)) := by rw [h1]
    _ = (s.objs.filter (fun o => o.sel)).map (fun o => o.name) := h2 _

theorem modeOf_of_map (s t : St) (f : Obj → Obj) (hobjs : t.objs = s.objs.map f)
    (hname : ∀ o, (f o).name = o.name) (hmode : ∀ o, (f o).mode = o.mode) (a : String) :
    t.modeOf a = s.modeOf a := by
  unfold St.modeOf St.findObj
  rw [hobjs, find?_name_map _ _ _ hname]
  cases s.objs.find? (fun o => o.name == a) with
  | none => rfl
  | some o =>
    dsimp only [Option.map]
    exact hmode o

theorem findObj_isSome_of_map (s t : St) (f : Obj → Obj) (hobjs : t.objs = s.objs.map f)
    (hname : ∀ o, (f o).name = o.name) (n : String) :
    (t.findObj n).isSome = (s.findObj n).isSome := by
  unfold St.findObj
  rw [hobjs, find?_name_map _ _ _ hname]
  cases s.objs.find? (fun o => o.name == n) <;> rfl

/-- `modeOf` through `modeSet`. -/
theorem modeOf_modeSet (s : St) (m : Mode) (x : String) :
    (s.modeSet m).modeOf x
      = if s.active = some x ∧ (s.findObj x).isSome = true then m else s.modeOf x := by
  have hfind : (s.modeSet m).findObj x
      = ((s.findObj x).map (fun o =>
          if (match s.active with | some a => o.name == a | none => false) then
            { o with mode := m } else o)) := by
    unfold St.findObj
    rw [modeSet_objs]
    exact find?_name_map _ _ _ (fun o => by split <;> rfl)
  unfold St.modeOf
  rw [hfind]
  cases hf : s.findObj x with
  | none =>
    dsimp only [Option.map]
    rw [if_neg (fun hc => Bool.noConfusion hc.2)]
  | some o =>
    have hf2 : s.objs.find? (fun oo => oo.name == x) = some o := hf
    have hp := List.find?_some hf2
    have hon : o.name = x := eq_of_beq hp
    dsimp only [Option.map]
    cases hsa : s.active with
    | none =>
      dsimp only
      rw [if_neg Bool.false_ne_true]
      rw [if_neg (fun hc => Option.noConfusion hc.1)]
    | some b =>
      dsimp only
      by_cases hbx : (o.name == b) = true
      · have hbxx : b = x := ((eq_of_beq hbx).symm.trans hon : b = x)
        rw [if_pos hbx]
        rw [if_pos ⟨by rw [hbxx], rfl⟩]
      · rw [if_neg hbx]
        rw [if_neg (fun hc => hbx (by
          have hbxx : b = x := by injection hc.1
          rw [hon, hbxx]
          exact beq_self_eq_true x))]

theorem modeOf_ne_OBJECT_isSome (s : St) (a : String) (h : s.modeOf a ≠ Mode.OBJECT) :
    (s.findObj a).isSome = true := by
  unfold St.modeOf at h
  cases hf : s.findObj a with
  | none => rw [hf] at h; exact absurd rfl h
  | some o => rfl

theorem selNames_modeSet (s : St) (m : Mode) : (s.modeSet m).selNames = s.selNames :=
  selNames_of_map s _ _ (modeSet_objs s m)
    (fun o => by split <;> rfl) (fun o => by split <;> rfl)

theorem isSome_modeSet (s : St) (m : Mode) (n : String) :
    ((s.modeSet m).findObj n).isSome = (s.findObj n).isSome :=
  findObj_isSome_of_map s _ _ (modeSet_objs s m) (fun o => by split <;> rfl) n

theorem modeOf_deselAll (s : St) (a : String) : s.deselAll.modeOf a = s.modeOf a :=
  modeOf_of_map s _ _ (St.deselAll_objs s) (fun o => rfl) (fun o => rfl) a

theorem isSome_deselAll (s : St) (n : String) :
    (s.deselAll.findObj n).isSome = (s.findObj n).isSome :=
  findObj_isSome_of_map s _ _ (St.deselAll_objs s) (fun o => rfl) n

theorem modeOf_setSel (s : St) (nm : String) (b : Bool) (a : String) :
    ((s.setSel nm b).modeOf a) = s.modeOf a :=
  modeOf_of_map s _ _ (St.setSel_objs s nm b)
    (fun o => by split <;> rfl) (fun o => by split <;> rfl) a

theorem isSome_setSel (s : St) (nm : String) (b : Bool) (n : String) :
    (((s.setSel nm b).findObj n).isSome) = (s.findObj n).isSome :=
  findObj_isSome_of_map s _ _ (St.setSel_objs s nm b) (fun o => by split <;> rfl) n

theorem selNames_setActive (s : St) (a : Option String) :
    (s.setActive a).selNames = s.selNames := rfl

theorem modeOf_setActive (s : St) (a : Option String) (x : String) :
    (s.setActive a).modeOf x = s.modeOf x := rfl

theorem isSome_setActive (s : St) (a : Option String) (n : String) :
    ((s.setActive a).findObj n).isSome = (s.findObj n).isSome := rfl

theorem modeOf_foldl_setSel (ns : List String) (s : St) (a : String) :
    ((ns.foldl (fun (t : St) n => t.setSel n true) s).modeOf a) = s.modeOf a :=
  modeOf_of_map s _ _ (foldl_setSel_objs ns s)
    (fun o => by split <;> rfl) (fun o => by split <;> rfl) a

theorem isSome_foldl_setSel (ns : List String) (s : St) (n : String) :
    (((ns.foldl (fun (t : St) nm => t.setSel nm true) s).findObj n).isSome)
      = (s.findObj n).isSome :=
  findObj_isSome_of_map s _ _ (foldl_setSel_objs ns s) (fun o => by split <;> rfl) n

theorem selNames_upd_arm_bones (s : St) (armName : String) (f : List Bone → List Bone) :
    (upd_arm_bones s armName f).selNames = s.selNames :=
  selNames_of_map s _ _ rfl
    (fun o => by
      by_cases hc : (o.name == armName) = true
      · simp only [hc, if_true]
        cases o.data <;> rfl
      · rw [if_neg hc])
    (fun o => by
      by_cases hc : (o.name == armName) = true
      · simp only [hc, if_true]
        cases o.data <;> rfl
      · rw [if_neg hc])

theorem modeOf_upd_arm_bones (s : St) (armName : String) (f : List Bone → List Bone)
    (a : String) : (upd_arm_bones s armName f).modeOf a = s.modeOf a :=
  modeOf_of_map s _ _ rfl
    (fun o => by
      by_cases hc : (o.name == armName) = true
      · simp only [hc, if_true]
        cases o.data <;> rfl
      · rw [if_neg hc])
    (fun o => by
      by_cases hc : (o.name == armName) = true
      · simp only [hc, if_true]
        cases o.data <;> rfl
      · rw [if_neg hc]) a

theorem isSome_upd_arm_bones (s : St) (armName : String) (f : List Bone → List Bone)
    (n : String) : ((upd_arm_bones s armName f).findObj n).isSome = (s.findObj n).isSome :=
  findObj_isSome_of_map s _ _ rfl
    (fun o => by
      by_cases hc : (o.name == armName) = true
      · simp only [hc, if_true]
        cases o.data <;> rfl
      · rw [if_neg hc]) n

theorem selNames_set_active_bone (s : St) (armName : String) (b : Option String) :
    (set_active_bone s armName b).selNames = s.selNames :=
  selNames_of_map s _ _ rfl
    (fun o => by
      by_cases hc : (o.name == armName) = true
      · simp only [hc, if_true]
        cases o.data <;> rfl
      · rw [if_neg hc])
    (fun o => by
      by_cases hc : (o.name == armName) = true
      · simp only [hc, if_true]
        cases o.data <;> rfl
      · rw [if_neg hc])

theorem modeOf_set_active_bone (s : St) (armName : String) (b : Option String)
    (a : String) : (set_active_bone s armName b).modeOf a = s.modeOf a :=
  modeOf_of_map s _ _ rfl
    (fun o => by
      by_cases hc : (o.name == armName) = true
      · simp only [hc, if_true]
        cases o.data <;> rfl
      · rw [if_neg hc])
    (fun o => by
      by_cases hc : (o.name == armName) = true
      · simp only [hc, if_true]
        cases o.data <;> rfl
      · rw [if_neg hc]) a

theorem isSome_set_active_bone (s : St) (armName : String) (b : Option String)
    (n : String) :
    ((set_active_bone s armName b).findObj n).isSome = (s.findObj n).isSome :=
  findObj_isSome_of_map s _ _ rfl
    (fun o => by
      by_cases hc : (o.name == armName) = true
      · simp only [hc, if_true]
        cases o.data <;> rfl
      · rw [if_neg hc]) n

theorem set_active_bone_active (s : St) (armName : String) (b : Option String) :
    (set_active_bone s armName b).active = s.active := rfl

theorem upd_arm_bones_active (s : St) (armName : String) (f : List Bone → List Bone) :
    (upd_arm_bones s armName f).active = s.active := rfl

theorem ui_updObj_constraints (t : St) (nm : String) (g : Constraint → Constraint) :
    (t.updObj nm (fun o => { o with constraints := o.constraints.map g })).active = t.active
    ∧ (t.updObj nm (fun o => { o with constraints := o.constraints.map g })).selNames
        = t.selNames
    ∧ (∀ a, (t.updObj nm (fun o =>
        { o with constraints := o.constraints.map g })).modeOf a = t.modeOf a)
    ∧ (∀ n, ((t.updObj nm (fun o =>
        { o with constraints := o.constraints.map g })).findObj n).isSome
        = (t.findObj n).isSome) :=
  ⟨St.updObj_active t nm _,
   selNames_of_map t _ _ rfl (fun o => by split <;> rfl) (fun o => by split <;> rfl),
   fun a => modeOf_of_map t _ _ rfl (fun o => by split <;> rfl)
     (fun o => by split <;> rfl) a,
   fun n => findObj_isSome_of_map t _ _ rfl (fun o => by split <;> rfl) n⟩

theorem ui_foldl_map_constraints (g : Constraint → Constraint) :
    ∀ (nodes : List Obj) (t0 : St),
    (nodes.foldl (fun (t : St) (node : Obj) =>
        t.updObj node.name (fun o => { o with constraints := o.constraints.map g })) t0).active
        = t0.active
    ∧ (nodes.foldl (fun (t : St) (node : Obj) =>
        t.updObj node.name (fun o =>
          { o with constraints := o.constraints.map g })) t0).selNames = t0.selNames
    ∧ (∀ a, (nodes.foldl (fun (t : St) (node : Obj) =>
        t.updObj node.name (fun o =>
          { o with constraints := o.constraints.map g })) t0).modeOf a = t0.modeOf a)
    ∧ (∀ n, ((nodes.foldl (fun (t : St) (node : Obj) =>
        t.updObj node.name (fun o =>
          { o with constraints := o.constraints.map g })) t0).findObj n).isSome
        = (t0.findObj n).isSome) := by
  intro nodes
  induction nodes with
  | nil =>
    intro t0
    rw [List.foldl_nil]
    exact ⟨rfl, rfl, fun _ => rfl, fun _ => rfl⟩
  | cons m rest ih =>
    intro t0
    rw [List.foldl_cons]
    obtain ⟨ha, hs, hm, hi⟩ := ih (t0.updObj m.name
      (fun o => { o with constraints := o.constraints.map g }))
    obtain ⟨ha0, hs0, hm0, hi0⟩ := ui_updObj_constraints t0 m.name g
    exact ⟨ha.trans ha0, hs.trans hs0, fun a => (hm a).trans (hm0 a),
      fun n => (hi n).trans (hi0 n)⟩

theorem ui_foldl_pose (armName : String) :
    ∀ (nodes : List Obj) (acc : St × List String),
    (nodes.foldl (fun (acc : St × List String) (node : Obj) =>
        if arm_has_bone acc.1 armName node.name then
          (upd_arm_bones acc.1 armName
            (fun bs => mod_bone bs node.name (enable_pose_bone node.name)),
           acc.2 ++ [node.name])
        else acc) acc).1.active = acc.1.active
    ∧ (nodes.foldl (fun (acc : St × List String) (node : Obj) =>
        if arm_has_bone acc.1 armName node.name then
          (upd_arm_bones acc.1 armName
            (fun bs => mod_bone bs node.name (enable_pose_bone node.name)),
           acc.2 ++ [node.name])
        else acc) acc).1.selNames = acc.1.selNames
    ∧ (∀ a, (nodes.foldl (fun (acc : St × List String) (node : Obj) =>
        if arm_has_bone acc.1 armName node.name then
          (upd_arm_bones acc.1 armName
            (fun bs => mod_bone bs node.name (enable_pose_bone node.name)),
           acc.2 ++ [node.name])
        else acc) acc).1.modeOf a = acc.1.modeOf a)
    ∧ (∀ n, ((nodes.foldl (fun (acc : St × List String) (node : Obj) =>
        if arm_has_bone acc.1 armName node.name then
          (upd_arm_bones acc.1 armName
            (fun bs => mod_bone bs node.name (enable_pose_bone node.name)),
           acc.2 ++ [node.name])
        else acc) acc).1.findObj n).isSome = (acc.1.findObj n).isSome) := by
  intro nodes
  induction nodes with
  | nil =>
    intro acc
    rw [List.foldl_nil]
    exact ⟨rfl, rfl, fun _ => rfl, fun _ => rfl⟩
  | cons m rest ih =>
    intro acc
    rw [List.foldl_cons]
    by_cases hb : arm_has_bone acc.1 armName m.name = true
    · rw [if_pos hb]
      obtain ⟨ha, hs, hm, hi⟩ := ih (upd_arm_bones acc.1 armName
        (fun bs => mod_bone bs m.name (enable_pose_bone m.name)), acc.2 ++ [m.name])
      exact ⟨ha.trans (upd_arm_bones_active _ _ _),
        hs.trans (selNames_upd_arm_bones _ _ _),
        fun a => (hm a).trans (modeOf_upd_arm_bones _ _ _ a),
        fun n => (hi n).trans (isSome_upd_arm_bones _ _ _ n)⟩
    · rw [if_neg hb]
      exact ih acc

/-- `ensure_physics_bones` restores active object, selection and modes, and
keeps every object name present. -/
theorem ensure_ui_preserved (s : St) (coll : Option (List String)) (arm0 : Option String)
    (nodes0 : Option (List Obj)) :
    ((ensure_physics_bones s coll arm0 nodes0).1.active = s.active)
    ∧ (∀ n, n ∈ (ensure_physics_bones s coll arm0 nodes0).1.selNames ↔ n ∈ s.selNames)
    ∧ (∀ a, s.active = some a →
        (ensure_physics_bones s coll arm0 nodes0).1.modeOf a = s.modeOf a)
    ∧ (∀ n, ((ensure_physics_bones s coll arm0 nodes0).1.findObj n).isSome
        = (s.findObj n).isSome) := by
  rcases ensure_state_cases s coll arm0 nodes0 with h | ⟨armName, ebs, colls, h⟩
  · rw [h]
    exact ⟨rfl, fun n => Iff.rfl, fun a _ => rfl, fun _ => rfl⟩
  · rw [h]
    have hdataF : ∀ o : Obj,
        ((fun o => if o.name == armName then commit_obj_upd ebs colls o else o) o).name
          = o.name := by
      intro o
      by_cases hc : (o.name == armName) = true
      · simp only [hc, if_true]
        exact commit_obj_upd_name ebs colls o
      · dsimp only
        rw [if_neg hc]
    have hdataM : ∀ o : Obj,
        ((fun o => if o.name == armName then commit_obj_upd ebs colls o else o) o).mode
          = o.mode := by
      intro o
      by_cases hc : (o.name == armName) = true
      · simp only [hc, if_true]
        unfold commit_obj_upd
        cases o.data <;> rfl
      · dsimp only
        rw [if_neg hc]
    have hta : (commit_bones (enter_edit_mode s armName).1 armName ebs colls).active
        = some armName := by
      unfold commit_bones
      rw [St.updObj_active]
      exact enter_edit_mode_active s armName
    obtain ⟨h1, h2, h3⟩ := restore_ui_facts s
      (commit_bones (enter_edit_mode s armName).1 armName ebs colls) armName
      (fun o => if o.name == armName then commit_obj_upd ebs colls o else o)
      hdataF hdataM rfl hta
    refine ⟨h1, h2, h3, ?_⟩
    intro n
    have hex : (exit_edit_mode (commit_bones (enter_edit_mode s armName).1 armName ebs colls)
        (enter_edit_mode s armName).2).objs
        = (commit_bones (enter_edit_mode s armName).1 armName ebs colls).objs.map
            (exit_obj_upd (commit_bones (enter_edit_mode s armName).1 armName
              ebs colls).active (enter_edit_mode s armName).2) := exit_edit_mode_objs _ _
    rw [findObj_isSome_of_map _ _ _ hex (fun o => exit_obj_upd_name _ _ o) n]
    have hcm : (commit_bones (enter_edit_mode s armName).1 armName ebs colls).objs
        = (enter_edit_mode s armName).1.objs.map
            (fun o => if o.name == armName then commit_obj_upd ebs colls o else o) := rfl
    rw [findObj_isSome_of_map _ _ _ hcm hdataF n]
    rw [findObj_isSome_of_map _ _ _ (enter_edit_mode_objs s armName)
      (fun o => enter_obj_upd_name _ _ _ o) n]

/-- `enable_physics_preview` restores active object, selection, modes and
object-name presence. -/
theorem enable_ui_preserved (s : St) (coll : Option (List String)) (arm0 : Option String)
    (nodes0 : Option (List Obj)) :
    ((enable_physics_preview s coll arm0 nodes0).1.active = s.active)
    ∧ (∀ n, n ∈ (enable_physics_preview s coll arm0 nodes0).1.selNames ↔ n ∈ s.selNames)
    ∧ (∀ a, s.active = some a →
        (enable_physics_preview s coll arm0 nodes0).1.modeOf a = s.modeOf a)
    ∧ (∀ n, ((enable_physics_preview s coll arm0 nodes0).1.findObj n).isSome
        = (s.findObj n).isSome) := by
  obtain ⟨hE1, hE2, hE3, hE4⟩ := ensure_ui_preserved s coll arm0 nodes0
  rcases enable_result_cases s coll arm0 nodes0 with
    ⟨s1, hE, hEn⟩ | ⟨s1, nodes, cnt, hE, hEn⟩ | ⟨s1, armName, nodes, cnt, hE, hEn⟩
  · rw [hEn]
    rw [hE] at hE1 hE2 hE3 hE4
    exact ⟨hE1, hE2, hE3, hE4⟩
  · rw [hEn]
    rw [hE] at hE1 hE2 hE3 hE4
    exact ⟨hE1, hE2, hE3, hE4⟩
  · rw [hEn]
    rw [hE] at hE1 hE2 hE3 hE4
    dsimp only
    obtain ⟨hm1, hm2, hm3, hm4⟩ := ui_foldl_map_constraints mute_node_constraint nodes
      (nodes.foldl (fun (acc : St × List String) (node : Obj) =>
        if arm_has_bone acc.1 armName node.name then
          (upd_arm_bones acc.1 armName
            (fun bs => mod_bone bs node.name (enable_pose_bone node.name)),
           acc.2 ++ [node.name])
        else acc) (s1, [])).1
    obtain ⟨hp1, hp2, hp3, hp4⟩ := ui_foldl_pose armName nodes (s1, [])
    refine ⟨?_, ?_, ?_, ?_⟩
    · rw [hm1, hp1]
      exact hE1
    · intro n
      rw [hm2, hp2]
      exact hE2 n
    · intro a ha
      rw [hm3 a, hp3 a]
      exact hE3 a ha
    · intro n
      rw [hm4 n, hp4 n]
      exact hE4 n

/-- `bake_teardown` keeps active object, selection, modes and name presence. -/
theorem bake_teardown_ui (s : St) (coll : List String) (armName : String)
    (nodes : List Obj) (clear : Bool) :
    ((bake_teardown s coll armName nodes clear).active = s.active)
    ∧ ((bake_teardown s coll armName nodes clear).selNames = s.selNames)
    ∧ (∀ a, (bake_teardown s coll armName nodes clear).modeOf a = s.modeOf a)
    ∧ (∀ n, ((bake_teardown s coll armName nodes clear).findObj n).isSome
        = (s.findObj n).isSome) := by
  rcases hD : disable_physics_preview s (some coll) (some armName) (some nodes) clear
    with ⟨sd, armO, ch⟩
  have htd : bake_teardown s coll armName nodes clear
      = { sd with tool := { sd.tool with previewEnabled := false } } := by
    unfold bake_teardown
    rw [hD]
  have hsd : (sd.active = s.active) ∧ (sd.selNames = s.selNames)
      ∧ (∀ a, sd.modeOf a = s.modeOf a)
      ∧ (∀ n, (sd.findObj n).isSome = (s.findObj n).isSome) := by
    rcases disable_result_cases s (some coll) (some armName) (some nodes) clear with
      ⟨he, heq⟩ | ⟨hne2, harmN, heq⟩ | ⟨armNameD, hne2, harmN, heq⟩
    · have hs := hD.symm.trans heq
      injection hs with hs1 hs2
      rw [hs1]
      exact ⟨rfl, rfl, fun _ => rfl, fun _ => rfl⟩
    · have hs := hD.symm.trans heq
      injection hs with hs1 hs2
      rw [hs1]
      exact ⟨rfl, rfl, fun _ => rfl, fun _ => rfl⟩
    · have hs := hD.symm.trans heq
      injection hs with hs1 hs2
      rw [hs1]
      obtain ⟨hu1, hu2, hu3, hu4⟩ := ui_foldl_map_constraints unmute_node_constraint
        (resolve_nodes s (some coll) (some nodes)) s
      refine ⟨?_, ?_, ?_, ?_⟩
      · rw [upd_arm_bones_active, hu1]
      · rw [selNames_upd_arm_bones, hu2]
      · intro a
        rw [modeOf_upd_arm_bones, hu3 a]
      · intro n
        rw [isSome_upd_arm_bones, hu4 n]
  rw [htd]
  exact hsd

theorem active_ite_modeSet (c : Prop) [Decidable c] (s : St) (m : Mode) :
    (if c then s.modeSet m else s).active = s.active := by
  split
  · exact St.modeSet_active s m
  · rfl

theorem selNames_ite_modeSet (c : Prop) [Decidable c] (s : St) (m : Mode) :
    (if c then s.modeSet m else s).selNames = s.selNames := by
  split
  · exact selNames_modeSet s m
  · rfl

theorem isSome_ite_modeSet (c : Prop) [Decidable c] (s : St) (m : Mode) (n : String) :
    ((if c then s.modeSet m else s).findObj n).isSome = (s.findObj n).isSome := by
  split
  · exact isSome_modeSet s m n
  · rfl

theorem bake_restore_active (Y : St) (armName : String) (origActive : Option String)
    (origSel : List String) (origMode : Mode) (origBoneSel : List String) :
    (bake_restore Y armName origActive origSel origMode origBoneSel).active = origActive := by
  unfold bake_restore
  dsimp only
  rw [active_ite_modeSet]
  by_cases h5 : (origActive == some armName && origMode == Mode.POSE) = true
  · rw [if_pos h5, upd_arm_bones_active, St.modeSet_active, St.setActive_active]
  · rw [if_neg h5, St.setActive_active]

theorem bake_restore_selNames (Y : St) (armName : String) (origActive : Option String)
    (origSel : List String) (origMode : Mode) (origBoneSel : List String) (n : String) :
    n ∈ (bake_restore Y armName origActive origSel origMode origBoneSel).selNames
      ↔ (origSel.contains n = true ∧ (Y.findObj n).isSome = true) := by
  unfold bake_restore
  dsimp only
  rw [selNames_ite_modeSet]
  suffices htail : n ∈ (origSel.foldl (fun (t : St) nm => t.setSel nm true)
      ((Y.modeSet Mode.OBJECT).deselAll)).selNames
      ↔ (origSel.contains n = true ∧ (Y.findObj n).isSome = true) by
    by_cases h5 : (origActive == some armName && origMode == Mode.POSE) = true
    · rw [if_pos h5, selNames_upd_arm_bones, selNames_modeSet, selNames_setActive]
      exact htail
    · rw [if_neg h5, selNames_setActive]
      exact htail
  have hobjs : (origSel.foldl (fun (t : St) nm => t.setSel nm true)
      ((Y.modeSet Mode.OBJECT).deselAll)).objs
      = (Y.modeSet Mode.OBJECT).objs.map (fun o =>
          if origSel.contains o.name then
            { o with sel := true }
          else { o with sel := false }) := by
    rw [foldl_setSel_objs, St.deselAll_objs, List.map_map]
    apply List.map_congr_left
    intro o _
    by_cases hc : (origSel.contains o.name) = true
    · simp [Function.comp, hc]
    · simp [Function.comp, hc]
  rw [St.mem_selNames]
  constructor
  · rintro ⟨o1, ho1, hn, hsel⟩
    rw [hobjs] at ho1
    rcases List.mem_map.mp ho1 with ⟨o, ho, rfl⟩
    by_cases hc : (origSel.contains o.name) = true
    · rw [if_pos hc] at hn hsel
      have hon : o.name = n := hn
      refine ⟨by rw [← hon]; exact hc, ?_⟩
      rw [← isSome_modeSet Y Mode.OBJECT n]
      apply List.find?_isSome.mpr
      exact ⟨o, ho, by rw [hon]; exact beq_self_eq_true n⟩
    · rw [if_neg hc] at hsel
      exact Bool.noConfusion hsel
  · rintro ⟨hmem, hsome⟩
    rw [← isSome_modeSet Y Mode.OBJECT n] at hsome
    obtain ⟨o, hfo⟩ := Option.isSome_iff_exists.mp hsome
    have hfo2 : (Y.modeSet Mode.OBJECT).objs.find? (fun oo => oo.name == n) = some o := hfo
    have hmem2 := List.mem_of_find?_eq_some hfo2
    have hp := List.find?_some hfo2
    have hon : o.name = n := eq_of_beq hp
    refine ⟨if origSel.contains o.name then { o with sel := true } else { o with sel := false },
      ?_, ?_, ?_⟩
    · rw [hobjs]
      exact List.mem_map_of_mem _ hmem2
    · by_cases hc : (origSel.contains o.name) = true
      · rw [if_pos hc]
        exact hon
      · rw [if_neg hc]
        exact hon
    · rw [if_pos (by rw [hon]; exact hmem)]

theorem bool_and_right {a b : Bool} (h : (a && b) = true) : b = true := by
  cases a
  · exact Bool.noConfusion h
  · exact h

theorem bake_restore_modeOf (Y : St) (armName : String) (origActive : Option String)
    (origSel : List String) (origMode : Mode) (origBoneSel : List String) (a : String)
    (ha : origActive = some a) (hYa : Y.active = some armName)
    (hsome : origMode ≠ Mode.OBJECT → (Y.findObj a).isSome = true)
    (hYmode : origMode = Mode.OBJECT → a ≠ armName → Y.modeOf a = Mode.OBJECT) :
    (bake_restore Y armName origActive origSel origMode origBoneSel).modeOf a = origMode := by
  unfold bake_restore
  dsimp only
  by_cases hOM : origMode = Mode.OBJECT
  · rw [hOM]
    rw [if_neg (fun hc => by
      have h2 := bool_and_right hc
      rw [beq_self_eq_true] at h2
      exact Bool.noConfusion h2)]
    rw [if_neg (fun hc => by
      have h2 := bool_and_right hc
      exact Bool.noConfusion h2)]
    rw [ha, modeOf_setActive, modeOf_foldl_setSel, modeOf_deselAll, modeOf_modeSet]
    by_cases hcond : Y.active = some a ∧ (Y.findObj a).isSome = true
    · rw [if_pos hcond]
    · rw [if_neg hcond]
      by_cases hax : a = armName
      · have hfN : (Y.findObj a).isSome = false := by
          cases hI : (Y.findObj a).isSome
          · rfl
          · exact absurd ⟨by rw [hYa, hax], hI⟩ hcond
        unfold St.modeOf
        cases hf : Y.findObj a with
        | none => rfl
        | some o => rw [hf] at hfN; exact Bool.noConfusion hfN
      · exact hYmode hOM hax
  · have hsome2 := hsome hOM
    have hbOM : (origMode == Mode.OBJECT) = false := by
      cases hx : origMode == Mode.OBJECT
      · rfl
      · exact absurd (eq_of_beq hx) hOM
    have hga : (origActive.isSome && !(origMode == Mode.OBJECT)) = true := by
      rw [ha]
      rw [hbOM]
      rfl
    by_cases h5 : (origActive == some armName && origMode == Mode.POSE) = true
    · rw [if_pos h5]
      rw [if_pos hga]
      rw [modeOf_modeSet]
      rw [if_pos ⟨by
          rw [upd_arm_bones_active, St.modeSet_active, St.setActive_active, ha], by
          rw [isSome_upd_arm_bones, isSome_modeSet, isSome_setActive, isSome_foldl_setSel,
            isSome_deselAll, isSome_modeSet]
          exact hsome2⟩]
    · rw [if_neg h5]
      rw [if_pos hga]
      rw [modeOf_modeSet]
      rw [if_pos ⟨by
          rw [St.setActive_active, ha], by
          rw [isSome_setActive, isSome_foldl_setSel, isSome_deselAll, isSome_modeSet]
          exact hsome2⟩]

theorem set_tool_active (X : St) (tl : Tool) :
    ({ X with tool := tl } : St).active = X.active := rfl

theorem set_tool_selNames (X : St) (tl : Tool) :
    ({ X with tool := tl } : St).selNames = X.selNames := rfl

theorem set_tool_modeOf (X : St) (tl : Tool) (a : String) :
    ({ X with tool := tl } : St).modeOf a = X.modeOf a := rfl

theorem set_tool_isSome (X : St) (tl : Tool) (n : String) :
    (({ X with tool := tl } : St).findObj n).isSome = (X.findObj n).isSome := rfl

/-- UI observables of the bake operator's pre-bake setup state. -/
theorem bake_t6_ui (s2 : St) (armName : String) (f5 : List Bone → List Bone)
    (hb : Option String) :
    ((set_active_bone (upd_arm_bones (((((if (match s2.active with
          | some a => !(s2.modeOf a == Mode.OBJECT)
          | none => false) = true then s2.modeSet Mode.OBJECT
          else s2).deselAll).setSel armName true).setActive
            (some armName)).modeSet Mode.POSE) armName f5)
        armName hb).active = some armName)
    ∧ (∀ n, ((set_active_bone (upd_arm_bones (((((if (match s2.active with
          | some a => !(s2.modeOf a == Mode.OBJECT)
          | none => false) = true then s2.modeSet Mode.OBJECT
          else s2).deselAll).setSel armName true).setActive
            (some armName)).modeSet Mode.POSE) armName f5)
        armName hb).findObj n).isSome = (s2.findObj n).isSome)
    ∧ (∀ aa, aa ≠ armName → s2.active = some aa → s2.modeOf aa = Mode.OBJECT →
        (set_active_bone (upd_arm_bones (((((if (match s2.active with
          | some a => !(s2.modeOf a == Mode.OBJECT)
          | none => false) = true then s2.modeSet Mode.OBJECT
          else s2).deselAll).setSel armName true).setActive
            (some armName)).modeSet Mode.POSE) armName f5)
        armName hb).modeOf aa = Mode.OBJECT) := by
  refine ⟨?_, ?_, ?_⟩
  · rw [set_active_bone_active, upd_arm_bones_active, St.modeSet_active, St.setActive_active]
  · intro n
    rw [isSome_set_active_bone, isSome_upd_arm_bones, isSome_modeSet, isSome_setActive,
      isSome_setSel, isSome_deselAll, isSome_ite_modeSet]
  · intro aa hax hsa hOBJ
    rw [modeOf_set_active_bone, modeOf_upd_arm_bones, modeOf_modeSet]
    rw [if_neg (fun hc => by
      have h1 := hc.1
      rw [St.setActive_active] at h1
      injection h1 with h1
      exact hax h1.symm)]
    rw [modeOf_setActive, modeOf_setSel, modeOf_deselAll]
    by_cases ht0 : ((match s2.active with
        | some a => !(s2.modeOf a == Mode.OBJECT)
        | none => false) = true)
    · rw [if_pos ht0, modeOf_modeSet]
      by_cases hc2 : s2.active = some aa ∧ (s2.findObj aa).isSome = true
      · rw [if_pos hc2]
      · rw [if_neg hc2]
        exact hOBJ
    · rw [if_neg ht0]
      exact hOBJ

/-- UI restoration of `bake_restore` against the state captured at entry. -/
theorem bake_restore_from_bake (s2 Y : St) (armName : String) (origBoneSel : List String)
    (hYa : Y.active = some armName)
    (hYs : ∀ n, (Y.findObj n).isSome = (s2.findObj n).isSome)
    (hYm : ∀ aa, aa ≠ armName → s2.active = some aa → s2.modeOf aa = Mode.OBJECT →
        Y.modeOf aa = Mode.OBJECT) :
    ((bake_restore Y armName s2.active s2.selNames
        (match s2.active with | some a => s2.modeOf a | none => Mode.OBJECT)
        origBoneSel).active = s2.active)
    ∧ (∀ n, n ∈ (bake_restore Y armName s2.active s2.selNames
        (match s2.active with | some a => s2.modeOf a | none => Mode.OBJECT)
        origBoneSel).selNames ↔ n ∈ s2.selNames)
    ∧ (∀ a, s2.active = some a →
        (bake_restore Y armName s2.active s2.selNames
          (match s2.active with | some a => s2.modeOf a | none => Mode.OBJECT)
          origBoneSel).modeOf a = s2.modeOf a) := by
  refine ⟨bake_restore_active Y armName _ _ _ _, ?_, ?_⟩
  · intro n
    rw [bake_restore_selNames]
    constructor
    · rintro ⟨hc, _⟩
      exact List.elem_iff.mp hc
    · intro hm
      refine ⟨List.elem_iff.mpr hm, ?_⟩
      rw [hYs n]
      obtain ⟨o, ho, hon, _⟩ := (St.mem_selNames s2 n).mp hm
      apply List.find?_isSome.mpr
      exact ⟨o, ho, by rw [hon]; exact beq_self_eq_true n⟩
  · intro a hsa
    have horig : (match s2.active with | some a => s2.modeOf a | none => Mode.OBJECT)
        = s2.modeOf a := by rw [hsa]
    refine (bake_restore_modeOf Y armName s2.active s2.selNames _ origBoneSel a hsa hYa
      ?_ ?_).trans horig
    · intro hne
      rw [horig] at hne
      rw [hYs a]
      exact modeOf_ne_OBJECT_isSome s2 a hne
    · intro h0 hax
      rw [horig] at h0
      exact hYm a hax hsa h0

/-- C6: after every non-raising return of `WM_OT_BakePhysicsPreview.execute`
the view layer's active object, the set of selected objects, and the active
object's interaction mode are restored to their pre-call values, regardless
of the mode the operator was invoked from.  Amended: the armature's per-bone
selection flags are *not* part of this restoration — the bake rewrites them
(see the counterexample), and even on the pose-mode path `select_head` and
`select_tail` are reset to the saved `select` values rather than their own. -/
theorem claim_C6_bake_restores_ui (s : St) (p : BakeParams) (s' : St) (r : OpRes)
    (hrun : bake_physics_preview_execute s p = (s', some r)) :
    s'.active = s.active
    ∧ (∀ n, n ∈ s'.selNames ↔ n ∈ s.selNames)
    ∧ (∀ a, s.active = some a → s'.modeOf a = s.modeOf a) := by
  unfold bake_physics_preview_execute at hrun
  cases hcoll : s.tool.chainColl with
  | none =>
    rw [hcoll] at hrun
    injection hrun with h1 h2
    rw [← h1]
    exact ⟨rfl, fun n => Iff.rfl, fun a _ => rfl⟩
  | some coll =>
    rw [hcoll] at hrun
    dsimp only at hrun
    by_cases hemp : ((get_chain_nodes s (some coll)).isEmpty) = true
    · rw [if_pos hemp] at hrun
      injection hrun with h1 h2
      rw [← h1]
      exact ⟨rfl, fun n => Iff.rfl, fun a _ => rfl⟩
    · rw [if_neg hemp] at hrun
      cases hfa : find_chain_armature s (some coll) (some (get_chain_nodes s (some coll))) with
      | none =>
        rw [hfa] at hrun
        dsimp only at hrun
        injection hrun with h1 h2
        rw [← h1]
        exact ⟨rfl, fun n => Iff.rfl, fun a _ => rfl⟩
      | some armObj =>
        rw [hfa] at hrun
        dsimp only at hrun
        rcases hensv : ensure_physics_bones s (some coll) (some armObj.name)
            (some (get_chain_nodes s (some coll))) with ⟨s1, res1⟩
        rw [hensv] at hrun
        obtain ⟨hE1, hE2, hE3, hE4⟩ := ensure_ui_preserved s (some coll) (some armObj.name)
          (some (get_chain_nodes s (some coll)))
        rw [hensv] at hE1 hE2 hE3 hE4
        dsimp only at hE1 hE2 hE3 hE4
        cases res1 with
        | none =>
          dsimp only at hrun
          injection hrun with h1 h2
          exact Option.noConfusion h2
        | some trip =>
          rcases trip with ⟨armO, nodes2, cnt⟩
          dsimp only at hrun
          cases armO with
          | none =>
            dsimp only at hrun
            injection hrun with h1 h2
            rw [← h1]
            exact ⟨hE1, hE2, hE3⟩
          | some armName =>
            dsimp only at hrun
            by_cases hemp2 : (nodes2.isEmpty) = true
            · rw [if_pos hemp2] at hrun
              injection hrun with h1 h2
              rw [← h1]
              exact ⟨hE1, hE2, hE3⟩
            · rw [if_neg hemp2] at hrun
              rcases hENv : (if (!s1.tool.previewEnabled) = true then
                  enable_physics_preview s1 (some coll) (some armName) (some nodes2)
                else (s1, some (some armName, []))) with ⟨s2, r2⟩
              rw [hENv] at hrun
              have hP2 : (s2.active = s1.active)
                  ∧ (∀ n, n ∈ s2.selNames ↔ n ∈ s1.selNames)
                  ∧ (∀ a, s1.active = some a → s2.modeOf a = s1.modeOf a)
                  ∧ (∀ n, (s2.findObj n).isSome = (s1.findObj n).isSome) := by
                by_cases hW : (!s1.tool.previewEnabled) = true
                · rw [if_pos hW] at hENv
                  obtain ⟨e1, e2, e3, e4⟩ := enable_ui_preserved s1 (some coll)
                    (some armName) (some nodes2)
                  rw [hENv] at e1 e2 e3 e4
                  exact ⟨e1, e2, e3, e4⟩
                · rw [if_neg hW] at hENv
                  injection hENv with hv1 hv2
                  rw [← hv1]
                  exact ⟨rfl, fun _ => Iff.rfl, fun _ _ => rfl, fun _ => rfl⟩
              have hA2 : s2.active = s.active := hP2.1.trans hE1
              have hS2 : ∀ n, n ∈ s2.selNames ↔ n ∈ s.selNames :=
                fun n => (hP2.2.1 n).trans (hE2 n)
              have hM2 : ∀ a, s.active = some a → s2.modeOf a = s.modeOf a := by
                intro a hsa
                exact (hP2.2.2.1 a (hE1.trans hsa)).trans (hE3 a hsa)
              cases r2 with
              | none =>
                dsimp only at hrun
                injection hrun with h1 h2
                exact Option.noConfusion h2
              | some x2 =>
                dsimp only at hrun
                split at hrun
                · -- no pose bones
                  split at hrun
                  · injection hrun with h1 h2
                    obtain ⟨td1, td2, td3, td4⟩ :=
                      bake_teardown_ui s2 coll armName nodes2 p.clear
                    rw [← h1]
                    exact ⟨td1.trans hA2, fun n => by rw [td2]; exact hS2 n,
                      fun a hsa => (td3 a).trans (hM2 a hsa)⟩
                  · injection hrun with h1 h2
                    rw [← h1]
                    exact ⟨hA2, hS2, hM2⟩
                · -- try part
                  unfold bake_try_part at hrun
                  dsimp only at hrun
                  obtain ⟨t61, t62, t63⟩ := bake_t6_ui s2 armName
                    (fun bs => bs.map (fun b =>
                      if (nodes2.filterMap (fun node =>
                          match s2.findObj armName with
                          | some a => Option.map (fun (b : Bone) => b.name)
                              (a.bones.find? (fun b => b.name == node.name))
                          | none => none)).contains b.name then
                        { b with select := true, selectHead := true, selectTail := true }
                      else
                        { b with select := false, selectHead := false, selectTail := false }))
                    (nodes2.filterMap (fun node =>
                      match s2.findObj armName with
                      | some a => Option.map (fun (b : Bone) => b.name)
                          (a.bones.find? (fun b => b.name == node.name))
                      | none => none)).head?
                  split at hrun
                  · -- bake succeeded
                    split at hrun
                    · injection hrun with h1 h2
                      obtain ⟨r1, r2, r3⟩ := bake_restore_from_bake s2 _ armName _ t61 t62 t63
                      obtain ⟨td1, td2, td3, td4⟩ := bake_teardown_ui _ coll armName nodes2 p.clear
                      rw [← h1]
                      exact ⟨(td1.trans r1).trans hA2,
                        fun n => by rw [td2]; exact (r2 n).trans (hS2 n),
                        fun a hsa => ((td3 a).trans (r3 a (hA2.trans hsa))).trans (hM2 a hsa)⟩
                    · injection hrun with h1 h2
                      obtain ⟨r1, r2, r3⟩ := bake_restore_from_bake s2 _ armName _ t61 t62 t63
                      rw [← h1]
                      refine ⟨?_, ?_, ?_⟩
                      · rw [set_tool_active]
                        exact r1.trans hA2
                      · intro n
                        rw [set_tool_selNames]
                        exact (r2 n).trans (hS2 n)
                      · intro a hsa
                        rw [set_tool_modeOf]
                        exact (r3 a (hA2.trans hsa)).trans (hM2 a hsa)
                  · -- bake failed
                    split at hrun
                    · injection hrun with h1 h2
                      obtain ⟨u1, u2, u3, u4⟩ := bake_teardown_ui _ coll armName nodes2 p.clear
                      obtain ⟨r1, r2, r3⟩ := bake_restore_from_bake s2 _ armName _
                        (u1.trans t61) (fun n => (u4 n).trans (t62 n))
                        (fun aa hax hsa hOBJ => (u3 aa).trans (t63 aa hax hsa hOBJ))
                      rw [← h1]
                      exact ⟨r1.trans hA2, fun n => (r2 n).trans (hS2 n),
                        fun a hsa => (r3 a (hA2.trans hsa)).trans (hM2 a hsa)⟩
                    · injection hrun with h1 h2
                      obtain ⟨r1, r2, r3⟩ := bake_restore_from_bake s2 _ armName _
                        ((set_tool_active _ _).trans t61)
                        (fun n => (set_tool_isSome _ _ n).trans (t62 n))
                        (fun aa hax hsa hOBJ =>
                          (set_tool_modeOf _ _ aa).trans (t63 aa hax hsa hOBJ))
                      rw [← h1]
                      exact ⟨r1.trans hA2, fun n => (r2 n).trans (hS2 n),
                        fun a hsa => (r3 a (hA2.trans hsa)).trans (hM2 a hsa)⟩

/-- C6 witness: the fixture bake run restores active object, selection and
the active object's mode. -/
theorem claim_C6_bake_restores_ui_witness :
    (bake_physics_preview_execute cex_st c7_p
        = ((bake_physics_preview_execute cex_st c7_p).1, some OpRes.FINISHED))
    ∧ ((bake_physics_preview_execute cex_st c7_p).1.active = cex_st.active
      ∧ (∀ n, n ∈ (bake_physics_preview_execute cex_st c7_p).1.selNames
          ↔ n ∈ cex_st.selNames)
      ∧ (∀ a, cex_st.active = some a →
          (bake_physics_preview_execute cex_st c7_p).1.modeOf a = cex_st.modeOf a)) :=
  ⟨by with_unfolding_all decide,
   claim_C6_bake_restores_ui cex_st c7_p (bake_physics_preview_execute cex_st c7_p).1
     OpRes.FINISHED (by with_unfolding_all decide)⟩

/-- C6 counterexample: the bake is invoked from object mode (no active
object, armature in OBJECT mode); bone `N0` is unselected before the call
and selected — head and tail flags included — after it: the per-bone
selection flags are not restored. -/
theorem claim_C6_bake_restores_ui_counterexample :
    cex_st.active = none
    ∧ cex_st.modeOf "Arm" = Mode.OBJECT
    ∧ (arm_bone_find cex_st "Arm" "N0").map
        (fun b => (b.select, b.selectHead, b.selectTail)) = some (false, false, false)
    ∧ bake_physics_preview_execute cex_st c7_p
        = ((bake_physics_preview_execute cex_st c7_p).1, some OpRes.FINISHED)
    ∧ (arm_bone_find (bake_physics_preview_execute cex_st c7_p).1 "Arm" "N0").map
        (fun b => (b.select, b.selectHead, b.selectTail)) = some (true, true, true) := by
  with_unfolding_all decide

/-! ### C10: the preview constraint stack of a pose bone -/

theorem arm_has_bone_eq_isSome (s : St) (armName x : String) :
    arm_has_bone s armName x = (arm_bone_find s armName x).isSome := by
  unfold arm_has_bone arm_bone_find
  cases hfo : s.findObj armName with
  | none => rfl
  | some a => exact any_eq_isSome_find? a.bones x

theorem arm_bone_find_isArm (s : St) (armName x : String) (b : Bone)
    (h : arm_bone_find s armName x = some b) :
    ∃ a, s.findObj armName = some a ∧ a.isArm = true := by
  unfold arm_bone_find at h
  cases hfo : s.findObj armName with
  | none => rw [hfo] at h; exact Option.noConfusion h
  | some a =>
    rw [hfo] at h
    refine ⟨a, rfl, ?_⟩
    cases hd : a.data with
    | armData bs cs ab =>
      unfold Obj.isArm
      rw [hd]
    | plain =>
      have h2 : a.bones.find? (fun bb => bb.name == x) = some b := h
      unfold Obj.bones at h2
      rw [hd] at h2
      exact Option.noConfusion h2

theorem bool_and_left {a b : Bool} (h : (a && b) = true) : a = true := by
  revert h
  cases a <;> cases b <;> decide

theorem preview_ct_fields (c : Constraint) (h : preview_ct c = true) :
    c.name = "RE Chain Preview" ∧ c.ctype = CType.COPY_TRANSFORMS := by
  unfold preview_ct at h
  have h1 := bool_and_left h
  have h2 := bool_and_right h
  constructor
  · exact eq_of_beq h1
  · cases hct : c.ctype
    all_goals first
      | rfl
      | (rw [hct] at h2; exact absurd h2 (by decide))

theorem preview_ct_set_preview_fields (nn : String) (c : Constraint) :
    preview_ct (set_preview_fields nn c) = preview_ct c := rfl

theorem map_first_length {α : Type} (p : α → Bool) (f : α → α) (l : List α) :
    (map_first p f l).length = l.length := by
  induction l with
  | nil => rfl
  | cons a t ih =>
    unfold map_first
    by_cases pa : p a = true
    · rw [if_pos pa]
      rfl
    · rw [if_neg pa]
      simp only [List.length_cons, ih]

theorem filter_eq_nil_of_countP_zero {α : Type} (p : α → Bool) (l : List α)
    (h : l.countP p = 0) : l.filter p = [] := by
  induction l with
  | nil => rfl
  | cons a t ih =>
    by_cases pa : p a = true
    · rw [List.countP_cons_of_pos _ _ pa] at h
      omega
    · rw [List.countP_cons_of_neg _ _ pa] at h
      rw [List.filter_cons_of_neg pa]
      exact ih h

theorem countP_zero_of_any_false {α : Type} (p : α → Bool) (l : List α)
    (h : l.any p = false) : l.countP p = 0 := by
  rw [List.countP_eq_zero]
  intro a ha
  rw [List.any_eq_false] at h
  exact h a ha

theorem filter_map_first_preview (nn : String) (l : List Constraint)
    (hcount : l.countP preview_ct ≤ 1) (hany : l.any preview_ct = true) :
    ∃ c0, preview_ct c0 = true
      ∧ (map_first preview_ct (set_preview_fields nn) l).filter preview_ct
          = [set_preview_fields nn c0] := by
  induction l with
  | nil => exact absurd hany (by decide)
  | cons a t ih =>
    unfold map_first
    by_cases pa : preview_ct a = true
    · rw [if_pos pa]
      refine ⟨a, pa, ?_⟩
      have hpfa : preview_ct (set_preview_fields nn a) = true := by
        rw [preview_ct_set_preview_fields]
        exact pa
      rw [List.filter_cons_of_pos hpfa]
      have ht0 : t.countP preview_ct = 0 := by
        rw [List.countP_cons_of_pos _ _ pa] at hcount
        omega
      rw [filter_eq_nil_of_countP_zero _ _ ht0]
    · rw [if_neg pa]
      have pa' : preview_ct a = false := by
        cases hpa : preview_ct a
        · rfl
        · exact absurd hpa pa
      have hat : t.any preview_ct = true := by
        rw [List.any_cons, pa'] at hany
        simpa using hany
      have hct : t.countP preview_ct ≤ 1 := by
        rw [List.countP_cons_of_neg _ _ pa] at hcount
        exact hcount
      obtain ⟨c0, hc0p, hc0⟩ := ih hct hat
      refine ⟨c0, hc0p, ?_⟩
      rw [List.filter_cons_of_neg pa]
      exact hc0

theorem enable_pose_bone_constraints (nn : String) (b : Bone) :
    (enable_pose_bone nn b).constraints
      = if b.constraints.any preview_ct then
          map_first preview_ct (set_preview_fields nn) b.constraints
        else b.constraints ++ [set_preview_fields nn new_copy_transforms] := rfl

theorem enable_pose_bone_filter (nn : String) (b : Bone)
    (hcount : b.constraints.countP preview_ct ≤ 1) :
    ∃ c, (enable_pose_bone nn b).constraints.filter preview_ct = [c]
      ∧ c.name = "RE Chain Preview" ∧ c.ctype = CType.COPY_TRANSFORMS
      ∧ c.target = some nn ∧ c.subtarget = "" ∧ c.ownerSpace = CSpace.WORLD
      ∧ c.targetSpace = CSpace.WORLD ∧ c.influence = 1 ∧ c.mute = false := by
  rw [enable_pose_bone_constraints]
  by_cases hany : b.constraints.any preview_ct = true
  · rw [if_pos hany]
    obtain ⟨c0, hc0p, hc0⟩ := filter_map_first_preview nn b.constraints hcount hany
    obtain ⟨hn0, hct0⟩ := preview_ct_fields c0 hc0p
    exact ⟨set_preview_fields nn c0, hc0, hn0, hct0, rfl, rfl, rfl, rfl, rfl, rfl⟩
  · rw [if_neg hany]
    refine ⟨set_preview_fields nn new_copy_transforms, ?_, rfl, rfl, rfl, rfl, rfl, rfl,
      rfl, rfl⟩
    rw [List.filter_append]
    rw [filter_eq_nil_of_countP_zero _ _ (countP_zero_of_any_false _ _ (by
      cases hq : b.constraints.any preview_ct
      · rfl
      · exact absurd hq hany))]
    rw [List.nil_append]
    rw [List.filter_cons_of_pos (by
      rw [preview_ct_set_preview_fields]
      decide)]
    rfl

theorem enable_pose_bone_length (nn : String) (b : Bone)
    (hany : b.constraints.any preview_ct = true) :
    (enable_pose_bone nn b).constraints.length = b.constraints.length := by
  rw [enable_pose_bone_constraints, if_pos hany]
  exact map_first_length _ _ _

/-! ### C10: bone constraint stacks survive `ensure_physics_bones` -/

theorem find?_constraints_mod_bone (l : List Bone) (n : String) (f : Bone → Bone)
    (hf : ∀ b, (f b).name = b.name) (hfc : ∀ b, (f b).constraints = b.constraints)
    (x : String) :
    ((mod_bone l n f).find? (fun b => b.name == x)).map (fun b => b.constraints)
      = (l.find? (fun b => b.name == x)).map (fun b => b.constraints) := by
  unfold mod_bone
  rw [find?_bname_map _ _ _ (fun b => by
    by_cases hc : (b.name == n) = true
    · simp only [hc, if_true]
      exact hf b
    · simp only [hc]
      simp)]
  cases hfx : l.find? (fun b => b.name == x) with
  | none => rfl
  | some b =>
    simp only [Option.map_some']
    by_cases hc : (b.name == n) = true
    · rw [if_pos hc, hfc b]
    · rw [if_neg hc]

theorem managed_find_constraints (sE : St) (armInv : Aff) (ebs : List Bone) (bn : String)
    (mg : Bool) (node : Obj) (x : String) :
    ((ensure_apply_managed sE armInv ebs bn mg node).find? (fun b => b.name == x)).map
        (fun b => b.constraints)
      = (ebs.find? (fun b => b.name == x)).map (fun b => b.constraints) := by
  unfold ensure_apply_managed
  cases mg with
  | false => rfl
  | true =>
    exact find?_constraints_mod_bone ebs bn
      (fun b => { update_edit_bone_from_node sE b node armInv with physProp := true })
      (fun b => rfl) (fun b => rfl) x

theorem parent_find_constraints (sE : St) (ebs : List Bone) (bn : String) (mg : Bool)
    (node : Obj) (x : String) :
    ((ensure_apply_parent sE ebs bn mg node).find? (fun b => b.name == x)).map
        (fun b => b.constraints)
      = (ebs.find? (fun b => b.name == x)).map (fun b => b.constraints) := by
  unfold ensure_apply_parent
  cases chain_parent sE node with
  | none =>
    dsimp only
    cases mg with
    | false => rfl
    | true =>
      exact find?_constraints_mod_bone ebs bn (fun b => { b with parent := none })
        (fun b => rfl) (fun b => rfl) x
  | some p =>
    dsimp only
    by_cases h : (ebs.any (fun b => b.name == p.name)) = true
    · rw [if_pos h]
      exact find?_constraints_mod_bone ebs bn (fun b => { b with parent := some p.name })
        (fun b => rfl) (fun b => rfl) x
    · rw [if_neg h]
      cases mg with
      | false => rfl
      | true =>
        exact find?_constraints_mod_bone ebs bn (fun b => { b with parent := none })
          (fun b => rfl) (fun b => rfl) x

theorem colls_find_constraints (ver4 : Bool) (ebs : List Bone) (colls : List String)
    (bn : String) (mg : Bool) (x : String) :
    ((ensure_apply_colls ver4 ebs colls bn mg).1.find? (fun b => b.name == x)).map
        (fun b => b.constraints)
      = (ebs.find? (fun b => b.name == x)).map (fun b => b.constraints) := by
  unfold ensure_apply_colls
  by_cases h1 : (ver4 && mg) = true
  · rw [if_pos h1]
    exact find?_constraints_mod_bone ebs bn
      (fun b => if b.btColls.contains "RE Chain Physics" then b
        else { b with btColls := b.btColls ++ ["RE Chain Physics"] })
      (fun b => by by_cases hb : "RE Chain Physics" ∈ b.btColls <;> simp [hb])
      (fun b => by by_cases hb : "RE Chain Physics" ∈ b.btColls <;> simp [hb]) x
  · rw [if_neg h1]
    by_cases h2 : (!ver4 && mg) = true
    · rw [if_pos h2]
      exact find?_constraints_mod_bone ebs bn
        (fun b => if b.layers.length == 32 then { b with layers := managed_layers } else b)
        (fun b => by by_cases hb : (b.layers.length == 32) = true <;> simp [hb])
        (fun b => by by_cases hb : (b.layers.length == 32) = true <;> simp [hb]) x
    · rw [if_neg h2]

theorem ensure_apply_find_constraints (sE : St) (armInv : Aff) (ver4 : Bool)
    (ebs : List Bone) (colls : List String) (c : Nat) (bn : String) (mg : Bool)
    (node : Obj) (x : String) :
    ((ensure_apply sE armInv ver4 ebs colls c bn mg node).1.find? (fun b => b.name == x)).map
        (fun b => b.constraints)
      = (ebs.find? (fun b => b.name == x)).map (fun b => b.constraints) := by
  unfold ensure_apply
  dsimp only
  rw [colls_find_constraints, parent_find_constraints, managed_find_constraints]

theorem ensure_step_constraints_self (sE : St) (preB : List Bone) (armInv : Aff)
    (ver4 : Bool) (ebs : List Bone) (colls : List String) (c : Nat) (n : Obj)
    (acc2 : List Bone × List String × Nat)
    (h : ensure_step sE preB armInv ver4 (ebs, colls, c) n = some acc2) :
    ∃ b, acc2.1.find? (fun bb => bb.name == n.name) = some b
    ∧ (∀ eb0, ebs.find? (fun bb => bb.name == n.name) = some eb0 →
        b.constraints = eb0.constraints)
    ∧ ((ebs.any (fun bb => bb.name == n.name)) = false → b.constraints = []) := by
  unfold ensure_step at h
  dsimp only at h
  by_cases hin : (ebs.any (fun bb => bb.name == n.name)) = true
  · rw [if_pos hin] at h
    cases hdb : preB.find? (fun b => b.name == n.name) with
    | none => rw [hdb] at h; exact Option.noConfusion h
    | some db =>
      rw [hdb] at h
      injection h with h
      obtain ⟨eb0, hfind0⟩ := Option.isSome_iff_exists.mp
        (by rw [← any_eq_isSome_find?]; exact hin)
      have hkey := ensure_apply_find_constraints sE armInv ver4 ebs colls c n.name
        db.physProp n n.name
      rw [hfind0, h] at hkey
      cases hf2 : acc2.1.find? (fun bb => bb.name == n.name) with
      | none => rw [hf2] at hkey; exact Option.noConfusion hkey
      | some b =>
        rw [hf2] at hkey
        simp only [Option.map_some'] at hkey
        injection hkey with hkey
        refine ⟨b, rfl, ?_, ?_⟩
        · intro eb0' heb0'
          rw [hfind0] at heb0'
          injection heb0' with he
          rw [← he]
          exact hkey
        · intro hfalse
          rw [hfalse] at hin
          exact Bool.noConfusion hin
  · rw [if_neg hin] at h
    injection h with h
    have hany' : (ebs.any (fun bb => bb.name == n.name)) = false := by
      cases hq : ebs.any (fun bb => bb.name == n.name)
      · rfl
      · exact absurd hq hin
    have hnone : ebs.find? (fun bb => bb.name == n.name) = none :=
      any_eq_false_find?_none ebs n.name hany'
    have hkey := ensure_apply_find_constraints sE armInv ver4 (ebs ++ [new_edit_bone n.name])
      colls (c + 1) n.name true n n.name
    rw [bone_find?_append_single, hnone] at hkey
    have hnb : ((new_edit_bone n.name).name == n.name) = true := beq_self_eq_true n.name
    rw [h] at hkey
    dsimp only at hkey
    rw [if_pos hnb] at hkey
    cases hf2 : acc2.1.find? (fun bb => bb.name == n.name) with
    | none => rw [hf2] at hkey; exact Option.noConfusion hkey
    | some b =>
      rw [hf2] at hkey
      simp only [Option.map_some'] at hkey
      injection hkey with hkey
      refine ⟨b, rfl, ?_, fun _ => hkey⟩
      intro eb0 heb0
      rw [hnone] at heb0
      exact Option.noConfusion heb0

theorem ensure_loop_constraints_desc (sE : St) (preB : List Bone) (armInv : Aff)
    (ver4 : Bool) :
    ∀ (nodes : List Obj) (acc : List Bone × List String × Nat),
    (nodes.map (fun n => n.name)).Nodup →
    (∀ m ∈ nodes, m.name ∈ namesOf acc.1 → m.name ∈ namesOf preB) →
    ∀ n ∈ nodes, ∃ b,
      (ensure_loop sE preB armInv ver4 nodes acc).1.1.find? (fun bb => bb.name == n.name)
        = some b
      ∧ (∀ eb0, acc.1.find? (fun bb => bb.name == n.name) = some eb0 →
          b.constraints = eb0.constraints)
      ∧ ((acc.1.any (fun bb => bb.name == n.name)) = false → b.constraints = []) := by
  intro nodes
  induction nodes with
  | nil => intro acc _ _ n hn; exact absurd hn (List.not_mem_nil n)
  | cons m rest ih =>
    intro acc hnd hd n hn
    obtain ⟨ebs, colls, c⟩ := acc
    dsimp only
    rw [List.map_cons] at hnd
    obtain ⟨hm_notin, hnd_rest⟩ := List.nodup_cons.mp hnd
    have hdm : m.name ∈ namesOf ebs → m.name ∈ namesOf preB := hd m (List.mem_cons_self m rest)
    obtain ⟨acc2, hstep⟩ := ensure_step_succeeds sE preB armInv ver4 ebs colls c m hdm
    have hloop : ensure_loop sE preB armInv ver4 (m :: rest) (ebs, colls, c)
        = ensure_loop sE preB armInv ver4 rest acc2 := by
      simp only [ensure_loop, hstep]
    rw [hloop]
    rcases List.mem_cons.mp hn with rfl | hn'
    · obtain ⟨b, hb, hpres, hnew⟩ :=
        ensure_step_constraints_self sE preB armInv ver4 ebs colls c n acc2 hstep
      have hfreeze := ensure_loop_find_ne sE preB armInv ver4 rest acc2 n.name hm_notin
      exact ⟨b, by rw [hfreeze]; exact hb, hpres, hnew⟩
    · have hne : n.name ≠ m.name := by
        intro he
        exact hm_notin (he ▸ List.mem_map_of_mem (fun x => x.name) hn')
      have hnames := ensure_step_names sE preB armInv ver4 ebs colls c m acc2 hstep
      have hd2 : ∀ m' ∈ rest, m'.name ∈ namesOf acc2.1 → m'.name ∈ namesOf preB := by
        intro m' hm' hmem
        rcases hnames with hN | hN
        · exact hd m' (List.mem_cons_of_mem m hm') (by rw [hN] at hmem; exact hmem)
        · rw [hN] at hmem
          rcases List.mem_append.mp hmem with h1 | h1
          · exact hd m' (List.mem_cons_of_mem m hm') h1
          · exfalso
            apply hm_notin
            have he : m'.name = m.name := List.mem_singleton.mp h1
            rw [← he]
            exact List.mem_map_of_mem (fun x => x.name) hm'
      obtain ⟨b, hb, hpres, hnew⟩ := ih acc2 hnd_rest hd2 n hn'
      have hfind_eq : acc2.1.find? (fun bb => bb.name == n.name)
          = ebs.find? (fun bb => bb.name == n.name) :=
        ensure_step_find_ne sE preB armInv ver4 (ebs, colls, c) acc2 m n.name hstep hne
      have hany_eq : (acc2.1.any (fun bb => bb.name == n.name))
          = (ebs.any (fun bb => bb.name == n.name)) := by
        rw [any_eq_isSome_find?, any_eq_isSome_find?, hfind_eq]
      refine ⟨b, hb, ?_, ?_⟩
      · intro eb0 heb0
        exact hpres eb0 (by rw [hfind_eq]; exact heb0)
      · intro hfalse
        exact hnew (by rw [hany_eq]; exact hfalse)

/-- Per-node description of the bone constraint stacks after a successful
`ensure_physics_bones` run: an already-present bone keeps its constraints,
a freshly created bone has none. -/
theorem ensure_final_constraints_desc (s : St) (coll : Option (List String))
    (arm0 : Option String) (nodes0 : Option (List Obj)) (armName : String) (arm : Obj)
    (hfo : s.findObj armName = some arm) (hisarm : arm.isArm = true)
    (hndnodes : ((resolve_nodes s coll nodes0).map (fun o => o.name)).Nodup)
    (s' : St) (ns : List Obj) (cnt : Nat)
    (h : ensure_physics_bones s coll arm0 nodes0 = (s', some (some armName, ns, cnt))) :
    ns = resolve_nodes s coll nodes0
    ∧ ∀ n ∈ ns, ∃ b, arm_bone_find s' armName n.name = some b
      ∧ (∀ b0, arm_bone_find s armName n.name = some b0 → b.constraints = b0.constraints)
      ∧ (arm_bone_find s armName n.name = none → b.constraints = []) := by
  rcases ensure_result_cases s coll arm0 nodes0 with
    ⟨he, heq⟩ | ⟨hne, harmN, heq⟩ | ⟨armName0, hne, harmN, hfoN, heq⟩
    | ⟨armName1, arm4, hne, harmN, hfo4, heq⟩
  · rw [heq] at h
    injection h with h1 h2
    injection h2 with h2
    injection h2 with h2a h2b
    exact Option.noConfusion h2a
  · rw [heq] at h
    injection h with h1 h2
    injection h2 with h2
    injection h2 with h2a h2b
    exact Option.noConfusion h2a
  · rw [heq] at h
    injection h with h1 h2
    injection h2 with h2
    injection h2 with h2a h2b
    exact Option.noConfusion h2a
  · rw [heq] at h
    by_cases hlp : (ensure_loop (enter_edit_mode s armName1).1 arm4.bones
        arm4.matWorld.inverted s.ver4 (resolve_nodes s coll nodes0)
        (arm4.bones, arm4.bColls, 0)).2 = true
    · rw [if_pos hlp] at h
      injection h with h1 h2
      injection h2 with h2
      injection h2 with h2a h2b
      injection h2a with h2a
      injection h2b with h2b1 h2b2
      subst h2a
      have harm4 : arm4 = arm := by
        have h3 := hfo4.symm.trans hfo
        injection h3
      subst harm4
      refine ⟨h2b1.symm, ?_⟩
      intro n hn
      rw [← h2b1] at hn
      obtain ⟨b, hb, hpres, hnew⟩ := ensure_loop_constraints_desc
        (enter_edit_mode s armName1).1 arm4.bones arm4.matWorld.inverted s.ver4
        (resolve_nodes s coll nodes0) (arm4.bones, arm4.bColls, 0) hndnodes
        (fun m _ hm => hm) n hn
      have hfin := arm_bone_find_after_main s armName1 arm4 hfo hisarm
        (ensure_loop (enter_edit_mode s armName1).1 arm4.bones arm4.matWorld.inverted
          s.ver4 (resolve_nodes s coll nodes0) (arm4.bones, arm4.bColls, 0)).1.1
        (ensure_loop (enter_edit_mode s armName1).1 arm4.bones arm4.matWorld.inverted
          s.ver4 (resolve_nodes s coll nodes0) (arm4.bones, arm4.bColls, 0)).1.2.1 n.name
      have hpre := arm_bone_find_pre s armName1 arm4 hfo n.name
      refine ⟨b, ?_, ?_, ?_⟩
      · rw [← h1, hfin]
        exact hb
      · intro b0 hb0
        rw [hpre] at hb0
        exact hpres b0 hb0
      · intro hnone
        apply hnew
        rw [hpre] at hnone
        rw [any_eq_isSome_find?, hnone]
        rfl
    · rw [if_neg hlp] at h
      injection h with h1 h2
      exact Option.noConfusion h2

/-! ### C10: the pose-bone pass and the node-mute pass of `enable_physics_preview` -/

theorem arm_bone_find_updObj_constraints_map (t : St) (nm : String)
    (g : Obj → List Constraint) (armName x : String) :
    arm_bone_find (t.updObj nm (fun o => { o with constraints := g o })) armName x
      = arm_bone_find t armName x := by
  unfold arm_bone_find St.findObj St.updObj
  dsimp only
  rw [find?_name_map _ _ _ (fun o => by
    by_cases hc : (o.name == nm) = true
    · simp only [hc, if_true]
    · simp only [hc]
      simp)]
  cases hfo : t.objs.find? (fun o => o.name == armName) with
  | none => rfl
  | some a =>
    simp only [Option.map_some']
    by_cases hc : (a.name == nm) = true
    · rw [if_pos hc]
      rfl
    · rw [if_neg hc]

theorem findObj_upd_arm_bones (t : St) (nm : String) (f : List Bone → List Bone) :
    (upd_arm_bones t nm f).findObj nm
      = (t.findObj nm).map (fun o =>
          match o.data with
          | ObjData.armData bs cs ab => { o with data := ObjData.armData (f bs) cs ab }
          | ObjData.plain => o) := by
  unfold upd_arm_bones St.updObj St.findObj
  dsimp only
  rw [find?_name_map _ _ _ (fun o => by
    by_cases hc : (o.name == nm) = true
    · simp only [hc, if_true]
      cases hdd : o.data <;> rfl
    · simp only [hc]
      simp)]
  cases hfo : t.objs.find? (fun o => o.name == nm) with
  | none => rfl
  | some a =>
    simp only [Option.map_some']
    have hcn : (a.name == nm) = true := by
      have h2 := List.find?_some hfo
      simpa using h2
    rw [if_pos hcn]

theorem arm_bone_find_upd_arm_bones_mod (t : St) (armName nn : String) (g : Bone → Bone)
    (hg : ∀ b, (g b).name = b.name) (x : String) :
    arm_bone_find (upd_arm_bones t armName (fun bs => mod_bone bs nn g)) armName x
      = if x = nn then (arm_bone_find t armName x).map g else arm_bone_find t armName x := by
  unfold arm_bone_find
  rw [findObj_upd_arm_bones]
  cases hfo : t.findObj armName with
  | none =>
    by_cases hx : x = nn
    · rw [if_pos hx]
      rfl
    · rw [if_neg hx]
      rfl
  | some a =>
    simp only [Option.map_some']
    cases hdd : a.data with
    | plain =>
      have hb : a.bones = [] := by
        unfold Obj.bones
        rw [hdd]
      dsimp only
      rw [hb]
      by_cases hx : x = nn
      · rw [if_pos hx]
        rfl
      · rw [if_neg hx]
    | armData bs cs ab =>
      have hb : a.bones = bs := by
        unfold Obj.bones
        rw [hdd]
      dsimp only
      show (mod_bone bs nn g).find? (fun b => b.name == x)
        = if x = nn then (a.bones.find? (fun b => b.name == x)).map g
          else a.bones.find? (fun b => b.name == x)
      rw [hb]
      by_cases hx : x = nn
      · rw [if_pos hx, hx]
        exact find?_mod_bone_self bs nn g hg
      · rw [if_neg hx]
        exact find?_mod_bone_ne bs nn g x hg hx

theorem arm_has_bone_upd_arm_bones_mod (t : St) (armName nn : String) (g : Bone → Bone)
    (hg : ∀ b, (g b).name = b.name) (x : String) :
    arm_has_bone (upd_arm_bones t armName (fun bs => mod_bone bs nn g)) armName x
      = arm_has_bone t armName x := by
  rw [arm_has_bone_eq_isSome, arm_has_bone_eq_isSome,
    arm_bone_find_upd_arm_bones_mod t armName nn g hg x]
  by_cases hx : x = nn
  · rw [if_pos hx]
    cases arm_bone_find t armName x <;> rfl
  · rw [if_neg hx]

theorem enable_pose_bone_name (nn : String) (b : Bone) :
    (enable_pose_bone nn b).name = b.name := rfl

theorem arm_bone_find_mute_fold (armName x : String) :
    ∀ (nodes : List Obj) (t : St),
    arm_bone_find (nodes.foldl (fun (t : St) (node : Obj) =>
        t.updObj node.name
          (fun o => { o with constraints := o.constraints.map mute_node_constraint })) t)
      armName x = arm_bone_find t armName x := by
  intro nodes
  induction nodes with
  | nil => intro t; rfl
  | cons m rest ih =>
    intro t
    rw [List.foldl_cons, ih]
    exact arm_bone_find_updObj_constraints_map t m.name
      (fun o => o.constraints.map mute_node_constraint) armName x

theorem pose_fold_find_ne (armName : String) :
    ∀ (nodes : List Obj) (t : St) (l : List String) (x : String),
    x ∉ nodes.map (fun n => n.name) →
    arm_bone_find (nodes.foldl (fun (acc : St × List String) (node : Obj) =>
        if arm_has_bone acc.1 armName node.name then
          (upd_arm_bones acc.1 armName
            (fun bs => mod_bone bs node.name (enable_pose_bone node.name)),
           acc.2 ++ [node.name])
        else acc) (t, l)).1 armName x
      = arm_bone_find t armName x := by
  intro nodes
  induction nodes with
  | nil => intro t l x _; rfl
  | cons m rest ih =>
    intro t l x hx
    rw [List.map_cons] at hx
    have hxm : x ≠ m.name := fun hc => hx (by rw [hc]; exact List.mem_cons_self _ _)
    have hxt : x ∉ rest.map (fun n => n.name) := fun hc => hx (List.mem_cons_of_mem _ hc)
    rw [List.foldl_cons]
    dsimp only
    by_cases harm : arm_has_bone t armName m.name = true
    · rw [if_pos harm]
      rw [ih _ _ x hxt]
      rw [arm_bone_find_upd_arm_bones_mod t armName m.name (enable_pose_bone m.name)
        (fun b => rfl) x, if_neg hxm]
    · rw [if_neg harm]
      exact ih t l x hxt

theorem pose_fold_bone_desc (armName : String) :
    ∀ (nodes : List Obj) (t : St) (l : List String),
    (nodes.map (fun n => n.name)).Nodup →
    ∀ n ∈ nodes,
    arm_bone_find (nodes.foldl (fun (acc : St × List String) (node : Obj) =>
        if arm_has_bone acc.1 armName node.name then
          (upd_arm_bones acc.1 armName
            (fun bs => mod_bone bs node.name (enable_pose_bone node.name)),
           acc.2 ++ [node.name])
        else acc) (t, l)).1 armName n.name
      = if arm_has_bone t armName n.name = true
        then (arm_bone_find t armName n.name).map (enable_pose_bone n.name)
        else arm_bone_find t armName n.name := by
  intro nodes
  induction nodes with
  | nil => intro t l _ n hn; exact absurd hn (List.not_mem_nil n)
  | cons m rest ih =>
    intro t l hnd n hn
    rw [List.map_cons] at hnd
    obtain ⟨hm_notin, hnd_rest⟩ := List.nodup_cons.mp hnd
    rw [List.foldl_cons]
    dsimp only
    rcases List.mem_cons.mp hn with rfl | hn'
    · by_cases harm : arm_has_bone t armName n.name = true
      · rw [if_pos harm, if_pos harm]
        rw [pose_fold_find_ne armName rest _ _ n.name hm_notin]
        rw [arm_bone_find_upd_arm_bones_mod t armName n.name (enable_pose_bone n.name)
          (fun b => rfl) n.name, if_pos rfl]
      · rw [if_neg harm, if_neg harm]
        exact pose_fold_find_ne armName rest t l n.name hm_notin
    · have hnm : n.name ≠ m.name := by
        intro he
        exact hm_notin (he ▸ List.mem_map_of_mem (fun x => x.name) hn')
      by_cases harm : arm_has_bone t armName m.name = true
      · rw [if_pos harm]
        rw [ih _ _ hnd_rest n hn']
        rw [arm_bone_find_upd_arm_bones_mod t armName m.name (enable_pose_bone m.name)
          (fun b => rfl) n.name, if_neg hnm]
        rw [arm_has_bone_upd_arm_bones_mod t armName m.name (enable_pose_bone m.name)
          (fun b => rfl) n.name]
      · rw [if_neg harm]
        exact ih t l hnd_rest n hn'

/-- One `enable_physics_preview` call that reaches its armature: each node's
bone ends as `enable_pose_bone` of a bone whose constraints are the pre-call
constraints (or empty if the bone is new). -/
theorem enable_call_bone_desc (s : St) (coll : Option (List String)) (armName : String)
    (arm : Obj) (nodes : List Obj)
    (hfo : s.findObj armName = some arm) (hisarm : arm.isArm = true)
    (hne : nodes ≠ []) (hnd : (nodes.map (fun n => n.name)).Nodup)
    (s1 : St) (ab : List String)
    (hEn : enable_physics_preview s coll (some armName) (some nodes)
      = (s1, some (some armName, ab))) :
    ∀ n ∈ nodes, ∃ bE,
      arm_bone_find s1 armName n.name = some (enable_pose_bone n.name bE)
      ∧ (∀ b0, arm_bone_find s armName n.name = some b0 → bE.constraints = b0.constraints)
      ∧ (arm_bone_find s armName n.name = none → bE.constraints = []) := by
  intro n hn
  rcases enable_result_cases s coll (some armName) (some nodes) with
    ⟨sE, hE, hEq⟩ | ⟨sE, nodesX, cntX, hE, hEq⟩ | ⟨sE, armNameX, nodesX, cntX, hE, hEq⟩
  · rw [hEq] at hEn
    injection hEn with h1 h2
    exact Option.noConfusion h2
  · rw [hEq] at hEn
    injection hEn with h1 h2
    injection h2 with h2
    injection h2 with h2a h2b
    exact Option.noConfusion h2a
  · have hfoS : (s.findObj armName).isSome = true := by
      rw [hfo]
      rfl
    rcases ensure_some_arm_cases s coll armName nodes hne hfoS sE _ hE with hnone | ⟨cnt2, hres⟩
    · exact Option.noConfusion hnone
    · injection hres with hres
      injection hres with hA hB
      injection hA with hA
      injection hB with hB1 hB2
      rw [hA, hB1] at hE
      rw [hA, hB1] at hEq
      rw [hEq] at hEn
      injection hEn with h1 h2
      obtain ⟨hnseq, hdesc⟩ := ensure_final_constraints_desc s coll (some armName)
        (some nodes) armName arm hfo hisarm hnd sE nodes cntX hE
      obtain ⟨bE, hbE, hbEpres, hbEnew⟩ := hdesc n hn
      have hasE : arm_has_bone sE armName n.name = true := by
        rw [arm_has_bone_eq_isSome, hbE]
        rfl
      refine ⟨bE, ?_, hbEpres, hbEnew⟩
      rw [← h1]
      rw [arm_bone_find_mute_fold armName n.name nodes]
      rw [pose_fold_bone_desc armName nodes sE [] hnd n hn]
      rw [if_pos hasE, hbE]
      rfl

/-- C10: `enable_physics_preview` called twice with the same collection,
armature and nodes.  Amended: the second call is *not* a state no-op in
general (counterexample: a child node listed before its chain-parent node has
its bone re-parented by the second call), but it creates no new pose-bone
constraint — each affected pose bone's constraint count is unchanged by the
second call — and after either call each affected pose bone carries exactly
one `COPY_TRANSFORMS` constraint named `"RE Chain Preview"` targeting its
node with empty subtarget, `WORLD` owner and target spaces, influence 1 and
mute `False` (assuming each pre-existing bone carried at most one such
constraint before the first call). -/
theorem claim_C10_enable_preview_idempotent (s : St) (coll : Option (List String))
    (armName : String) (arm : Obj) (nodes : List Obj)
    (hfo : s.findObj armName = some arm) (hisarm : arm.isArm = true)
    (hne : nodes ≠ [])
    (hnd : (nodes.map (fun n => n.name)).Nodup)
    (hpre : ∀ n ∈ nodes, ∀ b0, arm_bone_find s armName n.name = some b0 →
        b0.constraints.countP preview_ct ≤ 1)
    (s1 : St) (ab : List String)
    (hEn : enable_physics_preview s coll (some armName) (some nodes)
      = (s1, some (some armName, ab)))
    (s2 : St) (ab2 : List String)
    (hEn2 : enable_physics_preview s1 coll (some armName) (some nodes)
      = (s2, some (some armName, ab2))) :
    ∀ n ∈ nodes, ∃ b1 b2,
      arm_bone_find s1 armName n.name = some b1
      ∧ arm_bone_find s2 armName n.name = some b2
      ∧ (∃ c, b1.constraints.filter preview_ct = [c]
          ∧ c.name = "RE Chain Preview" ∧ c.ctype = CType.COPY_TRANSFORMS
          ∧ c.target = some n.name ∧ c.subtarget = "" ∧ c.ownerSpace = CSpace.WORLD
          ∧ c.targetSpace = CSpace.WORLD ∧ c.influence = 1 ∧ c.mute = false)
      ∧ (∃ c, b2.constraints.filter preview_ct = [c]
          ∧ c.name = "RE Chain Preview" ∧ c.ctype = CType.COPY_TRANSFORMS
          ∧ c.target = some n.name ∧ c.subtarget = "" ∧ c.ownerSpace = CSpace.WORLD
          ∧ c.targetSpace = CSpace.WORLD ∧ c.influence = 1 ∧ c.mute = false)
      ∧ b2.constraints.length = b1.constraints.length := by
  intro n hn
  obtain ⟨bE, hb1, hpres1, hnew1⟩ := enable_call_bone_desc s coll armName arm nodes
    hfo hisarm hne hnd s1 ab hEn n hn
  have hcountE : bE.constraints.countP preview_ct ≤ 1 := by
    cases hb0 : arm_bone_find s armName n.name with
    | none =>
      rw [hnew1 hb0]
      simp
    | some b0 =>
      rw [hpres1 b0 hb0]
      exact hpre n hn b0 hb0
  obtain ⟨c1, hftr1, hcn1, hcc1, hct1, hcs1, hco1, hcts1, hci1, hcm1⟩ :=
    enable_pose_bone_filter n.name bE hcountE
  obtain ⟨arm1, hfo1, hisarm1⟩ := arm_bone_find_isArm s1 armName n.name _ hb1
  obtain ⟨bE2, hb2, hpres2, hnew2⟩ := enable_call_bone_desc s1 coll armName arm1 nodes
    hfo1 hisarm1 hne hnd s2 ab2 hEn2 n hn
  have hbe2c : bE2.constraints = (enable_pose_bone n.name bE).constraints := hpres2 _ hb1
  have hcount1 : (enable_pose_bone n.name bE).constraints.countP preview_ct ≤ 1 := by
    rw [List.countP_eq_length_filter, hftr1]
    simp
  have hcount2 : bE2.constraints.countP preview_ct ≤ 1 := by
    rw [hbe2c]
    exact hcount1
  obtain ⟨c2, hftr2, hcn2, hcc2, hct2, hcs2, hco2, hctsp2, hci2, hcm2⟩ :=
    enable_pose_bone_filter n.name bE2 hcount2
  have hany2 : bE2.constraints.any preview_ct = true := by
    rw [hbe2c]
    have hcmem : c1 ∈ (enable_pose_bone n.name bE).constraints.filter preview_ct := by
      rw [hftr1]
      exact List.mem_singleton.mpr rfl
    have hm2 := List.mem_filter.mp hcmem
    exact List.any_eq_true.mpr ⟨c1, hm2.1, hm2.2⟩
  refine ⟨enable_pose_bone n.name bE, enable_pose_bone n.name bE2, hb1, hb2,
    ⟨c1, hftr1, hcn1, hcc1, hct1, hcs1, hco1, hcts1, hci1, hcm1⟩,
    ⟨c2, hftr2, hcn2, hcc2, hct2, hcs2, hco2, hctsp2, hci2, hcm2⟩, ?_⟩
  rw [enable_pose_bone_length n.name bE2 hany2, hbe2c]

/-- Witness for C10 at the two-node fixture (parent node listed first): both
calls reach the armature and bone `"N0"` ends with exactly one preview
constraint, whose stack size the second call leaves unchanged. -/
theorem claim_C10_enable_preview_idempotent_witness :
    ∃ b1 b2,
      arm_bone_find (enable_physics_preview wit_st none (some "Arm")
          (some [wit_node0, wit_node1])).1 "Arm" "N0" = some b1
      ∧ arm_bone_find (enable_physics_preview
            (enable_physics_preview wit_st none (some "Arm")
              (some [wit_node0, wit_node1])).1 none (some "Arm")
            (some [wit_node0, wit_node1])).1 "Arm" "N0" = some b2
      ∧ (∃ c, b1.constraints.filter preview_ct = [c]
          ∧ c.name = "RE Chain Preview" ∧ c.ctype = CType.COPY_TRANSFORMS
          ∧ c.target = some "N0" ∧ c.subtarget = "" ∧ c.ownerSpace = CSpace.WORLD
          ∧ c.targetSpace = CSpace.WORLD ∧ c.influence = 1 ∧ c.mute = false)
      ∧ (∃ c, b2.constraints.filter preview_ct = [c]
          ∧ c.name = "RE Chain Preview" ∧ c.ctype = CType.COPY_TRANSFORMS
          ∧ c.target = some "N0" ∧ c.subtarget = "" ∧ c.ownerSpace = CSpace.WORLD
          ∧ c.targetSpace = CSpace.WORLD ∧ c.influence = 1 ∧ c.mute = false)
      ∧ b2.constraints.length = b1.constraints.length :=
  claim_C10_enable_preview_idempotent wit_st none "Arm" wit_arm [wit_node0, wit_node1]
    (by with_unfolding_all decide)
    rfl
    (by intro h; exact List.noConfusion h)
    (by with_unfolding_all decide)
    (by
      intro n hn b0 hb0
      have hfind : arm_bone_find wit_st "Arm" n.name = none := by
        unfold arm_bone_find
        rw [show wit_st.findObj "Arm" = some wit_arm from by with_unfolding_all decide]
        rfl
      rw [hfind] at hb0
      exact Option.noConfusion hb0)
    (enable_physics_preview wit_st none (some "Arm") (some [wit_node0, wit_node1])).1
    ["N0", "N1"]
    (by with_unfolding_all decide)
    (enable_physics_preview
      (enable_physics_preview wit_st none (some "Arm") (some [wit_node0, wit_node1])).1
      none (some "Arm") (some [wit_node0, wit_node1])).1
    ["N0", "N1"]
    (by with_unfolding_all decide)
    wit_node0 (List.mem_cons_self _ _)

/-- Counterexample for C10's "changes no state" clause: with the child node
`"N1"` listed before its chain parent `"N0"` and no pre-existing bones, the
first call leaves bone `"N1"` un-parented (bone `"N0"` does not exist yet
while `"N1"` is processed), and the second call re-parents it to `"N0"` —
the state after the second call differs from the state after the first. -/
theorem claim_C10_enable_preview_idempotent_counterexample :
    ((arm_bone_find (enable_physics_preview wit_st none (some "Arm")
          (some [wit_node1, wit_node0])).1 "Arm" "N1").map (fun b => b.parent)
        = some none)
    ∧ ((arm_bone_find (enable_physics_preview
            (enable_physics_preview wit_st none (some "Arm")
              (some [wit_node1, wit_node0])).1 none (some "Arm")
            (some [wit_node1, wit_node0])).1 "Arm" "N1").map (fun b => b.parent)
        = some (some "N0"))
    ∧ (enable_physics_preview
          (enable_physics_preview wit_st none (some "Arm")
            (some [wit_node1, wit_node0])).1 none (some "Arm")
          (some [wit_node1, wit_node0])).1
        ≠ (enable_physics_preview wit_st none (some "Arm")
            (some [wit_node1, wit_node0])).1 := by
  with_unfolding_all decide
